import Mathlib

/-!
# objbase: a process-wide object factory and registry

A shallow embedding of `include/obj_base.h` (class `ObjBase`) and of
`src/objbase.cpp` (`GetObjBase`), and the theorems that settle the
specification's statements about them.

Modelling decisions, all read off the source:

* `std::wstring` is a list of characters. It may hold the character NUL; `c_str`
  is the C-string view that `wcsstr` and `LoadLibraryW` see, which stops at the
  first NUL.
* `void*` is a natural number, `0` being `nullptr`.
* `std::function` values are total functions on an external world `W` (the user
  heap, counters, the table of loaded modules); they do not call back into the
  registry.
* `std::map` is an association list: `operator[]=` is `Map.assign` (which
  drops any older entry of the key), `erase` is `Map.erase`, `find` is
  `Map.find`.
* `std::shared_ptr` / `std::weak_ptr` are indices of control blocks
  (`CtrlBlock`): stored pointer, use count, deleter closure. A `ClassInfo` is
  never mutated after `RegisterCls` fills it, so `shared_ptr<ClassInfo>` is the
  pair of the allocation address and the pointee (`InfoPtr`).
* The mutexes are not modelled: an operation runs as a whole (`Op`, `ObjBase.run`).
  `CreateSingletonObj` is nevertheless written as its two locked steps, and the
  interleaving of two requests is the sequence of their steps.
* A ghost `trace` records every call of a construct function, of a destroy
  function and of `LoadLibraryW`, so that "is invoked exactly once, with
  argument p" can be stated. A ghost `seenAtDestroy` records the singleton
  cache each destroy call is entered with, so that the order of the deleter's
  two statements can be stated.
* Two things the source leaves to the build are parameters (`Env`): whether
  `assert` is compiled in (`NDEBUG`), and in which order the two arguments of
  the `std::shared_ptr` constructor are evaluated (`ArgOrder`); C++ leaves the
  latter unspecified.
-/

namespace ObjBaseModel

/-- The type `std::wstring`. -/
abbrev wstring := List Char

/-- The type `void*`; `0` is `nullptr`. -/
abbrev VoidPtr := Nat

/-- The null pointer. -/
def nullptr : VoidPtr := 0

/-- The terminating character of a C string. -/
def NUL : Char := Char.ofNat 0

/-- The macro `DLL_SEPARATOR`, by default `L"@"`. -/
def DLL_SEPARATOR : wstring := ['@']

/-- The C-string view `name.c_str()` as C library functions read it: the
characters before the first NUL. -/
def c_str (name : wstring) : wstring :=
  name.takeWhile (fun c => decide (c ≠ NUL))

/-- Does the C string `hay` begin with `needle`? -/
def startsWith : wstring → wstring → Bool
  | [], _ => true
  | _ :: _, [] => false
  | a :: as, b :: bs => decide (a = b) && startsWith as bs

/-- The C function `wcsstr(hay, needle)`: the offset of the first occurrence of
`needle` in `hay`, or `none` for the null result. -/
def wcsstr : wstring → wstring → Option Nat
  | [], needle => if needle = [] then some 0 else none
  | h :: t, needle =>
    if startsWith needle (h :: t) then some 0
    else (wcsstr t needle).map (fun p => p + 1)

/-! ## `std::map` -/

/-- The call `m.find(k)`: the mapped value, `none` for `end()`. -/
def Map.find {α : Type} (k : wstring) : List (wstring × α) → Option α
  | [] => none
  | (k', v) :: m => if k' = k then some v else Map.find k m

/-- The call `m.erase(k)`. -/
def Map.erase {α : Type} (k : wstring) (m : List (wstring × α)) : List (wstring × α) :=
  m.filter (fun e => decide (e.1 ≠ k))

/-- The assignment `m[k] = v`: inserts, or overwrites the entry under `k`. -/
def Map.assign {α : Type} (k : wstring) (v : α) (m : List (wstring × α)) :
    List (wstring × α) :=
  (k, v) :: Map.erase k m

/-! ## Data model -/

/-- The struct `ObjBase::ClassInfo`: the construct and the destroy function.
`pfnCreate w slot` runs `pfnCreate(&obj)` in world `w` with `*&obj = slot`, and
gives the returned pointer, the value left in the slot, and the new world. -/
structure ClassInfo (W : Type) where
  pfnCreate : W → VoidPtr → VoidPtr × VoidPtr × W
  pfnDestroy : VoidPtr → W → W

/-- A `std::shared_ptr<ClassInfo>`: the address `make_shared` returned and the
(immutable) pointee. -/
structure InfoPtr (W : Type) where
  addr : Nat
  obj : ClassInfo W

/-- The deleter closures the source creates: the one of `CreateObj`
(`[info, obj]`), the one of `CreateSingletonObj` (`[this, info, objName, obj]`)
and the one of the registration token (`[this, objName]`). -/
inductive Deleter (W : Type) where
  | transient (info : InfoPtr W) (obj : VoidPtr)
  | singleton (info : InfoPtr W) (objName : wstring) (obj : VoidPtr)
  | token (objName : wstring)

/-- The control block of a `shared_ptr`: stored pointer, number of owning
handles, deleter. -/
structure CtrlBlock (W : Type) where
  ptr : VoidPtr
  use_count : Nat
  deleter : Deleter W

/-- Ghost record of the calls that leave the registry. -/
inductive Event where
  | create (info : Nat) (slot : VoidPtr) (ret : VoidPtr)
  | destroy (info : Nat) (arg : VoidPtr)
  | load (dllname : wstring) (ok : Bool)
  deriving DecidableEq, Repr

/-- The registry object together with the part of the process it acts on.
`classes_` and `singletons_` are the data members of `ObjBase` (a weak pointer
is the index of its control block); `blocks` is the heap of control blocks,
`nextInfo` the next `ClassInfo` address, `world` everything the user functions
and the module loader act on, `trace` the ghost record. `seenAtDestroy` is
ghost too: for every call of a destroy function, in call order, the singleton
cache as that call finds it on entry. -/
structure ObjBase (W : Type) where
  classes_ : List (wstring × InfoPtr W)
  singletons_ : List (wstring × Nat)
  blocks : List (CtrlBlock W)
  nextInfo : Nat
  world : W
  trace : List Event
  seenAtDestroy : List (List (wstring × Nat))

/-- A `std::shared_ptr<T>` held by a caller: `none` is the empty pointer `{}`,
`some b` owns control block `b`. -/
abbrev Handle := Option Nat

/-- Order in which `std::shared_ptr<Interface>(pfnCreate(&obj), [.., obj]{..})`
evaluates its two arguments. The initialisations of the parameters of a call are
indeterminately sequenced in C++, so either order is a conforming build. The
lambda copies `obj` at the moment it is evaluated, `pfnCreate(&obj)` writes `obj`
at the moment it runs. -/
inductive ArgOrder where
  | pointerFirst
  | deleterFirst
  deriving DecidableEq, Repr

/-- What the build and the operating system fix. `LoadLibraryW dll w` is `none`
when the load fails (world unchanged) and otherwise the new world and the
registrations the module performs while it initialises (its `REGISTER_OBJECT`
statics, whose tokens the module keeps). `NDEBUG` disables `assert`. -/
structure Env (W : Type) where
  LoadLibraryW : wstring → W → Option (W × List (wstring × ClassInfo W))
  NDEBUG : Bool
  order : ArgOrder

/-- Outcome of an operation: it returns `val` in state `s`, or the process stops
in state `s` at the failed `assert`. -/
inductive Result (W : Type) (α : Type) where
  | ok (val : α) (s : ObjBase W)
  | assertFailed (s : ObjBase W)

/-- The state in which an operation ended. -/
def Result.state {W α : Type} : Result W α → ObjBase W
  | .ok _ s => s
  | .assertFailed s => s

/-- The registry a fresh process constructs (`std::make_shared<ObjBase>()`). -/
def ObjBase.empty {W : Type} (w : W) : ObjBase W :=
  { classes_ := [], singletons_ := [], blocks := [], nextInfo := 0, world := w, trace := [],
    seenAtDestroy := [] }

/-! ## Operations -/

/-- The method `ObjBase::RegisterCls`: allocates the `ClassInfo`, stores it under
`objName`, returns the token `shared_ptr<void>((void*)1, [this, objName]{..})`. -/
def ObjBase.RegisterCls {W : Type} (objName : wstring)
    (pfnCreate : W → VoidPtr → VoidPtr × VoidPtr × W) (pfnDestroy : VoidPtr → W → W)
    (s : ObjBase W) : Nat × ObjBase W :=
  let info : InfoPtr W := { addr := s.nextInfo, obj := { pfnCreate := pfnCreate, pfnDestroy := pfnDestroy } }
  (s.blocks.length,
    { s with
      nextInfo := s.nextInfo + 1
      classes_ := Map.assign objName info s.classes_
      blocks := s.blocks ++ [{ ptr := 1, use_count := 1, deleter := Deleter.token objName }] })

/-- The registrations a module performs when it is loaded, in order. -/
def ObjBase.moduleInit {W : Type} (regs : List (wstring × ClassInfo W)) (s : ObjBase W) :
    ObjBase W :=
  regs.foldl (fun st r => (st.RegisterCls r.1 r.2.pfnCreate r.2.pfnDestroy).2) s

/-- The method `ObjBase::GetClsInfo`. -/
def ObjBase.GetClsInfo {W : Type} (env : Env W) (name : wstring) (s : ObjBase W) :
    Result W (Option (InfoPtr W)) :=
  match Map.find name s.classes_ with
  | some info => .ok (some info) s
  | none =>
    match wcsstr (c_str name) DLL_SEPARATOR with
    | none => .ok none s
    | some p =>
      let dllname := (c_str name).take p
      match env.LoadLibraryW (c_str dllname) s.world with
      | some (w, regs) =>
        let s1 := ObjBase.moduleInit regs
          { s with world := w, trace := s.trace ++ [Event.load (c_str dllname) true] }
        .ok (Map.find name s1.classes_) s1
      | none =>
        let s1 := { s with trace := s.trace ++ [Event.load (c_str dllname) false] }
        if env.NDEBUG then .ok none s1 else .assertFailed s1

/-- The value of `obj` the deleter closure holds: the slot as `pfnCreate` left
it when the pointer argument is evaluated first, the initial `nullptr` when the
lambda is evaluated first. -/
def capturedObj (order : ArgOrder) (slotAfter : VoidPtr) : VoidPtr :=
  match order with
  | .pointerFirst => slotAfter
  | .deleterFirst => nullptr

/-- The method `ObjBase::CreateObj`. -/
def ObjBase.CreateObj {W : Type} (env : Env W) (objName : wstring) (s : ObjBase W) :
    Result W Handle :=
  match s.GetClsInfo env objName with
  | .assertFailed s1 => .assertFailed s1
  | .ok none s1 => .ok none s1
  | .ok (some info) s1 =>
    let r := info.obj.pfnCreate s1.world nullptr
    .ok (some s1.blocks.length)
      { s1 with
        world := r.2.2
        trace := s1.trace ++ [Event.create info.addr r.2.1 r.1]
        blocks := s1.blocks ++
          [{ ptr := r.1, use_count := 1
             deleter := Deleter.transient info (capturedObj env.order r.2.1) }] }

/-- First locked block of `CreateSingletonObj`: `find`, `lock()`, `if (obj)`.
On a hit the caller gets one more owning handle of the cached block. -/
def ObjBase.singletonLookup {W : Type} (objName : wstring) (s : ObjBase W) :
    Option (Nat × ObjBase W) :=
  match Map.find objName s.singletons_ with
  | none => none
  | some b =>
    match s.blocks[b]? with
    | none => none
    | some cb =>
      if cb.use_count = 0 then none
      else if cb.ptr = nullptr then none
      else some (b, { s with blocks := s.blocks.set b { cb with use_count := cb.use_count + 1 } })

/-- Rest of `CreateSingletonObj` after a cache miss: resolve, construct, then
store the weak reference under the lock. -/
def ObjBase.singletonConstructStore {W : Type} (env : Env W) (objName : wstring)
    (s : ObjBase W) : Result W Handle :=
  match s.GetClsInfo env objName with
  | .assertFailed s1 => .assertFailed s1
  | .ok none s1 => .ok none s1
  | .ok (some info) s1 =>
    let r := info.obj.pfnCreate s1.world nullptr
    .ok (some s1.blocks.length)
      { s1 with
        world := r.2.2
        trace := s1.trace ++ [Event.create info.addr r.2.1 r.1]
        blocks := s1.blocks ++
          [{ ptr := r.1, use_count := 1
             deleter := Deleter.singleton info objName (capturedObj env.order r.2.1) }]
        singletons_ := Map.assign objName s1.blocks.length s1.singletons_ }

/-- The method `ObjBase::CreateSingletonObj`. -/
def ObjBase.CreateSingletonObj {W : Type} (env : Env W) (objName : wstring)
    (s : ObjBase W) : Result W Handle :=
  match s.singletonLookup objName with
  | some (b, s1) => .ok (some b) s1
  | none => s.singletonConstructStore env objName

/-- The call `info->pfnDestroy(obj)`, made in state `s`: the destroy function acts
on the world; the ghost fields record the call and the cache it is entered
with. -/
def ObjBase.callDestroy {W : Type} (info : InfoPtr W) (obj : VoidPtr) (s : ObjBase W) :
    ObjBase W :=
  { s with
    world := info.obj.pfnDestroy obj s.world
    trace := s.trace ++ [Event.destroy info.addr obj]
    seenAtDestroy := s.seenAtDestroy ++ [s.singletons_] }

/-- The statement `singletons_.erase(objName)` of the singleton deleter. -/
def ObjBase.eraseSingleton {W : Type} (objName : wstring) (s : ObjBase W) : ObjBase W :=
  { s with singletons_ := Map.erase objName s.singletons_ }

/-- Body of a deleter closure. -/
def ObjBase.runDeleter {W : Type} (d : Deleter W) (s : ObjBase W) : ObjBase W :=
  match d with
  | .transient info obj => s.callDestroy info obj
  | .singleton info objName obj => (s.eraseSingleton objName).callDestroy info obj
  | .token objName => { s with classes_ := Map.erase objName s.classes_ }

/-- Destruction of one owning handle. The last owner runs the deleter. A handle
of a block that has no owner left is not a handle any caller can hold; it is
ignored. -/
def ObjBase.release {W : Type} (h : Handle) (s : ObjBase W) : ObjBase W :=
  match h with
  | none => s
  | some b =>
    match s.blocks[b]? with
    | none => s
    | some cb =>
      if cb.use_count = 0 then s
      else if cb.use_count = 1 then
        ObjBase.runDeleter cb.deleter
          { s with blocks := s.blocks.set b { cb with use_count := 0 } }
      else { s with blocks := s.blocks.set b { cb with use_count := cb.use_count - 1 } }

/-- Copy of an owning handle. -/
def ObjBase.copy {W : Type} (h : Handle) (s : ObjBase W) : ObjBase W :=
  match h with
  | none => s
  | some b =>
    match s.blocks[b]? with
    | none => s
    | some cb =>
      if cb.use_count = 0 then s
      else { s with blocks := s.blocks.set b { cb with use_count := cb.use_count + 1 } }

/-- Number of calls of a destroy function recorded in a trace. -/
def destroyCount (t : List Event) : Nat :=
  (t.filter (fun e => match e with
    | .destroy _ _ => true
    | _ => false)).length

/-- Number of calls of a construct function recorded in a trace. -/
def createCount (t : List Event) : Nat :=
  (t.filter (fun e => match e with
    | .create _ _ _ => true
    | _ => false)).length

/-- Number of calls of `LoadLibraryW` recorded in a trace. -/
def loadCount (t : List Event) : Nat :=
  (t.filter (fun e => match e with
    | .load _ _ => true
    | _ => false)).length

/-- The module locator the specification speaks of: the part of a name strictly
before its first `@`. -/
def locator (name : wstring) : wstring :=
  name.takeWhile (fun c => decide (c ≠ '@'))

/-! ## Observations on handles -/

/-- The test `static_cast<bool>(h)` in state `s`: the handle owns a block whose
stored pointer is not null. -/
def ObjBase.isNonEmpty {W : Type} (s : ObjBase W) (h : Handle) : Bool :=
  match h with
  | none => false
  | some b =>
    match s.blocks[b]? with
    | none => false
    | some cb => decide (cb.ptr ≠ nullptr)

/-- The value `h.use_count()` in state `s`. -/
def ObjBase.useCount {W : Type} (s : ObjBase W) (h : Handle) : Nat :=
  match h with
  | none => 0
  | some b =>
    match s.blocks[b]? with
    | none => 0
    | some cb => cb.use_count

/-! ## States named in the statements -/

/-- The state `CreateSingletonObj(N)` returns when it constructs from `info`
in state `s`. -/
def ObjBase.singletonBorn {W : Type} (env : Env W) (N : wstring) (info : InfoPtr W)
    (s : ObjBase W) : ObjBase W :=
  { s with
    world := (info.obj.pfnCreate s.world nullptr).2.2
    trace := s.trace ++ [Event.create info.addr (info.obj.pfnCreate s.world nullptr).2.1
      (info.obj.pfnCreate s.world nullptr).1]
    blocks := s.blocks ++
      [{ ptr := (info.obj.pfnCreate s.world nullptr).1, use_count := 1
         deleter := Deleter.singleton info N
           (capturedObj env.order (info.obj.pfnCreate s.world nullptr).2.1) }]
    singletons_ := Map.assign N s.blocks.length s.singletons_ }

/-- The state after the only handle of the singleton constructed by
`singletonBorn` has been released. -/
def ObjBase.singletonDead {W : Type} (env : Env W) (N : wstring) (info : InfoPtr W)
    (s : ObjBase W) : ObjBase W :=
  { (s.singletonBorn env N info) with
    singletons_ := Map.erase N (s.singletonBorn env N info).singletons_
    blocks := (s.singletonBorn env N info).blocks.set s.blocks.length
      { ptr := (info.obj.pfnCreate s.world nullptr).1, use_count := 0
        deleter := Deleter.singleton info N
          (capturedObj env.order (info.obj.pfnCreate s.world nullptr).2.1) }
    world := info.obj.pfnDestroy
      (capturedObj env.order (info.obj.pfnCreate s.world nullptr).2.1)
      (s.singletonBorn env N info).world
    trace := (s.singletonBorn env N info).trace ++ [Event.destroy info.addr
      (capturedObj env.order (info.obj.pfnCreate s.world nullptr).2.1)]
    seenAtDestroy := (s.singletonBorn env N info).seenAtDestroy ++
      [Map.erase N (s.singletonBorn env N info).singletons_] }

/-! ## A concrete class

The shape `REGISTER_OBJECT` produces, on a world that counts live objects:
construct allocates at address `100`, stores it in the slot and returns the
interface sub-object at `108`; destroy is `delete static_cast<C*>(p)`, which
does nothing for a null `p`. -/

/-- Construct function of the example class. -/
def fooCreate : Nat → VoidPtr → VoidPtr × VoidPtr × Nat :=
  fun w _ => (108, 100, w + 1)

/-- Destroy function of the example class. -/
def fooDestroy : VoidPtr → Nat → Nat :=
  fun p w => if p = nullptr then w else w - 1

/-- The class name `L"Foo"`. -/
def fooName : wstring := ['F', 'o', 'o']

/-- A loader that finds no module. -/
def noModules : wstring → Nat → Option (Nat × List (wstring × ClassInfo Nat)) :=
  fun _ _ => none

/-- Build in which the pointer argument is evaluated before the lambda. -/
def envPointerFirst : Env Nat :=
  { LoadLibraryW := noModules, NDEBUG := true, order := ArgOrder.pointerFirst }

/-- Build in which the lambda is evaluated before the pointer argument. -/
def envDeleterFirst : Env Nat :=
  { LoadLibraryW := noModules, NDEBUG := true, order := ArgOrder.deleterFirst }

/-- Registry with `L"Foo"` registered, no live object. -/
def fooRegistry : ObjBase Nat :=
  ((ObjBase.empty 0).RegisterCls fooName fooCreate fooDestroy).2

/-- Construct function of a second class, used to overwrite `L"Foo"`. -/
def barCreate : Nat → VoidPtr → VoidPtr × VoidPtr × Nat :=
  fun w _ => (208, 200, w + 1000)

/-- Destroy function of the second class. -/
def barDestroy : VoidPtr → Nat → Nat :=
  fun p w => if p = nullptr then w else w - 1000

/-- The class name `L"Bar"`, which nobody registers. -/
def barName : wstring := ['B', 'a', 'r']

/-- The class name `L"missing.mod@IFoo"`. -/
def missingName : wstring :=
  ['m', 'i', 's', 's', 'i', 'n', 'g', '.', 'm', 'o', 'd', '@', 'I', 'F', 'o', 'o']

/-- A name whose `@` comes after a NUL character. -/
def nulName : wstring := ['a', NUL, '@', 'b']

/-- A loader for which every load succeeds and registers nothing. -/
def envLoadsAll : Env Nat :=
  { LoadLibraryW := fun _ w => some (w, []), NDEBUG := false, order := ArgOrder.pointerFirst }

/-- The class name `L"a@b@c"`. -/
def abcName : wstring := ['a', '@', 'b', '@', 'c']

/-- The class name `L"@x"`. -/
def atName : wstring := ['@', 'x']

/-! ## Inputs for the module load -/

/-- The class name `L"mod@IFoo"`. -/
def modName : wstring := ['m', 'o', 'd', '@', 'I', 'F', 'o', 'o']

/-- The class name `L"IFoo"`: the part of `L"mod@IFoo"` after the separator. -/
def ifooName : wstring := ['I', 'F', 'o', 'o']

/-- A debug build in which module `L"mod"` loads and registers its class under
the full name `L"mod@IFoo"`; no other module exists. -/
def envModFull : Env Nat :=
  { LoadLibraryW := fun dll w =>
      if dll = ['m', 'o', 'd'] then
        some (w, [(modName, { pfnCreate := fooCreate, pfnDestroy := fooDestroy })])
      else none
    NDEBUG := false
    order := ArgOrder.pointerFirst }

/-- A debug build in which module `L"mod"` loads but registers its class under
`L"IFoo"` only. -/
def envModShort : Env Nat :=
  { LoadLibraryW := fun dll w =>
      if dll = ['m', 'o', 'd'] then
        some (w, [(ifooName, { pfnCreate := fooCreate, pfnDestroy := fooDestroy })])
      else none
    NDEBUG := false
    order := ArgOrder.pointerFirst }

/-! ## Scenarios with several instances -/

/-- The state `CreateObj(N)` returns when it constructs from `info` in state `s`. -/
def ObjBase.transientBorn {W : Type} (env : Env W) (info : InfoPtr W) (s : ObjBase W) :
    ObjBase W :=
  { s with
    world := (info.obj.pfnCreate s.world nullptr).2.2
    trace := s.trace ++ [Event.create info.addr (info.obj.pfnCreate s.world nullptr).2.1
      (info.obj.pfnCreate s.world nullptr).1]
    blocks := s.blocks ++
      [{ ptr := (info.obj.pfnCreate s.world nullptr).1, use_count := 1
         deleter := Deleter.transient info
           (capturedObj env.order (info.obj.pfnCreate s.world nullptr).2.1) }] }

/-- The caller calls `CreateObj(objName)` `k` times in a row and keeps every
handle: the handles in the order of the calls, and the final state. A failed
assertion ends the run. -/
def ObjBase.createMany {W : Type} (env : Env W) (objName : wstring) :
    Nat → ObjBase W → List Handle × ObjBase W
  | 0, s => ([], s)
  | k + 1, s =>
    match s.CreateObj env objName with
    | .ok h s1 => (h :: (ObjBase.createMany env objName k s1).1,
        (ObjBase.createMany env objName k s1).2)
    | .assertFailed s1 => ([], s1)

/-- The caller releases the handles of `hs`, in that order. -/
def ObjBase.releaseAll {W : Type} (hs : List Handle) (s : ObjBase W) : ObjBase W :=
  hs.foldl (fun st h => st.release h) s

/-- The handle `h` is the only owner of a transient instance of `info`. -/
def ObjBase.solelyOwnsTransient {W : Type} (info : InfoPtr W) (s : ObjBase W) (h : Handle) :
    Prop :=
  ∃ b cb obj, h = some b ∧ s.blocks[b]? = some cb ∧ cb.use_count = 1 ∧
    cb.deleter = Deleter.transient info obj

/-! ## The process-wide instance (`src/objbase.cpp`) -/

/-- The part of the process `GetObjBase` acts on: every `ObjBase` object that
`std::make_shared<ObjBase>()` has constructed, by address; the static
`instance_` (`none` is the null pointer); and the world as it is before a
registry exists. The static mutex is not modelled. -/
structure Process (W : Type) where
  objects : List (ObjBase W)
  instance_ : Option Nat
  world : W

/-- The process before its first call. -/
def Process.start {W : Type} (w : W) : Process W :=
  { objects := [], instance_ := none, world := w }

/-- The function `GetObjBase`: constructs the registry if `instance_` is null, and
returns `instance_`. -/
def GetObjBase {W : Type} (p : Process W) : Option Nat × Process W :=
  let p1 : Process W :=
    match p.instance_ with
    | none =>
      { p with
        objects := p.objects ++ [ObjBase.empty p.world]
        instance_ := some p.objects.length }
    | some _ => p
  (p1.instance_, p1)

/-- The static method `ObjBase::getInstance`. -/
def ObjBase.getInstance {W : Type} (p : Process W) : Option Nat × Process W :=
  GetObjBase p

/-- The registry a `shared_ptr<ObjBase>` points to. -/
def Process.deref {W : Type} (p : Process W) (h : Option Nat) : Option (ObjBase W) :=
  match h with
  | none => none
  | some a => p.objects[a]?

/-- A method call through the handle `h` that takes the registry it points to
from `o` to `f o`. -/
def Process.onObject {W : Type} (h : Option Nat) (f : ObjBase W → ObjBase W)
    (p : Process W) : Process W :=
  match h with
  | none => p
  | some a =>
    match p.objects[a]? with
    | none => p
    | some o => { p with objects := p.objects.set a (f o) }

/-- What a process does with the registry: ask for it, or call a method through
a handle it holds. -/
inductive ProcCall (W : Type) where
  | GetObjBase
  | getInstance
  | method (h : Option Nat) (f : ObjBase W → ObjBase W)

/-- A sequence of calls: the handles the `GetObjBase` / `getInstance` calls
returned, in order, and the final process. -/
def Process.run {W : Type} : List (ProcCall W) → Process W → List (Option Nat) × Process W
  | [], p => ([], p)
  | .GetObjBase :: cs, p =>
    ((GetObjBase p).1 :: (Process.run cs (GetObjBase p).2).1,
      (Process.run cs (GetObjBase p).2).2)
  | .getInstance :: cs, p =>
    ((ObjBase.getInstance p).1 :: (Process.run cs (ObjBase.getInstance p).2).1,
      (Process.run cs (ObjBase.getInstance p).2).2)
  | .method h f :: cs, p => Process.run cs (p.onObject h f)

/-- Either no registry exists yet, or exactly one, at address `0`, and
`instance_` points to it. -/
def Process.atMostOne {W : Type} (p : Process W) : Prop :=
  (p.instance_ = none ∧ p.objects = []) ∨ (p.instance_ = some 0 ∧ p.objects.length = 1)

/-! ## Atomic operations and reachable states -/

/-- The operations a client performs on the registry, each executed atomically.
`release b` is one holder dropping its handle of control block `b` (a
registration token or an instance), `copy b` one holder copying it. The caller
of a create operation keeps the returned handle. -/
inductive Op (W : Type) where
  | RegisterCls (objName : wstring) (pfnCreate : W → VoidPtr → VoidPtr × VoidPtr × W)
      (pfnDestroy : VoidPtr → W → W)
  | CreateObj (objName : wstring)
  | CreateSingletonObj (objName : wstring)
  | release (b : Nat)
  | copy (b : Nat)

/-- One atomic operation. -/
def ObjBase.step {W : Type} (env : Env W) (op : Op W) (s : ObjBase W) : ObjBase W :=
  match op with
  | .RegisterCls N c d => (s.RegisterCls N c d).2
  | .CreateObj N => (s.CreateObj env N).state
  | .CreateSingletonObj N => (s.CreateSingletonObj env N).state
  | .release b => s.release (some b)
  | .copy b => s.copy (some b)

/-- A sequence of atomic operations. -/
def ObjBase.run {W : Type} (env : Env W) (ops : List (Op W)) (s : ObjBase W) : ObjBase W :=
  ops.foldl (fun st op => st.step env op) s

/-- Control block `b` is a singleton instance created for `N` (its deleter is the
closure `CreateSingletonObj(N)` makes) that has at least one holder. -/
def ObjBase.isLiveSingleton {W : Type} (s : ObjBase W) (N : wstring) (b : Nat) : Bool :=
  match s.blocks[b]? with
  | none => false
  | some cb =>
    match cb.deleter with
    | .singleton _ M _ => decide (M = N) && decide (0 < cb.use_count)
    | _ => false

/-- The construct function never returns a null interface pointer. -/
def NonNullCreate {W : Type} (c : W → VoidPtr → VoidPtr × VoidPtr × W) : Prop :=
  ∀ w p, (c w p).1 ≠ nullptr

/-- The operation registers no construct function that can return null. -/
def Op.nonNull {W : Type} : Op W → Prop
  | .RegisterCls _ c _ => NonNullCreate c
  | _ => True

/-- No module registers a construct function that can return null. -/
def Env.nonNull {W : Type} (env : Env W) : Prop :=
  ∀ dll w w' regs, env.LoadLibraryW dll w = some (w', regs) →
    ∀ r ∈ regs, NonNullCreate r.2.pfnCreate

/-- The invariant of the singleton cache: every entry refers to a singleton
instance of its name that has a holder; every singleton instance that has a
holder is the entry of its name; singleton instances have non-null interface
pointers; registered construct functions never return null. -/
structure ObjBase.CacheInv {W : Type} (s : ObjBase W) : Prop where
  entry_live : ∀ (N : wstring) (b : Nat), Map.find N s.singletons_ = some b →
    ∃ cb info obj, s.blocks[b]? = some cb ∧ cb.deleter = Deleter.singleton info N obj ∧
      0 < cb.use_count
  live_entry : ∀ (N : wstring) (b : Nat) (cb : CtrlBlock W) (info : InfoPtr W) (obj : VoidPtr),
    s.blocks[b]? = some cb → cb.deleter = Deleter.singleton info N obj → 0 < cb.use_count →
    Map.find N s.singletons_ = some b
  nonnull : ∀ (N : wstring) (b : Nat) (cb : CtrlBlock W) (info : InfoPtr W) (obj : VoidPtr),
    s.blocks[b]? = some cb → cb.deleter = Deleter.singleton info N obj → cb.ptr ≠ nullptr
  creates : ∀ (N : wstring) (info : InfoPtr W), Map.find N s.classes_ = some info →
    NonNullCreate info.obj.pfnCreate

/-- Construct function whose interface cast fails: the object is allocated at
`100` and stored in the slot, the returned interface pointer is null. -/
def nullCreate : Nat → VoidPtr → VoidPtr × VoidPtr × Nat :=
  fun w _ => (nullptr, 100, w + 1)

/-- Construct function that fails on its first call (the world counts the
calls): it then allocates nothing, leaves the slot null and returns null. Every
later call allocates at `100` and returns the interface pointer `108`. -/
def retryCreate : Nat → VoidPtr → VoidPtr × VoidPtr × Nat :=
  fun w _ => if w = 0 then (nullptr, nullptr, w + 1) else (108, 100, w + 1)

/-- Operations that break the cache invariant: `L"Foo"` is registered with the
construct function that fails once, and its singleton is requested twice (the
caller retries after the failure). -/
def retryOps : List (Op Nat) :=
  [Op.RegisterCls fooName retryCreate fooDestroy, Op.CreateSingletonObj fooName,
    Op.CreateSingletonObj fooName]

/-- Operations on a class whose construct function never returns null. -/
def fooOps : List (Op Nat) :=
  [Op.RegisterCls fooName fooCreate fooDestroy, Op.CreateSingletonObj fooName,
    Op.CreateSingletonObj fooName, Op.release 1, Op.CreateObj fooName]

/-! ## Two interleaved first-time requests -/

/-- Control block `b` is the singleton of `N` that a cache lookup finds: the
entry of `N` refers to it, it was created for `N`, it has a holder and its
interface pointer is not null. -/
def ObjBase.Discoverable {W : Type} (N : wstring) (b : Nat) (s : ObjBase W) : Prop :=
  Map.find N s.singletons_ = some b ∧
    ∃ cb info obj, s.blocks[b]? = some cb ∧ cb.deleter = Deleter.singleton info N obj ∧
      0 < cb.use_count ∧ cb.ptr ≠ nullptr

/-- The state after two requests for the singleton of `L"Foo"` have both missed
the cache and then both run their construct-then-store step: instance `1` is
stored first, instance `2` last. -/
def raceState : ObjBase Nat :=
  ((fooRegistry.singletonConstructStore envPointerFirst fooName).state.singletonConstructStore
    envPointerFirst fooName).state

/-- A debug build (assertions enabled) in which no module can be loaded. -/
def envDebugNoModules : Env Nat :=
  { LoadLibraryW := noModules, NDEBUG := false, order := ArgOrder.pointerFirst }

/-- Every weak pointer in the cache refers to a control block that has been
allocated. No C++ state violates this; it singles out the lists that represent
one. -/
def ObjBase.cacheAllocated {W : Type} (s : ObjBase W) : Prop :=
  ∀ (M : wstring) (b : Nat), Map.find M s.singletons_ = some b → b < s.blocks.length

/-- The same interleaving for a class whose construct function returns a null
interface pointer. -/
def nullRaceState : ObjBase Nat :=
  ((((ObjBase.empty 0).RegisterCls fooName nullCreate fooDestroy).2.singletonConstructStore
    envPointerFirst fooName).state.singletonConstructStore envPointerFirst fooName).state

/-! ## A held singleton across later operations -/

/-- The cache entry of `N` refers to control block `b`, which has a holder and a
non-null interface pointer: a request for the singleton of `N` finds `b`. -/
def ObjBase.cachedHeld {W : Type} (N : wstring) (b : Nat) (s : ObjBase W) : Prop :=
  Map.find N s.singletons_ = some b ∧
    ∃ cb, s.blocks[b]? = some cb ∧ 0 < cb.use_count ∧ cb.ptr ≠ nullptr

/-- The operation, performed in state `s`, is not the release of the last handle
of block `b`, nor of the last handle of a singleton instance of `N`. -/
def Op.keeps {W : Type} (N : wstring) (b : Nat) (s : ObjBase W) : Op W → Prop
  | .release t => ∀ cb, s.blocks[t]? = some cb → cb.use_count = 1 →
      t ≠ b ∧ ∀ info obj, cb.deleter ≠ Deleter.singleton info N obj
  | _ => True

/-- Every operation of the sequence, performed in the state the earlier ones
lead to from `s`, keeps `b` held and releases no singleton instance of `N` for
the last time. -/
def ObjBase.keepsAlong {W : Type} (env : Env W) (N : wstring) (b : Nat) :
    List (Op W) → ObjBase W → Prop
  | [], _ => True
  | op :: ops, s => op.keeps N b s ∧ ObjBase.keepsAlong env N b ops (s.step env op)

/-- The registry after `L"Foo"` was registered with the construct function that
fails once and its singleton was requested for the first time: the failed
result, block `1`, is cached and held by the caller. -/
def retryFirst : ObjBase Nat :=
  (ObjBase.empty 0).run envPointerFirst
    [Op.RegisterCls fooName retryCreate fooDestroy, Op.CreateSingletonObj fooName]

/-- Operations made between two requests for the held singleton of `L"Foo"`
(block `1`, token block `0`): a transient instance is created and released, the
singleton handle is copied and the copy released, and the token is released. -/
def betweenOps : List (Op Nat) :=
  [Op.CreateObj fooName, Op.copy 1, Op.release 1, Op.release 2, Op.release 0]

/-! ## Lemmas on maps -/

theorem Map.erase_cons {α : Type} (k k' : wstring) (v : α) (m : List (wstring × α)) :
    Map.erase k ((k', v) :: m) = if k' = k then Map.erase k m else (k', v) :: Map.erase k m := by
  by_cases h : k' = k <;> simp [Map.erase, List.filter_cons, h]

theorem Map.find_cons {α : Type} (k k' : wstring) (v : α) (m : List (wstring × α)) :
    Map.find k ((k', v) :: m) = if k' = k then some v else Map.find k m := rfl

theorem Map.find_erase_self {α : Type} (k : wstring) (m : List (wstring × α)) :
    Map.find k (Map.erase k m) = none := by
  induction m with
  | nil => rfl
  | cons e m ih =>
    obtain ⟨k', v⟩ := e
    rw [Map.erase_cons]
    by_cases h : k' = k
    · rw [if_pos h]; exact ih
    · rw [if_neg h, Map.find_cons, if_neg h]; exact ih

theorem Map.find_erase_ne {α : Type} {k k' : wstring} (hne : k' ≠ k)
    (m : List (wstring × α)) : Map.find k' (Map.erase k m) = Map.find k' m := by
  induction m with
  | nil => rfl
  | cons e m ih =>
    obtain ⟨k'', v⟩ := e
    rw [Map.erase_cons, Map.find_cons]
    by_cases h : k'' = k
    · have h2 : ¬ k'' = k' := fun h3 => hne (h3 ▸ h)
      rw [if_pos h, if_neg h2]; exact ih
    · rw [if_neg h, Map.find_cons]
      by_cases h2 : k'' = k'
      · rw [if_pos h2, if_pos h2]
      · rw [if_neg h2, if_neg h2]; exact ih

theorem Map.find_assign_self {α : Type} (k : wstring) (v : α) (m : List (wstring × α)) :
    Map.find k (Map.assign k v m) = some v := by
  simp [Map.assign, Map.find]

theorem Map.find_assign_ne {α : Type} {k k' : wstring} (hne : k' ≠ k) (v : α)
    (m : List (wstring × α)) : Map.find k' (Map.assign k v m) = Map.find k' m := by
  have h : ¬ k = k' := fun h => hne h.symm
  rw [Map.assign, Map.find_cons, if_neg h, Map.find_erase_ne hne]

theorem Map.erase_erase {α : Type} (k : wstring) (m : List (wstring × α)) :
    Map.erase k (Map.erase k m) = Map.erase k m := by
  simp [Map.erase, List.filter_filter]

theorem Map.erase_of_find_none {α : Type} {k : wstring} {m : List (wstring × α)}
    (h : Map.find k m = none) : Map.erase k m = m := by
  induction m with
  | nil => rfl
  | cons e m ih =>
    obtain ⟨k', v⟩ := e
    rw [Map.find_cons] at h
    by_cases h2 : k' = k
    · rw [if_pos h2] at h; exact absurd h (by simp)
    · rw [if_neg h2] at h
      rw [Map.erase_cons, if_neg h2, ih h]

/-! ## Lemmas on handles -/

theorem ObjBase.release_last {W : Type} (s : ObjBase W) (b : Nat) (cb : CtrlBlock W)
    (hb : s.blocks[b]? = some cb) (h1 : cb.use_count = 1) :
    s.release (some b) =
      ObjBase.runDeleter cb.deleter
        { s with blocks := s.blocks.set b { cb with use_count := 0 } } := by
  simp [ObjBase.release, hb, h1]

theorem ObjBase.release_shared {W : Type} (s : ObjBase W) (b : Nat) (cb : CtrlBlock W)
    (hb : s.blocks[b]? = some cb) (h2 : 2 ≤ cb.use_count) :
    s.release (some b) =
      { s with blocks := s.blocks.set b { cb with use_count := cb.use_count - 1 } } := by
  have h0 : cb.use_count ≠ 0 := by omega
  have h1 : cb.use_count ≠ 1 := by omega
  simp [ObjBase.release, hb, h0, h1]

theorem getElem?_set_self_of_some {α : Type} (l : List α) (b : Nat) (x y : α)
    (hb : l[b]? = some x) : (l.set b y)[b]? = some y := by
  have hlt : b < l.length := by
    by_contra hge
    rw [List.getElem?_eq_none (by omega)] at hb
    exact absurd hb (by simp)
  simp [List.getElem?_set, hlt]

/-! ## Transient creation -/

/-- Transient creation after a successful resolution: the state `CreateObj`
returns, and what releasing the returned handle then does. The destroy function
of the resolved `ClassInfo` runs exactly once; its argument is the value the
deleter closure captured. -/
theorem ObjBase.CreateObj_release {W : Type} (env : Env W) (N : wstring)
    (s s1 : ObjBase W) (info : InfoPtr W)
    (hres : s.GetClsInfo env N = .ok (some info) s1) :
    ∃ s2, s.CreateObj env N = .ok (some s1.blocks.length) s2 ∧
      s2.trace = s1.trace ++
        [Event.create info.addr (info.obj.pfnCreate s1.world nullptr).2.1
          (info.obj.pfnCreate s1.world nullptr).1] ∧
      s2.world = (info.obj.pfnCreate s1.world nullptr).2.2 ∧
      s2.classes_ = s1.classes_ ∧ s2.singletons_ = s1.singletons_ ∧
      (s2.release (some s1.blocks.length)).trace = s2.trace ++
        [Event.destroy info.addr
          (capturedObj env.order (info.obj.pfnCreate s1.world nullptr).2.1)] ∧
      (s2.release (some s1.blocks.length)).world =
        info.obj.pfnDestroy
          (capturedObj env.order (info.obj.pfnCreate s1.world nullptr).2.1) s2.world ∧
      (s2.release (some s1.blocks.length)).classes_ = s1.classes_ ∧
      (s2.release (some s1.blocks.length)).singletons_ = s1.singletons_ := by
  simp only [ObjBase.CreateObj, hres]
  refine ⟨_, rfl, rfl, rfl, rfl, rfl, ?_⟩
  rw [ObjBase.release_last _ _ _ (List.getElem?_concat_length _ _) rfl]
  simp [ObjBase.runDeleter, ObjBase.callDestroy]

/-- With the pointer argument evaluated first, the handle released after
`CreateObj` makes the destroy function run exactly once on the native handle
the construct function stored in its slot. -/
theorem ObjBase.CreateObj_release_pointerFirst {W : Type} (env : Env W) (N : wstring)
    (s s1 : ObjBase W) (info : InfoPtr W) (hord : env.order = ArgOrder.pointerFirst)
    (hres : s.GetClsInfo env N = .ok (some info) s1) :
    ∃ s2, s.CreateObj env N = .ok (some s1.blocks.length) s2 ∧
      (s2.release (some s1.blocks.length)).trace = s1.trace ++
        [Event.create info.addr (info.obj.pfnCreate s1.world nullptr).2.1
          (info.obj.pfnCreate s1.world nullptr).1,
         Event.destroy info.addr (info.obj.pfnCreate s1.world nullptr).2.1] ∧
      (s2.release (some s1.blocks.length)).world =
        info.obj.pfnDestroy (info.obj.pfnCreate s1.world nullptr).2.1
          (info.obj.pfnCreate s1.world nullptr).2.2 := by
  obtain ⟨s2, h1, h2, h3, -, -, h4, h5, -, -⟩ := ObjBase.CreateObj_release env N s s1 info hres
  refine ⟨s2, h1, ?_, ?_⟩
  · rw [h4, h2, hord]; simp [capturedObj]
  · rw [h5, h3, hord]; simp [capturedObj]

/-- C1, evaluated where the code departs from it. `L"Foo"` is registered with a
construct function that stores native handle `100` in the slot and returns
interface pointer `108`. In a build that evaluates the deleter lambda before
the call of `pfnCreate`, `CreateObj(L"Foo")` followed by release calls the
destroy function once, but with `nullptr` (the initial slot value) and not with
the native handle `100`; the object count stays at one. -/
theorem C1_destroy_gets_initial_slot_value :
    fooRegistry.GetClsInfo envDeleterFirst fooName =
        .ok (some { addr := 0, obj := { pfnCreate := fooCreate, pfnDestroy := fooDestroy } })
          fooRegistry ∧
      (fooRegistry.CreateObj envDeleterFirst fooName).state.trace =
        [Event.create 0 100 108] ∧
      ((fooRegistry.CreateObj envDeleterFirst fooName).state.release (some 1)).trace =
        [Event.create 0 100 108, Event.destroy 0 nullptr] ∧
      ((fooRegistry.CreateObj envDeleterFirst fooName).state.release (some 1)).world = 1 := by
  refine ⟨rfl, by decide, by decide, by decide⟩

/-! ## Singleton creation -/

theorem ObjBase.singletonLookup_some {W : Type} {N : wstring} {s s' : ObjBase W} {b : Nat}
    (h : s.singletonLookup N = some (b, s')) :
    ∃ cb, Map.find N s.singletons_ = some b ∧ s.blocks[b]? = some cb ∧
      cb.use_count ≠ 0 ∧ cb.ptr ≠ nullptr ∧
      s' = { s with blocks := s.blocks.set b { cb with use_count := cb.use_count + 1 } } := by
  unfold ObjBase.singletonLookup at h
  split at h
  · exact absurd h (by simp)
  · rename_i b' hf
    split at h
    · exact absurd h (by simp)
    · rename_i cb hb
      by_cases h0 : cb.use_count = 0
      · simp [h0] at h
      · by_cases hp : cb.ptr = nullptr
        · simp [h0, hp] at h
        · simp only [h0, hp, if_false, Option.some.injEq, Prod.mk.injEq] at h
          obtain ⟨hbb, hs⟩ := h
          subst hbb
          exact ⟨cb, hf, hb, h0, hp, hs.symm⟩

theorem ObjBase.singletonLookup_hit {W : Type} {N : wstring} {s : ObjBase W} {b : Nat}
    {cb : CtrlBlock W} (hf : Map.find N s.singletons_ = some b) (hb : s.blocks[b]? = some cb)
    (h0 : cb.use_count ≠ 0) (hp : cb.ptr ≠ nullptr) :
    s.singletonLookup N =
      some (b, { s with blocks := s.blocks.set b { cb with use_count := cb.use_count + 1 } }) := by
  simp [ObjBase.singletonLookup, hf, hb, h0, hp]

/-- After a singleton request that returned a non-empty handle, the cache entry
of the name refers to the block of that handle, which has an owner. -/
theorem ObjBase.singleton_cached {W : Type} {env : Env W} {N : wstring} {s s1 : ObjBase W}
    {h1 : Handle} (hfirst : s.CreateSingletonObj env N = .ok h1 s1)
    (hne : s1.isNonEmpty h1 = true) :
    ∃ b cb, h1 = some b ∧ Map.find N s1.singletons_ = some b ∧ s1.blocks[b]? = some cb ∧
      cb.use_count ≠ 0 ∧ cb.ptr ≠ nullptr := by
  unfold ObjBase.CreateSingletonObj at hfirst
  split at hfirst
  · rename_i b s' hl
    obtain ⟨cb, hf, hb, h0, hp, hs⟩ := ObjBase.singletonLookup_some hl
    simp only [Result.ok.injEq] at hfirst
    obtain ⟨hh, hs1⟩ := hfirst
    subst hh; subst hs1; subst hs
    exact ⟨b, { cb with use_count := cb.use_count + 1 }, rfl, hf,
      getElem?_set_self_of_some _ _ _ _ hb, by simp, hp⟩
  · unfold ObjBase.singletonConstructStore at hfirst
    split at hfirst
    · exact absurd hfirst (by simp)
    · simp only [Result.ok.injEq] at hfirst
      obtain ⟨hh, hs1⟩ := hfirst
      subst hh; subst hs1
      simp [ObjBase.isNonEmpty] at hne
    · rename_i info s0 hres
      simp only [Result.ok.injEq] at hfirst
      obtain ⟨hh, hs1⟩ := hfirst
      subst hh; subst hs1
      simp only [ObjBase.isNonEmpty, List.getElem?_concat_length, decide_eq_true_eq] at hne
      exact ⟨_, _, rfl, Map.find_assign_self _ _ _, List.getElem?_concat_length _ _,
        by simp, hne⟩

theorem ObjBase.GetClsInfo_registered {W : Type} (env : Env W) {N : wstring} {s : ObjBase W}
    {info : InfoPtr W} (hreg : Map.find N s.classes_ = some info) :
    s.GetClsInfo env N = .ok (some info) s := by
  simp [ObjBase.GetClsInfo, hreg]

theorem ObjBase.singletonLookup_none_of_find {W : Type} {N : wstring} {s : ObjBase W}
    (h : Map.find N s.singletons_ = none) : s.singletonLookup N = none := by
  simp [ObjBase.singletonLookup, h]

theorem ObjBase.CreateSingletonObj_constructs {W : Type} (env : Env W) (N : wstring)
    (s : ObjBase W) (info : InfoPtr W) (hreg : Map.find N s.classes_ = some info)
    (hmiss : s.singletonLookup N = none) :
    s.CreateSingletonObj env N = .ok (some s.blocks.length) (s.singletonBorn env N info) := by
  simp only [ObjBase.CreateSingletonObj, hmiss, ObjBase.singletonConstructStore,
    ObjBase.GetClsInfo_registered env hreg, ObjBase.singletonBorn]

theorem ObjBase.release_singletonBorn {W : Type} (env : Env W) (N : wstring)
    (s : ObjBase W) (info : InfoPtr W) :
    (s.singletonBorn env N info).release (some s.blocks.length) =
      s.singletonDead env N info := by
  have hb : (s.singletonBorn env N info).blocks[s.blocks.length]? =
      some { ptr := (info.obj.pfnCreate s.world nullptr).1, use_count := 1
             deleter := Deleter.singleton info N
               (capturedObj env.order (info.obj.pfnCreate s.world nullptr).2.1) } :=
    List.getElem?_concat_length _ _
  rw [ObjBase.release_last _ _ _ hb rfl]
  rfl

/-- Life cycle of a singleton of a registered name whose cache lookup misses:
the request constructs block `s.blocks.length` and caches it; releasing that
only handle erases the cache entry and calls the destroy function exactly once,
on the value the deleter closure captured; the next request constructs again
and returns the new block `s.blocks.length + 1`. -/
theorem ObjBase.singleton_life_cycle {W : Type} (env : Env W) (N : wstring) (s : ObjBase W)
    (info : InfoPtr W) (hreg : Map.find N s.classes_ = some info)
    (hmiss : s.singletonLookup N = none) :
    ∃ s2, s.CreateSingletonObj env N = .ok (some s.blocks.length) s2 ∧
      s2.trace = s.trace ++
        [Event.create info.addr (info.obj.pfnCreate s.world nullptr).2.1
          (info.obj.pfnCreate s.world nullptr).1] ∧
      s2.world = (info.obj.pfnCreate s.world nullptr).2.2 ∧
      Map.find N s2.singletons_ = some s.blocks.length ∧
      s2.useCount (some s.blocks.length) = 1 ∧
      Map.find N (s2.release (some s.blocks.length)).singletons_ = none ∧
      (s2.release (some s.blocks.length)).trace = s2.trace ++
        [Event.destroy info.addr
          (capturedObj env.order (info.obj.pfnCreate s.world nullptr).2.1)] ∧
      (s2.release (some s.blocks.length)).world =
        info.obj.pfnDestroy
          (capturedObj env.order (info.obj.pfnCreate s.world nullptr).2.1) s2.world ∧
      (s2.release (some s.blocks.length)).useCount (some s.blocks.length) = 0 ∧
      ∃ s4, (s2.release (some s.blocks.length)).CreateSingletonObj env N =
          .ok (some (s.blocks.length + 1)) s4 ∧
        s4.trace = (s2.release (some s.blocks.length)).trace ++
          [Event.create info.addr
            (info.obj.pfnCreate (s2.release (some s.blocks.length)).world nullptr).2.1
            (info.obj.pfnCreate (s2.release (some s.blocks.length)).world nullptr).1] ∧
        Map.find N s4.singletons_ = some (s.blocks.length + 1) ∧
        s4.useCount (some (s.blocks.length + 1)) = 1 := by
  refine ⟨_, ObjBase.CreateSingletonObj_constructs env N s info hreg hmiss, rfl, rfl,
    Map.find_assign_self _ _ _, ?_, ?_⟩
  · simp [ObjBase.useCount, ObjBase.singletonBorn]
  · rw [ObjBase.release_singletonBorn]
    refine ⟨Map.find_erase_self _ _, rfl, rfl, ?_, ?_⟩
    · simp [ObjBase.useCount, ObjBase.singletonDead, ObjBase.singletonBorn]
    · have h := ObjBase.CreateSingletonObj_constructs env N (s.singletonDead env N info) info
        hreg (ObjBase.singletonLookup_none_of_find (Map.find_erase_self N _))
      have hlen : (s.singletonDead env N info).blocks.length = s.blocks.length + 1 := by
        simp [ObjBase.singletonDead, ObjBase.singletonBorn]
      rw [hlen] at h
      refine ⟨(s.singletonDead env N info).singletonBorn env N info, h, rfl, ?_, ?_⟩
      · show Map.find N (Map.assign N (s.singletonDead env N info).blocks.length
          (s.singletonDead env N info).singletons_) = some (s.blocks.length + 1)
        rw [Map.find_assign_self, hlen]
      · have hb := List.getElem?_concat_length (s.singletonDead env N info).blocks
          { ptr := (info.obj.pfnCreate (s.singletonDead env N info).world nullptr).1
            use_count := 1
            deleter := Deleter.singleton info N (capturedObj env.order
              (info.obj.pfnCreate (s.singletonDead env N info).world nullptr).2.1) }
        rw [hlen] at hb
        simp only [ObjBase.useCount]
        rw [show ((s.singletonDead env N info).singletonBorn env N info).blocks =
          (s.singletonDead env N info).blocks ++ [_] from rfl, hb]

/-- C3, evaluated where the code departs from it. In a build that evaluates the
deleter lambda before the call of `pfnCreate`, the singleton of `L"Foo"`
(native handle `100`) is created and its only handle released: the cache entry
is gone and the destroy function has run once, but on `nullptr`, not on the
native handle, so the object count stays at one. The next request constructs
again and returns the new block `2`. -/
theorem C3_singleton_destroy_gets_initial_slot_value :
    Map.find fooName fooRegistry.classes_ =
        some { addr := 0, obj := { pfnCreate := fooCreate, pfnDestroy := fooDestroy } } ∧
      fooRegistry.CreateSingletonObj envDeleterFirst fooName =
        .ok (some 1) (fooRegistry.CreateSingletonObj envDeleterFirst fooName).state ∧
      (fooRegistry.CreateSingletonObj envDeleterFirst fooName).state.trace =
        [Event.create 0 100 108] ∧
      Map.find fooName
        ((fooRegistry.CreateSingletonObj envDeleterFirst fooName).state.release
          (some 1)).singletons_ = none ∧
      ((fooRegistry.CreateSingletonObj envDeleterFirst fooName).state.release (some 1)).trace =
        [Event.create 0 100 108, Event.destroy 0 nullptr] ∧
      ((fooRegistry.CreateSingletonObj envDeleterFirst fooName).state.release (some 1)).world
        = 1 ∧
      (((fooRegistry.CreateSingletonObj envDeleterFirst fooName).state.release
          (some 1)).CreateSingletonObj envDeleterFirst fooName).state.trace =
        [Event.create 0 100 108, Event.destroy 0 nullptr, Event.create 0 100 108] ∧
      Map.find fooName
        (((fooRegistry.CreateSingletonObj envDeleterFirst fooName).state.release
          (some 1)).CreateSingletonObj envDeleterFirst fooName).state.singletons_ = some 2 := by
  refine ⟨rfl, rfl, by decide, by decide, by decide, by decide, by decide, by decide⟩

/-! ## Instances outlive their registration -/

theorem ObjBase.runDeleter_blocks {W : Type} (d : Deleter W) (s : ObjBase W) :
    (ObjBase.runDeleter d s).blocks = s.blocks := by
  cases d <;> rfl

theorem ObjBase.release_blocks_ne {W : Type} (s : ObjBase W) {t b : Nat} (hne : t ≠ b) :
    (s.release (some t)).blocks[b]? = s.blocks[b]? := by
  cases hb : s.blocks[t]? with
  | none => simp [ObjBase.release, hb]
  | some cb =>
    by_cases h0 : cb.use_count = 0
    · simp [ObjBase.release, hb, h0]
    · by_cases h1 : cb.use_count = 1
      · simp [ObjBase.release, hb, h1, ObjBase.runDeleter_blocks, List.getElem?_set, hne]
      · simp [ObjBase.release, hb, h0, h1, List.getElem?_set, hne]

theorem ObjBase.RegisterCls_blocks {W : Type} (N : wstring)
    (c : W → VoidPtr → VoidPtr × VoidPtr × W) (d : VoidPtr → W → W) (s : ObjBase W)
    {b : Nat} {cb : CtrlBlock W} (hb : s.blocks[b]? = some cb) :
    (s.RegisterCls N c d).2.blocks[b]? = some cb := by
  have hlt : b < s.blocks.length := by
    by_contra hge
    rw [List.getElem?_eq_none (by omega)] at hb
    exact absurd hb (by simp)
  show (s.blocks ++ [_])[b]? = some cb
  rw [List.getElem?_append_left hlt, hb]

/-- Releasing the last handle of an instance calls the destroy function of the
`ClassInfo` its deleter closure holds, once, on the captured value; the class
table is not consulted. -/
theorem ObjBase.release_last_instance {W : Type} (s : ObjBase W) (b : Nat) (cb : CtrlBlock W)
    (info : InfoPtr W) (obj : VoidPtr) (hb : s.blocks[b]? = some cb) (h1 : cb.use_count = 1)
    (hd : cb.deleter = Deleter.transient info obj ∨
      ∃ M, cb.deleter = Deleter.singleton info M obj) :
    (s.release (some b)).trace = s.trace ++ [Event.destroy info.addr obj] ∧
      (s.release (some b)).world = info.obj.pfnDestroy obj s.world ∧
      (s.release (some b)).classes_ = s.classes_ := by
  rw [ObjBase.release_last s b cb hb h1]
  rcases hd with hd | ⟨M, hd⟩ <;> rw [hd] <;> exact ⟨rfl, rfl, rfl⟩

/-- An instance whose last handle is released after another handle `t` (for
example the registration token of its class) was released, or after its name
was registered again, is destroyed by the destroy function captured at its
creation, once, on the captured value. -/
theorem ObjBase.instance_destroy_survives {W : Type} (s : ObjBase W) (b : Nat)
    (cb : CtrlBlock W) (info : InfoPtr W) (obj : VoidPtr)
    (hb : s.blocks[b]? = some cb) (h1 : cb.use_count = 1)
    (hd : cb.deleter = Deleter.transient info obj ∨
      ∃ M, cb.deleter = Deleter.singleton info M obj) :
    (∀ t, t ≠ b →
      ((s.release (some t)).release (some b)).trace =
          (s.release (some t)).trace ++ [Event.destroy info.addr obj] ∧
        ((s.release (some t)).release (some b)).world =
          info.obj.pfnDestroy obj (s.release (some t)).world) ∧
    (∀ N c d,
      ((s.RegisterCls N c d).2.release (some b)).trace =
          s.trace ++ [Event.destroy info.addr obj] ∧
        ((s.RegisterCls N c d).2.release (some b)).world = info.obj.pfnDestroy obj s.world) := by
  constructor
  · intro t ht
    have hb2 : (s.release (some t)).blocks[b]? = some cb := by
      rw [ObjBase.release_blocks_ne s ht, hb]
    have h := ObjBase.release_last_instance _ b cb info obj hb2 h1 hd
    exact ⟨h.1, h.2.1⟩
  · intro N c d
    have hb2 := ObjBase.RegisterCls_blocks N c d s hb
    have h := ObjBase.release_last_instance _ b cb info obj hb2 h1 hd
    exact ⟨h.1, h.2.1⟩

/-- C4, evaluated where the code departs from it. In a build that evaluates the
deleter lambda before the call of `pfnCreate`, an instance of `L"Foo"` (native
handle `100`, `ClassInfo` at address `0`) is created; then either the token of
`L"Foo"` (block `0`) is released, which empties the class table, or `L"Foo"` is
registered again with other functions (`ClassInfo` at address `1`). Releasing the
instance afterwards does call the original destroy function, once, but on
`nullptr` and not on the native handle: the object count stays at one. The same
holds for a singleton instance. -/
theorem C4_destroy_after_unregister_gets_initial_slot_value :
    Map.find fooName
        ((fooRegistry.CreateObj envDeleterFirst fooName).state.release (some 0)).classes_
        = none ∧
      (((fooRegistry.CreateObj envDeleterFirst fooName).state.release (some 0)).release
        (some 1)).trace = [Event.create 0 100 108, Event.destroy 0 nullptr] ∧
      (((fooRegistry.CreateObj envDeleterFirst fooName).state.release (some 0)).release
        (some 1)).world = 1 ∧
      ((((fooRegistry.CreateObj envDeleterFirst fooName).state.RegisterCls fooName
        barCreate barDestroy).2).release (some 1)).trace =
        [Event.create 0 100 108, Event.destroy 0 nullptr] ∧
      ((((fooRegistry.CreateObj envDeleterFirst fooName).state.RegisterCls fooName
        barCreate barDestroy).2).release (some 1)).world = 1 ∧
      (((fooRegistry.CreateSingletonObj envDeleterFirst fooName).state.release
        (some 0)).release (some 1)).trace =
        [Event.create 0 100 108, Event.destroy 0 nullptr] ∧
      (((fooRegistry.CreateSingletonObj envDeleterFirst fooName).state.release
        (some 0)).release (some 1)).world = 1 := by
  refine ⟨rfl, by decide, by decide, by decide, by decide, by decide, by decide⟩

/-! ## Registration -/

/-- C5. Immediately after `RegisterCls(N, c, d)`, `GetClsInfo(N)` returns a
`ClassInfo` holding exactly `c` and `d`, whether or not `N` had an entry, and
changes nothing (so no module load is attempted, also when `N` contains the
separator); `CreateObj(N)` constructs with `c`; the entry of every other name,
the singleton cache, the world and the trace are as before the registration. -/
theorem C5_register_then_resolve {W : Type} (env : Env W) (N : wstring)
    (c : W → VoidPtr → VoidPtr × VoidPtr × W) (d : VoidPtr → W → W) (s : ObjBase W) :
    (s.RegisterCls N c d).2.GetClsInfo env N =
        .ok (some { addr := s.nextInfo, obj := { pfnCreate := c, pfnDestroy := d } })
          (s.RegisterCls N c d).2 ∧
      (∀ M, M ≠ N → Map.find M (s.RegisterCls N c d).2.classes_ = Map.find M s.classes_) ∧
      (s.RegisterCls N c d).2.singletons_ = s.singletons_ ∧
      (s.RegisterCls N c d).2.trace = s.trace ∧
      (s.RegisterCls N c d).2.world = s.world ∧
      ((s.RegisterCls N c d).2.CreateObj env N).state.trace =
        s.trace ++ [Event.create s.nextInfo (c s.world nullptr).2.1 (c s.world nullptr).1] ∧
      ((s.RegisterCls N c d).2.CreateObj env N).state.world = (c s.world nullptr).2.2 := by
  have hreg : Map.find N (s.RegisterCls N c d).2.classes_ =
      some { addr := s.nextInfo, obj := { pfnCreate := c, pfnDestroy := d } } :=
    Map.find_assign_self _ _ _
  have hres := ObjBase.GetClsInfo_registered env hreg
  refine ⟨hres, fun M hM => Map.find_assign_ne hM _ _, rfl, rfl, rfl, ?_, ?_⟩
  · simp only [ObjBase.CreateObj, hres]; rfl
  · simp only [ObjBase.CreateObj, hres]; rfl

/-! ## Names and the separator -/

theorem c_str_nil : c_str [] = [] := rfl

theorem c_str_cons (a : Char) (t : wstring) :
    c_str (a :: t) = if a = NUL then [] else a :: c_str t := by
  by_cases h : a = NUL <;> simp [c_str, List.takeWhile_cons, h]

theorem locator_cons (a : Char) (t : wstring) :
    locator (a :: t) = if a = '@' then [] else a :: locator t := by
  by_cases h : a = '@' <;> simp [locator, List.takeWhile_cons, h]

theorem wcsstr_sep_nil : wcsstr [] DLL_SEPARATOR = none := by
  simp [wcsstr, DLL_SEPARATOR]

theorem wcsstr_sep_cons (a : Char) (t : wstring) :
    wcsstr (a :: t) DLL_SEPARATOR =
      if a = '@' then some 0 else (wcsstr t DLL_SEPARATOR).map (fun p => p + 1) := by
  by_cases h : a = '@'
  · simp [wcsstr, DLL_SEPARATOR, startsWith, h]
  · have h2 : ¬ '@' = a := fun e => h e.symm
    simp [wcsstr, DLL_SEPARATOR, startsWith, h, h2]

/-- A name without `@` has no separator in its C-string view. -/
theorem wcsstr_c_str_none_of_not_mem {N : wstring} (h : '@' ∉ N) :
    wcsstr (c_str N) DLL_SEPARATOR = none := by
  induction N with
  | nil => exact wcsstr_sep_nil
  | cons a t ih =>
    have ha : ¬ a = '@' := fun e => h (by simp [e])
    have ht : '@' ∉ t := fun e => h (List.mem_cons_of_mem _ e)
    rw [c_str_cons]
    by_cases hn : a = NUL
    · rw [if_pos hn]; exact wcsstr_sep_nil
    · rw [if_neg hn, wcsstr_sep_cons, if_neg ha, ih ht]; rfl

/-- When `wcsstr` finds the separator in the C-string view of a name, the module
name handed to `LoadLibraryW` is the part of the name before its first `@`. -/
theorem dllname_eq_locator {N : wstring} {p : Nat}
    (h : wcsstr (c_str N) DLL_SEPARATOR = some p) :
    c_str ((c_str N).take p) = locator N := by
  induction N generalizing p with
  | nil => rw [c_str_nil, wcsstr_sep_nil] at h; exact absurd h (by simp)
  | cons a t ih =>
    rw [c_str_cons] at h ⊢
    by_cases hn : a = NUL
    · rw [if_pos hn, wcsstr_sep_nil] at h; exact absurd h (by simp)
    · rw [if_neg hn] at h ⊢
      rw [wcsstr_sep_cons] at h
      rw [locator_cons]
      by_cases ha : a = '@'
      · rw [if_pos ha] at h ⊢
        have hp : p = 0 := by simpa using h.symm
        subst hp
        rfl
      · rw [if_neg ha] at h ⊢
        cases hw : wcsstr (c_str t) DLL_SEPARATOR with
        | none => rw [hw] at h; exact absurd h (by simp)
        | some q =>
          rw [hw] at h
          have hp : p = q + 1 := by simpa using h.symm
          subst hp
          rw [List.take_succ_cons, c_str_cons, if_neg hn, ih hw]

/-- The separator is found in the C-string view exactly when that view holds `@`. -/
theorem wcsstr_isSome_of_mem {X : wstring} (h : '@' ∈ X) :
    ∃ p, wcsstr X DLL_SEPARATOR = some p := by
  induction X with
  | nil => exact absurd h (by simp)
  | cons a t ih =>
    rw [wcsstr_sep_cons]
    by_cases ha : a = '@'
    · exact ⟨0, by rw [if_pos ha]⟩
    · have ht : '@' ∈ t := by
        rcases List.mem_cons.mp h with e | e
        · exact absurd e.symm ha
        · exact e
      obtain ⟨q, hq⟩ := ih ht
      exact ⟨q + 1, by rw [if_neg ha, hq]; rfl⟩

theorem ObjBase.RegisterCls_trace {W : Type} (N : wstring)
    (c : W → VoidPtr → VoidPtr × VoidPtr × W) (d : VoidPtr → W → W) (s : ObjBase W) :
    (s.RegisterCls N c d).2.trace = s.trace ∧ (s.RegisterCls N c d).2.world = s.world ∧
      (s.RegisterCls N c d).2.singletons_ = s.singletons_ :=
  ⟨rfl, rfl, rfl⟩

/-- Module initialisation only registers: trace, world and singleton cache stay. -/
theorem ObjBase.moduleInit_frame {W : Type} (regs : List (wstring × ClassInfo W))
    (s : ObjBase W) :
    (ObjBase.moduleInit regs s).trace = s.trace ∧ (ObjBase.moduleInit regs s).world = s.world ∧
      (ObjBase.moduleInit regs s).singletons_ = s.singletons_ := by
  induction regs generalizing s with
  | nil => exact ⟨rfl, rfl, rfl⟩
  | cons r regs ih =>
    have h := ih (s.RegisterCls r.1 r.2.pfnCreate r.2.pfnDestroy).2
    exact h

/-! ## Tokens -/

/-- C6. For a name `N` without separator: after `t1 = RegisterCls(N, c1, d1)` and
`t2 = RegisterCls(N, c2, d2)` the table maps `N` to `(c2, d2)`; releasing `t1`
while `t2` is held removes that newer entry, so `N` is absent and `CreateObj(N)`
returns empty and changes nothing; releasing `t2` afterwards leaves the class
table unchanged. -/
theorem C6_older_token_removes_newer_entry {W : Type} (env : Env W) (N : wstring)
    (c1 c2 : W → VoidPtr → VoidPtr × VoidPtr × W) (d1 d2 : VoidPtr → W → W)
    (s sA sB : ObjBase W) (t1 t2 : Nat) (hsep : '@' ∉ N)
    (hr1 : s.RegisterCls N c1 d1 = (t1, sA)) (hr2 : sA.RegisterCls N c2 d2 = (t2, sB)) :
    Map.find N sB.classes_ =
        some { addr := sA.nextInfo, obj := { pfnCreate := c2, pfnDestroy := d2 } } ∧
      sB.useCount (some t1) = 1 ∧ sB.useCount (some t2) = 1 ∧ t1 ≠ t2 ∧
      Map.find N (sB.release (some t1)).classes_ = none ∧
      (sB.release (some t1)).useCount (some t2) = 1 ∧
      (sB.release (some t1)).CreateObj env N = .ok none (sB.release (some t1)) ∧
      ((sB.release (some t1)).release (some t2)).classes_ =
        (sB.release (some t1)).classes_ := by
  simp only [ObjBase.RegisterCls, Prod.mk.injEq] at hr1 hr2
  obtain ⟨ht1, hsA⟩ := hr1
  obtain ⟨ht2, hsB⟩ := hr2
  have hlenA : sA.blocks.length = s.blocks.length + 1 := by rw [← hsA]; simp
  have hb1A : sA.blocks[t1]? =
      some { ptr := 1, use_count := 1, deleter := Deleter.token N } := by
    rw [← hsA, ← ht1]; exact List.getElem?_concat_length _ _
  have hb1 : sB.blocks[t1]? =
      some { ptr := 1, use_count := 1, deleter := Deleter.token N } := by
    rw [← hsB]
    show (sA.blocks ++ [_])[t1]? = _
    rw [List.getElem?_append_left (by omega), hb1A]
  have hb2 : sB.blocks[t2]? =
      some { ptr := 1, use_count := 1, deleter := Deleter.token N } := by
    rw [← hsB, ← ht2]; exact List.getElem?_concat_length _ _
  have hne : t1 ≠ t2 := by omega
  have hrel : sB.release (some t1) =
      { sB with
        blocks := sB.blocks.set t1 { ptr := 1, use_count := 0, deleter := Deleter.token N }
        classes_ := Map.erase N sB.classes_ } := by
    rw [ObjBase.release_last sB t1 _ hb1 rfl]; rfl
  have hb2' : (sB.release (some t1)).blocks[t2]? =
      some { ptr := 1, use_count := 1, deleter := Deleter.token N } := by
    rw [ObjBase.release_blocks_ne sB hne, hb2]
  have hnone : Map.find N (sB.release (some t1)).classes_ = none := by
    rw [hrel]; exact Map.find_erase_self _ _
  refine ⟨by rw [← hsB]; exact Map.find_assign_self _ _ _, ?_, ?_, hne, hnone, ?_, ?_, ?_⟩
  · simp [ObjBase.useCount, hb1]
  · simp [ObjBase.useCount, hb2]
  · simp [ObjBase.useCount, hb2']
  · simp [ObjBase.CreateObj, ObjBase.GetClsInfo, hnone, wcsstr_c_str_none_of_not_mem hsep]
  · rw [ObjBase.release_last _ t2 _ hb2' rfl]
    show Map.erase N (sB.release (some t1)).classes_ = _
    exact Map.erase_of_find_none hnone

/-- C6 at a concrete input: `L"Foo"` registered twice in the empty registry. -/
theorem C6_older_token_removes_newer_entry_witness :
    '@' ∉ fooName ∧
      Map.find fooName (fooRegistry.RegisterCls fooName barCreate barDestroy).2.classes_ =
        some { addr := fooRegistry.nextInfo,
               obj := { pfnCreate := barCreate, pfnDestroy := barDestroy } } ∧
      (fooRegistry.RegisterCls fooName barCreate barDestroy).2.useCount (some 0) = 1 ∧
      (fooRegistry.RegisterCls fooName barCreate barDestroy).2.useCount (some 1) = 1 ∧
      0 ≠ 1 ∧
      Map.find fooName
        ((fooRegistry.RegisterCls fooName barCreate barDestroy).2.release (some 0)).classes_
        = none ∧
      ((fooRegistry.RegisterCls fooName barCreate barDestroy).2.release (some 0)).useCount
        (some 1) = 1 ∧
      ((fooRegistry.RegisterCls fooName barCreate barDestroy).2.release (some 0)).CreateObj
          envPointerFirst fooName =
        .ok none ((fooRegistry.RegisterCls fooName barCreate barDestroy).2.release (some 0)) ∧
      (((fooRegistry.RegisterCls fooName barCreate barDestroy).2.release (some 0)).release
        (some 1)).classes_ =
        ((fooRegistry.RegisterCls fooName barCreate barDestroy).2.release (some 0)).classes_ :=
  ⟨by decide,
    C6_older_token_removes_newer_entry envPointerFirst fooName fooCreate barCreate
      fooDestroy barDestroy (ObjBase.empty 0) fooRegistry
      (fooRegistry.RegisterCls fooName barCreate barDestroy).2 0 1 (by decide) rfl rfl⟩

/-- C7. Let `t` be the token `RegisterCls(N, c, d)` returned, and `s'` any later
state in which the control block of `t` is as the registration left it (one
owner). Releasing `t` in `s'` removes the class-table entry keyed by `N` and
nothing else: `N` is absent, every other name resolves as before the release,
and the singleton cache, the trace and the world are unchanged. -/
theorem C7_token_release_removes_only_its_name {W : Type} (N : wstring)
    (c : W → VoidPtr → VoidPtr × VoidPtr × W) (d : VoidPtr → W → W)
    (s s1 s' : ObjBase W) (t : Nat)
    (hreg : s.RegisterCls N c d = (t, s1)) (hheld : s'.blocks[t]? = s1.blocks[t]?) :
    Map.find N (s'.release (some t)).classes_ = none ∧
      (∀ M, M ≠ N → Map.find M (s'.release (some t)).classes_ = Map.find M s'.classes_) ∧
      (s'.release (some t)).classes_ = Map.erase N s'.classes_ ∧
      (s'.release (some t)).singletons_ = s'.singletons_ ∧
      (s'.release (some t)).trace = s'.trace ∧
      (s'.release (some t)).world = s'.world := by
  simp only [ObjBase.RegisterCls, Prod.mk.injEq] at hreg
  obtain ⟨ht, hs1⟩ := hreg
  have hb : s'.blocks[t]? =
      some { ptr := 1, use_count := 1, deleter := Deleter.token N } := by
    rw [hheld, ← hs1, ← ht]; exact List.getElem?_concat_length _ _
  rw [ObjBase.release_last s' t _ hb rfl]
  exact ⟨Map.find_erase_self _ _, fun M hM => Map.find_erase_ne hM _, rfl, rfl, rfl, rfl⟩

/-- C7 at a concrete input: the token of `L"Foo"` released after a singleton of
`L"Foo"` was created. -/
theorem C7_token_release_removes_only_its_name_witness :
    Map.find fooName
        ((fooRegistry.CreateSingletonObj envPointerFirst fooName).state.release
          (some 0)).classes_ = none ∧
      (∀ M, M ≠ fooName →
        Map.find M ((fooRegistry.CreateSingletonObj envPointerFirst fooName).state.release
          (some 0)).classes_ =
        Map.find M (fooRegistry.CreateSingletonObj envPointerFirst fooName).state.classes_) ∧
      ((fooRegistry.CreateSingletonObj envPointerFirst fooName).state.release
          (some 0)).classes_ =
        Map.erase fooName
          (fooRegistry.CreateSingletonObj envPointerFirst fooName).state.classes_ ∧
      ((fooRegistry.CreateSingletonObj envPointerFirst fooName).state.release
          (some 0)).singletons_ =
        (fooRegistry.CreateSingletonObj envPointerFirst fooName).state.singletons_ ∧
      ((fooRegistry.CreateSingletonObj envPointerFirst fooName).state.release (some 0)).trace =
        (fooRegistry.CreateSingletonObj envPointerFirst fooName).state.trace ∧
      ((fooRegistry.CreateSingletonObj envPointerFirst fooName).state.release (some 0)).world =
        (fooRegistry.CreateSingletonObj envPointerFirst fooName).state.world :=
  C7_token_release_removes_only_its_name fooName fooCreate fooDestroy (ObjBase.empty 0)
    fooRegistry (fooRegistry.CreateSingletonObj envPointerFirst fooName).state 0 rfl rfl

/-! ## Resolution misses -/

/-- C8. For a name `N` that is not in the class table and contains no `@`:
`GetClsInfo(N)` and `CreateObj(N)` return empty, and so does
`CreateSingletonObj(N)` when the cache lookup for `N` misses; none of them stops
at an assertion, and each leaves the whole state as it was: class table,
singleton cache, world and trace (no module load, no construct call). -/
theorem C8_unregistered_name_without_separator {W : Type} (env : Env W) (N : wstring)
    (s : ObjBase W) (hunreg : Map.find N s.classes_ = none) (hsep : '@' ∉ N) :
    s.GetClsInfo env N = .ok none s ∧
      s.CreateObj env N = .ok none s ∧
      (s.singletonLookup N = none → s.CreateSingletonObj env N = .ok none s) := by
  have hres : s.GetClsInfo env N = .ok none s := by
    simp [ObjBase.GetClsInfo, hunreg, wcsstr_c_str_none_of_not_mem hsep]
  refine ⟨hres, by simp [ObjBase.CreateObj, hres], fun hmiss => ?_⟩
  simp [ObjBase.CreateSingletonObj, hmiss, ObjBase.singletonConstructStore, hres]

/-- C8 at a concrete input: `L"Bar"` requested from a registry that only knows
`L"Foo"`, in a debug build. -/
theorem C8_unregistered_name_without_separator_witness :
    fooRegistry.GetClsInfo { envPointerFirst with NDEBUG := false } barName =
        .ok none fooRegistry ∧
      fooRegistry.CreateObj { envPointerFirst with NDEBUG := false } barName =
        .ok none fooRegistry ∧
      (fooRegistry.singletonLookup barName = none →
        fooRegistry.CreateSingletonObj { envPointerFirst with NDEBUG := false } barName =
          .ok none fooRegistry) :=
  C8_unregistered_name_without_separator { envPointerFirst with NDEBUG := false } barName
    fooRegistry rfl (by decide)

/-- C9. In the production configuration (`NDEBUG`), for a name `N` that is not in
the class table, contains `@`, and whose module locator fails to load:
`GetClsInfo(N)` and `CreateObj(N)` return empty without stopping at the
assertion; class table, singleton cache, control blocks and world are
unchanged, and no construct function is called. (The proof does not need the
separator: a name without one is not looked up in any module.) -/
theorem C9_failed_load_is_empty_in_production {W : Type} (env : Env W) (N : wstring)
    (s : ObjBase W) (hprod : env.NDEBUG = true) (hunreg : Map.find N s.classes_ = none)
    (_hsep : '@' ∈ N) (hfail : env.LoadLibraryW (locator N) s.world = none) :
    ∃ s1, s.GetClsInfo env N = .ok none s1 ∧ s.CreateObj env N = .ok none s1 ∧
      s1.classes_ = s.classes_ ∧ s1.singletons_ = s.singletons_ ∧ s1.blocks = s.blocks ∧
      s1.world = s.world ∧ createCount s1.trace = createCount s.trace := by
  have hres : ∃ s1, s.GetClsInfo env N = .ok none s1 ∧
      s1.classes_ = s.classes_ ∧ s1.singletons_ = s.singletons_ ∧ s1.blocks = s.blocks ∧
      s1.world = s.world ∧ createCount s1.trace = createCount s.trace := by
    cases hw : wcsstr (c_str N) DLL_SEPARATOR with
    | none => exact ⟨s, by simp [ObjBase.GetClsInfo, hunreg, hw], rfl, rfl, rfl, rfl, rfl⟩
    | some p =>
      have hd := dllname_eq_locator hw
      refine ⟨{ s with trace := s.trace ++ [Event.load (locator N) false] }, ?_,
        rfl, rfl, rfl, rfl, ?_⟩
      · simp [ObjBase.GetClsInfo, hunreg, hw, hd, hfail, hprod]
      · simp [createCount, List.filter_append]
  obtain ⟨s1, h1, h2⟩ := hres
  exact ⟨s1, h1, by simp [ObjBase.CreateObj, h1], h2⟩

/-- C9 at the input of the specification: `L"missing.mod@IFoo"` with no module
`missing.mod`. -/
theorem C9_failed_load_is_empty_in_production_witness :
    '@' ∈ missingName ∧
      locator missingName = ['m', 'i', 's', 's', 'i', 'n', 'g', '.', 'm', 'o', 'd'] ∧
      ∃ s1, fooRegistry.GetClsInfo envPointerFirst missingName = .ok none s1 ∧
        fooRegistry.CreateObj envPointerFirst missingName = .ok none s1 ∧
        s1.classes_ = fooRegistry.classes_ ∧ s1.singletons_ = fooRegistry.singletons_ ∧
        s1.blocks = fooRegistry.blocks ∧ s1.world = fooRegistry.world ∧
        createCount s1.trace = createCount fooRegistry.trace :=
  ⟨by decide, by decide,
    C9_failed_load_is_empty_in_production envPointerFirst missingName fooRegistry rfl rfl
      (by decide) rfl⟩

/-! ## The module locator -/

/-- C10 as stated fails. The name `a`, NUL, `@`, `b` is not in the class table
and contains `@`; the part before its first `@` is `a`, NUL, and loading that
would succeed. `GetClsInfo` asks for no module at all: `wcsstr` reads the name as
a C string, which ends at the NUL, and finds no separator. -/
theorem C10_counterexample_separator_after_NUL :
    '@' ∈ nulName ∧ Map.find nulName (ObjBase.empty (0 : Nat)).classes_ = none ∧
      locator nulName = ['a', NUL] ∧
      (ObjBase.empty 0).GetClsInfo envLoadsAll nulName = .ok none (ObjBase.empty 0) ∧
      loadCount ((ObjBase.empty 0).GetClsInfo envLoadsAll nulName).state.trace = 0 ∧
      ¬ ∃ ok, ((ObjBase.empty 0).GetClsInfo envLoadsAll nulName).state.trace =
        (ObjBase.empty 0).trace ++ [Event.load (locator nulName) ok] := by
  refine ⟨by decide, rfl, by decide, rfl, by decide, ?_⟩
  rintro ⟨ok, h⟩
  cases ok <;> exact absurd h (by decide)

/-- C10, amended. For a name `N` that is not in the class table and whose
C-string view (the characters before the first NUL) contains `@`, `GetClsInfo`
makes exactly one load request, for the part of `N` strictly before its first
`@`; if the load succeeds the result is the entry found under the full name `N`
after the module has initialised, and if it fails only the request is
recorded. -/
theorem C10_load_request_is_part_before_first_separator {W : Type} (env : Env W)
    (N : wstring) (s : ObjBase W) (hunreg : Map.find N s.classes_ = none)
    (hsep : '@' ∈ c_str N) :
    (∃ ok, (s.GetClsInfo env N).state.trace = s.trace ++ [Event.load (locator N) ok]) ∧
      (∀ w regs, env.LoadLibraryW (locator N) s.world = some (w, regs) →
        s.GetClsInfo env N =
          .ok (Map.find N (ObjBase.moduleInit regs
              { s with world := w, trace := s.trace ++ [Event.load (locator N) true] }).classes_)
            (ObjBase.moduleInit regs
              { s with world := w, trace := s.trace ++ [Event.load (locator N) true] })) ∧
      (env.LoadLibraryW (locator N) s.world = none →
        (s.GetClsInfo env N).state =
          { s with trace := s.trace ++ [Event.load (locator N) false] }) := by
  obtain ⟨p, hw⟩ := wcsstr_isSome_of_mem hsep
  have hd := dllname_eq_locator hw
  have hsucc : ∀ w regs, env.LoadLibraryW (locator N) s.world = some (w, regs) →
      s.GetClsInfo env N =
        .ok (Map.find N (ObjBase.moduleInit regs
            { s with world := w, trace := s.trace ++ [Event.load (locator N) true] }).classes_)
          (ObjBase.moduleInit regs
            { s with world := w, trace := s.trace ++ [Event.load (locator N) true] }) := by
    intro w regs hl
    simp [ObjBase.GetClsInfo, hunreg, hw, hd, hl]
  have hfail : env.LoadLibraryW (locator N) s.world = none →
      (s.GetClsInfo env N).state =
        { s with trace := s.trace ++ [Event.load (locator N) false] } := by
    intro hl
    cases hdbg : env.NDEBUG <;>
      simp [ObjBase.GetClsInfo, hunreg, hw, hd, hl, hdbg, Result.state]
  refine ⟨?_, hsucc, hfail⟩
  cases hl : env.LoadLibraryW (locator N) s.world with
  | none => exact ⟨false, by rw [hfail hl]⟩
  | some r =>
    obtain ⟨w, regs⟩ := r
    refine ⟨true, ?_⟩
    rw [hsucc w regs hl]
    exact (ObjBase.moduleInit_frame regs _).1

/-- C10 (amended) at the inputs of the claim: for `L"a@b@c"` the module asked for
is `L"a"`, for `L"@x"` it is the empty string. -/
theorem C10_load_request_is_part_before_first_separator_witness :
    ('@' ∈ c_str abcName ∧ locator abcName = ['a'] ∧
      ∃ ok, ((ObjBase.empty (0 : Nat)).GetClsInfo envLoadsAll abcName).state.trace =
        (ObjBase.empty 0).trace ++ [Event.load (locator abcName) ok]) ∧
    ('@' ∈ c_str atName ∧ locator atName = [] ∧
      ∃ ok, ((ObjBase.empty (0 : Nat)).GetClsInfo envLoadsAll atName).state.trace =
        (ObjBase.empty 0).trace ++ [Event.load (locator atName) ok]) :=
  ⟨⟨by decide, by decide,
      (C10_load_request_is_part_before_first_separator envLoadsAll abcName (ObjBase.empty 0)
        rfl (by decide)).1⟩,
    ⟨by decide, by decide,
      (C10_load_request_is_part_before_first_separator envLoadsAll atName (ObjBase.empty 0)
        rfl (by decide)).1⟩⟩

/-! ## Load and retry -/

theorem ObjBase.moduleInit_cons {W : Type} (r : wstring × ClassInfo W)
    (regs : List (wstring × ClassInfo W)) (s : ObjBase W) :
    ObjBase.moduleInit (r :: regs) s =
      ObjBase.moduleInit regs (s.RegisterCls r.1 r.2.pfnCreate r.2.pfnDestroy).2 := rfl

theorem ObjBase.moduleInit_append {W : Type} (pre post : List (wstring × ClassInfo W))
    (s : ObjBase W) :
    ObjBase.moduleInit (pre ++ post) s = ObjBase.moduleInit post (ObjBase.moduleInit pre s) := by
  simp [ObjBase.moduleInit, List.foldl_append]

theorem ObjBase.moduleInit_nextInfo {W : Type} (regs : List (wstring × ClassInfo W))
    (s : ObjBase W) : (ObjBase.moduleInit regs s).nextInfo = s.nextInfo + regs.length := by
  induction regs generalizing s with
  | nil => rfl
  | cons r regs ih =>
    rw [ObjBase.moduleInit_cons, ih]
    show s.nextInfo + 1 + regs.length = s.nextInfo + (regs.length + 1)
    omega

/-- A module that registers nothing under `N` leaves the entry of `N` as it was. -/
theorem ObjBase.moduleInit_find_other {W : Type} (N : wstring)
    (regs : List (wstring × ClassInfo W)) (s : ObjBase W) (hno : ∀ r ∈ regs, r.1 ≠ N) :
    Map.find N (ObjBase.moduleInit regs s).classes_ = Map.find N s.classes_ := by
  induction regs generalizing s with
  | nil => rfl
  | cons r regs ih =>
    rw [ObjBase.moduleInit_cons, ih _ (fun r' hr' => hno r' (List.mem_cons_of_mem _ hr'))]
    have hne : N ≠ r.1 := fun e => hno r (List.mem_cons_self _ _) e.symm
    exact Map.find_assign_ne hne _ _

/-- The last registration a module makes under `N` is the entry of `N` afterwards. -/
theorem ObjBase.moduleInit_find_last {W : Type} (N : wstring)
    (pre post : List (wstring × ClassInfo W)) (ci : ClassInfo W) (s : ObjBase W)
    (hno : ∀ r ∈ post, r.1 ≠ N) :
    Map.find N (ObjBase.moduleInit (pre ++ (N, ci) :: post) s).classes_ =
      some { addr := s.nextInfo + pre.length, obj := ci } := by
  rw [ObjBase.moduleInit_append, ObjBase.moduleInit_cons,
    ObjBase.moduleInit_find_other N post _ hno]
  show Map.find N (Map.assign N _ _) = _
  rw [Map.find_assign_self, ObjBase.moduleInit_nextInfo]

/-- C11 as stated fails. The name `a`, NUL, `@`, `b` is not registered, contains
the separator, and loading the part before its `@` succeeds. `GetClsInfo` makes
no load request at all and returns empty: the C-string view of the name ends at
the NUL and holds no separator. -/
theorem C11_counterexample_no_load_for_separator_after_NUL :
    '@' ∈ nulName ∧ Map.find nulName (ObjBase.empty (0 : Nat)).classes_ = none ∧
      envLoadsAll.LoadLibraryW (locator nulName) (ObjBase.empty (0 : Nat)).world =
        some (0, []) ∧
      loadCount ((ObjBase.empty 0).GetClsInfo envLoadsAll nulName).state.trace =
        loadCount (ObjBase.empty (0 : Nat)).trace ∧
      ¬ (loadCount ((ObjBase.empty 0).GetClsInfo envLoadsAll nulName).state.trace =
        loadCount (ObjBase.empty (0 : Nat)).trace + 1) := by
  refine ⟨by decide, rfl, rfl, by decide, by decide⟩

/-- C11, amended. For a name `N` that is not in the class table, whose C-string
view (the characters before the first NUL) contains `@`, and whose module load
succeeds: `GetClsInfo(N)` makes exactly one load request and returns the result
of one lookup of the full name `N` in the class table as the module's
initialisation left it. That result is the `ClassInfo` the module registered
last under exactly `N`, and it is empty when the module registered nothing
under `N` (nothing at all, or only other names). -/
theorem C11_one_load_then_one_retry {W : Type} (env : Env W) (N : wstring) (s : ObjBase W)
    (w : W) (regs : List (wstring × ClassInfo W))
    (hunreg : Map.find N s.classes_ = none) (hsep : '@' ∈ c_str N)
    (hload : env.LoadLibraryW (locator N) s.world = some (w, regs)) :
    ∃ v s1, s.GetClsInfo env N = .ok v s1 ∧
      s1 = ObjBase.moduleInit regs
        { s with world := w, trace := s.trace ++ [Event.load (locator N) true] } ∧
      s1.trace = s.trace ++ [Event.load (locator N) true] ∧
      loadCount s1.trace = loadCount s.trace + 1 ∧
      v = Map.find N s1.classes_ ∧
      (regs = [] → v = none) ∧
      ((∀ r ∈ regs, r.1 ≠ N) → v = none) ∧
      (∀ pre ci post, regs = pre ++ (N, ci) :: post → (∀ r ∈ post, r.1 ≠ N) →
        v = some { addr := s.nextInfo + pre.length, obj := ci }) := by
  obtain ⟨p, hw⟩ := wcsstr_isSome_of_mem hsep
  have hd := dllname_eq_locator hw
  have hget : s.GetClsInfo env N =
      .ok (Map.find N (ObjBase.moduleInit regs
          { s with world := w, trace := s.trace ++ [Event.load (locator N) true] }).classes_)
        (ObjBase.moduleInit regs
          { s with world := w, trace := s.trace ++ [Event.load (locator N) true] }) := by
    simp [ObjBase.GetClsInfo, hunreg, hw, hd, hload]
  have htr := (ObjBase.moduleInit_frame regs
    { s with world := w, trace := s.trace ++ [Event.load (locator N) true] }).1
  have hother : (∀ r ∈ regs, r.1 ≠ N) →
      Map.find N (ObjBase.moduleInit regs
        { s with world := w, trace := s.trace ++ [Event.load (locator N) true] }).classes_
        = none := by
    intro hno
    rw [ObjBase.moduleInit_find_other N regs _ hno]
    exact hunreg
  refine ⟨_, _, hget, rfl, htr, ?_, rfl, ?_, hother, ?_⟩
  · rw [htr]
    simp [loadCount, List.filter_append]
  · intro hnil
    exact hother (by simp [hnil])
  · intro pre ci post hregs hno
    rw [hregs]
    exact ObjBase.moduleInit_find_last N pre post ci _ hno

/-- C11 (amended) at concrete inputs: module `L"mod"` registers under
`L"mod@IFoo"` and the request resolves to that class after one load; module
`L"mod"` registers under `L"IFoo"` only and the request is empty after one
load. -/
theorem C11_one_load_then_one_retry_witness :
    (∃ s1, fooRegistry.GetClsInfo envModFull modName =
        .ok (some { addr := 1, obj := { pfnCreate := fooCreate, pfnDestroy := fooDestroy } })
          s1 ∧
      s1.trace = [Event.load ['m', 'o', 'd'] true]) ∧
    (∃ s1, fooRegistry.GetClsInfo envModShort modName = .ok none s1 ∧
      s1.trace = [Event.load ['m', 'o', 'd'] true]) := by
  obtain ⟨v, s1, h1, -, h3, -, -, -, -, h8⟩ :=
    C11_one_load_then_one_retry envModFull modName fooRegistry 0
      [(modName, { pfnCreate := fooCreate, pfnDestroy := fooDestroy })] rfl (by decide) rfl
  obtain ⟨v', s1', h1', -, h3', -, -, -, h7', -⟩ :=
    C11_one_load_then_one_retry envModShort modName fooRegistry 0
      [(ifooName, { pfnCreate := fooCreate, pfnDestroy := fooDestroy })] rfl (by decide) rfl
  refine ⟨⟨s1, ?_, h3⟩, ⟨s1', ?_, h3'⟩⟩
  · rw [h1, h8 [] _ [] rfl (by simp)]; rfl
  · rw [h1', h7' (by decide)]

/-! ## Counting instances -/

theorem ObjBase.CreateObj_registered {W : Type} (env : Env W) {N : wstring} {s : ObjBase W}
    {info : InfoPtr W} (hreg : Map.find N s.classes_ = some info) :
    s.CreateObj env N = .ok (some s.blocks.length) (s.transientBorn env info) := by
  simp only [ObjBase.CreateObj, ObjBase.GetClsInfo_registered env hreg, ObjBase.transientBorn]

theorem getElem?_lt_of_some {α : Type} {l : List α} {b : Nat} {x : α}
    (hb : l[b]? = some x) : b < l.length := by
  by_contra hge
  rw [List.getElem?_eq_none (by omega)] at hb
  exact absurd hb (by simp)

/-- What `k` calls of `CreateObj(N)` on a registered name do. -/
theorem ObjBase.createMany_spec {W : Type} (env : Env W) (N : wstring) (info : InfoPtr W)
    (k : Nat) (s : ObjBase W) (hreg : Map.find N s.classes_ = some info) :
    (s.createMany env N k).1.length = k ∧
      (s.createMany env N k).2.classes_ = s.classes_ ∧
      (s.createMany env N k).2.singletons_ = s.singletons_ ∧
      (∀ (b : Nat) (cb : CtrlBlock W), s.blocks[b]? = some cb →
        (s.createMany env N k).2.blocks[b]? = some cb) ∧
      (∀ h ∈ (s.createMany env N k).1,
        ObjBase.solelyOwnsTransient info (s.createMany env N k).2 h) := by
  induction k generalizing s with
  | zero =>
    refine ⟨rfl, rfl, rfl, ?_, ?_⟩
    · intro b cb hb
      exact hb
    · intro h hh
      exact absurd hh (by simp [ObjBase.createMany])
  | succ k ih =>
    have hreg1 : Map.find N (s.transientBorn env info).classes_ = some info := hreg
    obtain ⟨h1, h2, h3, h4, h5⟩ := ih (s.transientBorn env info) hreg1
    have hstep : s.createMany env N (k + 1) =
        (some s.blocks.length :: ((s.transientBorn env info).createMany env N k).1,
          ((s.transientBorn env info).createMany env N k).2) := by
      simp only [ObjBase.createMany, ObjBase.CreateObj_registered env hreg]
    rw [hstep]
    refine ⟨by simp [h1], h2, h3, ?_, ?_⟩
    · intro b cb hb
      apply h4
      show (s.blocks ++ [_])[b]? = some cb
      rw [List.getElem?_append_left (getElem?_lt_of_some hb), hb]
    · intro h hh
      rcases List.mem_cons.mp hh with e | e
      · subst e
        exact ⟨s.blocks.length, _, _, rfl,
          h4 _ _ (List.getElem?_concat_length s.blocks _), rfl, rfl⟩
      · exact h5 h e

/-- Counter after `k` calls of `CreateObj(N)` for a construct function that
increments it. -/
theorem ObjBase.createMany_counter (env : Env Int) (N : wstring) (info : InfoPtr Int)
    (k : Nat) (s : ObjBase Int) (hreg : Map.find N s.classes_ = some info)
    (hc : ∀ w p, (info.obj.pfnCreate w p).2.2 = w + 1) :
    (s.createMany env N k).2.world = s.world + k := by
  induction k generalizing s with
  | zero => simp [ObjBase.createMany]
  | succ k ih =>
    have hreg1 : Map.find N (s.transientBorn env info).classes_ = some info := hreg
    have hstep : (s.createMany env N (k + 1)).2 =
        ((s.transientBorn env info).createMany env N k).2 := by
      simp only [ObjBase.createMany, ObjBase.CreateObj_registered env hreg]
    rw [hstep, ih _ hreg1]
    show (info.obj.pfnCreate s.world nullptr).2.2 + (k : Int) = s.world + ((k + 1 : Nat) : Int)
    rw [hc]
    push_cast
    ring

/-- Counter after the release of distinct sole owners of transient instances, for
a destroy function that decrements it. -/
theorem ObjBase.releaseAll_counter (info : InfoPtr Int) (rel : List Handle)
    (s : ObjBase Int) (hd : ∀ p w, info.obj.pfnDestroy p w = w - 1)
    (hown : ∀ h ∈ rel, ObjBase.solelyOwnsTransient info s h) (hnodup : rel.Nodup) :
    (ObjBase.releaseAll rel s).world = s.world - rel.length := by
  induction rel generalizing s with
  | nil => simp [ObjBase.releaseAll]
  | cons h rel ih =>
    obtain ⟨b, cb, obj, hhb, hb, h1, hdel⟩ := hown h (List.mem_cons_self _ _)
    subst hhb
    have hrel := ObjBase.release_last_instance s b cb info obj hb h1 (Or.inl hdel)
    have hnd := List.nodup_cons.mp hnodup
    have hown' : ∀ h' ∈ rel, ObjBase.solelyOwnsTransient info (s.release (some b)) h' := by
      intro h' hh'
      obtain ⟨b', cb', obj', e, hb', h1', hdel'⟩ := hown h' (List.mem_cons_of_mem _ hh')
      subst e
      have hne : b ≠ b' := fun e => hnd.1 (e ▸ hh')
      exact ⟨b', cb', obj', rfl, by rw [ObjBase.release_blocks_ne s hne, hb'], h1', hdel'⟩
    have := ih (s.release (some b)) hown' hnd.2
    show (ObjBase.releaseAll rel (s.release (some b))).world = _
    rw [this, hrel.2.1, hd]
    simp only [List.length_cons]
    push_cast
    ring

/-- For a destroy function that decrements the counter whatever handle it is
given (it does not look at its argument), the counter after `k` calls of
`CreateObj(N)` and the release of `j` different returned handles has grown by
`k - j`, in either order of argument evaluation. -/
theorem ObjBase.counter_when_destroy_ignores_handle (env : Env Int) (N : wstring)
    (info : InfoPtr Int) (k : Nat) (rel : List Handle) (s : ObjBase Int)
    (hreg : Map.find N s.classes_ = some info)
    (hc : ∀ w p, (info.obj.pfnCreate w p).2.2 = w + 1)
    (hd : ∀ p w, info.obj.pfnDestroy p w = w - 1)
    (hrel : ∀ h ∈ rel, h ∈ (s.createMany env N k).1) (hnodup : rel.Nodup) :
    (s.createMany env N k).1.length = k ∧
      (s.createMany env N k).2.world = s.world + k ∧
      (ObjBase.releaseAll rel (s.createMany env N k).2).world =
        s.world + k - rel.length := by
  obtain ⟨h1, -, -, -, h5⟩ := ObjBase.createMany_spec env N info k s hreg
  have hw := ObjBase.createMany_counter env N info k s hreg hc
  refine ⟨h1, hw, ?_⟩
  rw [ObjBase.releaseAll_counter info rel _ hd (fun h hh => h5 h (hrel h hh)) hnodup, hw]

/-- C12, evaluated where the code departs from it. Class `L"Foo"` is registered
in the shape `REGISTER_OBJECT` produces: construct allocates the object (the
counter goes up) and stores its native handle `100`; destroy is `delete p` (the
counter goes down, nothing happens for a null `p`). Three instances are created
and two of them released. In a build that evaluates the deleter lambda before
the call of `pfnCreate`, destroy is called twice, each time on `nullptr`, and
the counter reads `3`, not `1`. In a build that evaluates the pointer argument
first it reads `1`. -/
theorem C12_counter_reads_three_when_deleter_first :
    (fooRegistry.createMany envDeleterFirst fooName 3).1 = [some 1, some 2, some 3] ∧
      (fooRegistry.createMany envDeleterFirst fooName 3).2.world = 3 ∧
      (ObjBase.releaseAll [some 1, some 2]
        (fooRegistry.createMany envDeleterFirst fooName 3).2).world = 3 ∧
      (ObjBase.releaseAll [some 1, some 2]
        (fooRegistry.createMany envDeleterFirst fooName 3).2).trace =
        [Event.create 0 100 108, Event.create 0 100 108, Event.create 0 100 108,
          Event.destroy 0 nullptr, Event.destroy 0 nullptr] ∧
      (ObjBase.releaseAll [some 1, some 2]
        (fooRegistry.createMany envPointerFirst fooName 3).2).world = 1 ∧
      (ObjBase.releaseAll [some 1, some 2]
        (fooRegistry.createMany envPointerFirst fooName 3).2).trace =
        [Event.create 0 100 108, Event.create 0 100 108, Event.create 0 100 108,
          Event.destroy 0 100, Event.destroy 0 100] := by
  refine ⟨by decide, by decide, by decide, by decide, by decide, by decide⟩

/-! ## The process-wide instance -/

theorem GetObjBase_of_some {W : Type} (p : Process W) (a : Nat) (h : p.instance_ = some a) :
    GetObjBase p = (some a, p) := by
  simp [GetObjBase, h]

theorem GetObjBase_atMostOne {W : Type} (p : Process W) (h : p.atMostOne) :
    (GetObjBase p).1 = some 0 ∧ (GetObjBase p).2.instance_ = some 0 ∧
      (GetObjBase p).2.objects.length = 1 := by
  rcases h with ⟨h1, h2⟩ | ⟨h1, h2⟩
  · simp [GetObjBase, h1, h2]
  · rw [GetObjBase_of_some p 0 h1]
    exact ⟨rfl, h1, h2⟩

theorem Process.onObject_atMostOne {W : Type} (h : Option Nat) (f : ObjBase W → ObjBase W)
    (p : Process W) (hp : p.atMostOne) :
    (p.onObject h f).instance_ = p.instance_ ∧
      (p.onObject h f).objects.length = p.objects.length ∧ (p.onObject h f).atMostOne := by
  cases h with
  | none => exact ⟨rfl, rfl, hp⟩
  | some a =>
    cases ho : p.objects[a]? with
    | none =>
      have e : p.onObject (some a) f = p := by simp only [Process.onObject, ho]
      rw [e]
      exact ⟨rfl, rfl, hp⟩
    | some o =>
      have e : p.onObject (some a) f = { p with objects := p.objects.set a (f o) } := by
        simp only [Process.onObject, ho]
      rw [e]
      refine ⟨rfl, by simp, ?_⟩
      rcases hp with ⟨h1, h2⟩ | ⟨h1, h2⟩
      · rw [h2] at ho; simp at ho
      · exact Or.inr ⟨h1, by simpa using h2⟩

theorem Process.run_atMostOne {W : Type} (cs : List (ProcCall W)) (p : Process W)
    (hp : p.atMostOne) :
    (∀ h ∈ (Process.run cs p).1, h = some 0) ∧ (Process.run cs p).2.atMostOne ∧
      ((Process.run cs p).1 ≠ [] →
        (Process.run cs p).2.instance_ = some 0 ∧ (Process.run cs p).2.objects.length = 1) ∧
      (p.instance_ = some 0 → (Process.run cs p).2.instance_ = some 0) := by
  induction cs generalizing p with
  | nil => exact ⟨fun h hh => absurd hh (by simp [Process.run]), hp,
      fun hne => absurd rfl hne, fun h => h⟩
  | cons c cs ih =>
    cases c with
    | GetObjBase =>
      obtain ⟨g1, g2, g3⟩ := GetObjBase_atMostOne p hp
      obtain ⟨i1, i2, -, i4⟩ := ih (GetObjBase p).2 (Or.inr ⟨g2, g3⟩)
      refine ⟨?_, i2, fun _ => ?_, fun _ => i4 g2⟩
      · intro h hh
        rcases List.mem_cons.mp hh with e | e
        · rw [e]; exact g1
        · exact i1 h e
      · have := i4 g2
        rcases i2 with ⟨j1, -⟩ | ⟨-, j2⟩
        · rw [this] at j1; exact absurd j1 (by simp)
        · exact ⟨this, j2⟩
    | getInstance =>
      obtain ⟨g1, g2, g3⟩ := GetObjBase_atMostOne p hp
      obtain ⟨i1, i2, -, i4⟩ := ih (GetObjBase p).2 (Or.inr ⟨g2, g3⟩)
      refine ⟨?_, i2, fun _ => ?_, fun _ => i4 g2⟩
      · intro h hh
        rcases List.mem_cons.mp hh with e | e
        · rw [e]; exact g1
        · exact i1 h e
      · have := i4 g2
        rcases i2 with ⟨j1, -⟩ | ⟨-, j2⟩
        · rw [this] at j1; exact absurd j1 (by simp)
        · exact ⟨this, j2⟩
    | method h f =>
      obtain ⟨o1, -, o3⟩ := Process.onObject_atMostOne h f p hp
      obtain ⟨i1, i2, i3, i4⟩ := ih (p.onObject h f) o3
      exact ⟨i1, i2, i3, fun hi => i4 (by rw [o1]; exact hi)⟩

/-- C13. In a process that starts without a registry: the first `GetObjBase`
call constructs one (at address `0`); in every sequence of `GetObjBase` /
`ObjBase::getInstance` calls, with any method calls on the registry in between,
each call returns that same instance and no second registry is ever
constructed; a call made when `instance_` is set returns it and changes
nothing; and a class registered through one returned handle is resolved by
`GetClsInfo` through every other returned handle. -/
theorem C13_one_registry_per_process {W : Type} (w : W) (cs : List (ProcCall W)) :
    (GetObjBase (Process.start w)).1 = some 0 ∧
      (GetObjBase (Process.start w)).2.objects = [ObjBase.empty w] ∧
      (∀ h ∈ (Process.run cs (Process.start w)).1, h = some 0) ∧
      (Process.run cs (Process.start w)).2.objects.length ≤ 1 ∧
      (∀ (p : Process W) (a : Nat), p.instance_ = some a →
        GetObjBase p = (some a, p) ∧ ObjBase.getInstance p = (some a, p)) ∧
      (∀ h1 ∈ (Process.run cs (Process.start w)).1,
        ∀ h2 ∈ (Process.run cs (Process.start w)).1,
        ∀ (env : Env W) (N : wstring) (c : W → VoidPtr → VoidPtr × VoidPtr × W)
          (d : VoidPtr → W → W),
        ∃ o o', Process.deref (Process.run cs (Process.start w)).2 h1 = some o ∧
          Process.deref
            (Process.onObject h1 (fun x => (x.RegisterCls N c d).2)
              (Process.run cs (Process.start w)).2) h2 = some o' ∧
          o'.GetClsInfo env N =
            .ok (some { addr := o.nextInfo, obj := { pfnCreate := c, pfnDestroy := d } }) o') := by
  have hstart : (Process.start w).atMostOne := Or.inl ⟨rfl, rfl⟩
  obtain ⟨r1, r2, r3, -⟩ := Process.run_atMostOne cs (Process.start w) hstart
  refine ⟨rfl, rfl, r1, ?_, ?_, ?_⟩
  · rcases r2 with ⟨-, j2⟩ | ⟨-, j2⟩
    · rw [j2]; simp
    · omega
  · intro p a hp
    exact ⟨GetObjBase_of_some p a hp, GetObjBase_of_some p a hp⟩
  · intro h1 hh1 h2 hh2 env N c d
    have e1 := r1 h1 hh1
    have e2 := r1 h2 hh2
    subst e1; subst e2
    obtain ⟨-, hlen⟩ := r3 (List.ne_nil_of_mem hh1)
    have h0 : 0 < (Process.run cs (Process.start w)).2.objects.length := by omega
    have ho : (Process.run cs (Process.start w)).2.objects[0]? =
        some ((Process.run cs (Process.start w)).2.objects[0]) := List.getElem?_eq_getElem h0
    refine ⟨(Process.run cs (Process.start w)).2.objects[0],
      (((Process.run cs (Process.start w)).2.objects[0]).RegisterCls N c d).2, ho, ?_,
      ObjBase.GetClsInfo_registered env
        (show Map.find N
          (((Process.run cs (Process.start w)).2.objects[0]).RegisterCls N c d).2.classes_ = _
          from Map.find_assign_self _ _ _)⟩
    simp only [Process.onObject, ho, Process.deref]
    simp [List.getElem?_set, h0]

/-! ## The invariant of the singleton cache -/

theorem getElem?_set_cases {α : Type} {l : List α} {b b' : Nat} {x y : α}
    (h : (l.set b x)[b']? = some y) : (b' = b ∧ y = x) ∨ (b' ≠ b ∧ l[b']? = some y) := by
  rw [List.getElem?_set] at h
  by_cases e : b = b'
  · rw [if_pos e] at h
    by_cases hl : b < l.length
    · rw [if_pos hl] at h
      exact Or.inl ⟨e.symm, (Option.some.inj h).symm⟩
    · rw [if_neg hl] at h
      exact absurd h (by simp)
  · rw [if_neg e] at h
    exact Or.inr ⟨fun e' => e e'.symm, h⟩

theorem getElem?_concat_cases {α : Type} {l : List α} {b : Nat} {x y : α}
    (h : (l ++ [x])[b]? = some y) : l[b]? = some y ∨ (b = l.length ∧ y = x) := by
  by_cases hl : b < l.length
  · rw [List.getElem?_append_left hl] at h
    exact Or.inl h
  · by_cases e : b = l.length
    · subst e
      rw [List.getElem?_concat_length] at h
      exact Or.inr ⟨rfl, (Option.some.inj h).symm⟩
    · rw [List.getElem?_eq_none (by simp; omega)] at h
      exact absurd h (by simp)

theorem getElem?_concat_of_some {α : Type} {l : List α} {b : Nat} {y : α} (x : α)
    (h : l[b]? = some y) : (l ++ [x])[b]? = some y := by
  rw [List.getElem?_append_left (getElem?_lt_of_some h), h]

theorem getElem?_set_of_ne {α : Type} (l : List α) {b b' : Nat} (x : α) (hne : b' ≠ b) :
    (l.set b x)[b']? = l[b']? := by
  rw [List.getElem?_set, if_neg (fun e => hne e.symm)]

theorem Map.find_of_find_erase {α : Type} {k k' : wstring} {m : List (wstring × α)} {v : α}
    (h : Map.find k' (Map.erase k m) = some v) : k' ≠ k ∧ Map.find k' m = some v := by
  by_cases e : k' = k
  · subst e
    rw [Map.find_erase_self] at h
    exact absurd h (by simp)
  · rw [Map.find_erase_ne e] at h
    exact ⟨e, h⟩

theorem ObjBase.isLiveSingleton_iff {W : Type} (s : ObjBase W) (N : wstring) (b : Nat) :
    s.isLiveSingleton N b = true ↔
      ∃ cb info obj, s.blocks[b]? = some cb ∧ cb.deleter = Deleter.singleton info N obj ∧
        0 < cb.use_count := by
  unfold ObjBase.isLiveSingleton
  cases hb : s.blocks[b]? with
  | none => simp
  | some cb =>
    obtain ⟨ptr, cnt, del⟩ := cb
    cases del with
    | transient info obj => simp
    | token M => simp
    | singleton info M obj =>
      simp only [Bool.and_eq_true, decide_eq_true_eq, Option.some.injEq]
      constructor
      · rintro ⟨e, hpos⟩
        subst e
        exact ⟨_, info, obj, rfl, rfl, hpos⟩
      · rintro ⟨cb, info', obj', e, hdel, hpos⟩
        subst e
        simp only [Deleter.singleton.injEq] at hdel
        exact ⟨hdel.2.1, hpos⟩

/-- Under the invariant a cache lookup misses only when the name has no entry. -/
theorem ObjBase.CacheInv.lookup_miss {W : Type} {s : ObjBase W} (hI : s.CacheInv)
    {N : wstring} (hmiss : s.singletonLookup N = none) : Map.find N s.singletons_ = none := by
  cases hf : Map.find N s.singletons_ with
  | none => rfl
  | some b =>
    obtain ⟨cb, info, obj, hb, hdel, hpos⟩ := hI.entry_live N b hf
    have hp := hI.nonnull N b cb info obj hb hdel
    rw [ObjBase.singletonLookup_hit hf hb (by omega) hp] at hmiss
    exact absurd hmiss (by simp)

/-- A step that appends a control block that is not a singleton instance. -/
theorem ObjBase.CacheInv.append_other {W : Type} {s s' : ObjBase W} (hI : s.CacheInv)
    (x : CtrlBlock W) (hx : ∀ info N obj, x.deleter ≠ Deleter.singleton info N obj)
    (hb : s'.blocks = s.blocks ++ [x]) (hs : s'.singletons_ = s.singletons_)
    (hc : ∀ N info, Map.find N s'.classes_ = some info → NonNullCreate info.obj.pfnCreate) :
    s'.CacheInv := by
  refine ⟨?_, ?_, ?_, hc⟩
  · intro N b hf
    rw [hs] at hf
    obtain ⟨cb, info, obj, h1, h2, h3⟩ := hI.entry_live N b hf
    exact ⟨cb, info, obj, by rw [hb]; exact getElem?_concat_of_some x h1, h2, h3⟩
  · intro N b cb info obj h1 h2 h3
    rw [hb] at h1
    rw [hs]
    rcases getElem?_concat_cases h1 with h | ⟨-, e⟩
    · exact hI.live_entry N b cb info obj h h2 h3
    · subst e
      exact absurd h2 (hx info N obj)
  · intro N b cb info obj h1 h2
    rw [hb] at h1
    rcases getElem?_concat_cases h1 with h | ⟨-, e⟩
    · exact hI.nonnull N b cb info obj h h2
    · subst e
      exact absurd h2 (hx info N obj)

/-- A step that leaves control blocks and cache alone. -/
theorem ObjBase.CacheInv.frame {W : Type} {s s' : ObjBase W} (hI : s.CacheInv)
    (hb : s'.blocks = s.blocks) (hs : s'.singletons_ = s.singletons_)
    (hc : ∀ N info, Map.find N s'.classes_ = some info → NonNullCreate info.obj.pfnCreate) :
    s'.CacheInv := by
  refine ⟨?_, ?_, ?_, hc⟩
  · intro N b hf
    rw [hs] at hf
    rw [hb]
    exact hI.entry_live N b hf
  · intro N b cb info obj h1 h2 h3
    rw [hb] at h1
    rw [hs]
    exact hI.live_entry N b cb info obj h1 h2 h3
  · intro N b cb info obj h1 h2
    rw [hb] at h1
    exact hI.nonnull N b cb info obj h1 h2

/-- The step of `CreateSingletonObj` that appends the new instance and stores it
in the cache, for a name that has no entry. -/
theorem ObjBase.CacheInv.append_singleton {W : Type} {s s' : ObjBase W} (hI : s.CacheInv)
    (info : InfoPtr W) (N : wstring) (obj ptr : VoidPtr)
    (hnone : Map.find N s.singletons_ = none) (hptr : ptr ≠ nullptr)
    (hb : s'.blocks = s.blocks ++
      [{ ptr := ptr, use_count := 1, deleter := Deleter.singleton info N obj }])
    (hs : s'.singletons_ = Map.assign N s.blocks.length s.singletons_)
    (hc : ∀ M i, Map.find M s'.classes_ = some i → NonNullCreate i.obj.pfnCreate) :
    s'.CacheInv := by
  refine ⟨?_, ?_, ?_, hc⟩
  · intro M b hf
    rw [hs] at hf
    rw [hb]
    by_cases e : M = N
    · subst e
      rw [Map.find_assign_self] at hf
      have eb : b = s.blocks.length := (Option.some.inj hf).symm
      subst eb
      exact ⟨_, info, obj, List.getElem?_concat_length _ _, rfl, by simp⟩
    · rw [Map.find_assign_ne e] at hf
      obtain ⟨cb, i, o, h1, h2, h3⟩ := hI.entry_live M b hf
      exact ⟨cb, i, o, getElem?_concat_of_some _ h1, h2, h3⟩
  · intro M b cb i o h1 h2 h3
    rw [hb] at h1
    rw [hs]
    rcases getElem?_concat_cases h1 with h | ⟨eb, e⟩
    · have hold := hI.live_entry M b cb i o h h2 h3
      have hne : M ≠ N := by
        intro e
        subst e
        rw [hnone] at hold
        exact absurd hold (by simp)
      rw [Map.find_assign_ne hne]
      exact hold
    · subst e
      simp only [Deleter.singleton.injEq] at h2
      obtain ⟨-, e2, -⟩ := h2
      subst e2
      rw [Map.find_assign_self, eb]
  · intro M b cb i o h1 h2
    rw [hb] at h1
    rcases getElem?_concat_cases h1 with h | ⟨-, e⟩
    · exact hI.nonnull M b cb i o h h2
    · subst e
      exact hptr

/-- A step that changes the number of holders of a held block to another
positive number. -/
theorem ObjBase.CacheInv.set_count {W : Type} {s s' : ObjBase W} (hI : s.CacheInv)
    {b : Nat} {cb : CtrlBlock W} (n : Nat) (hb0 : s.blocks[b]? = some cb)
    (hpos : 0 < cb.use_count) (hn : 0 < n)
    (hb : s'.blocks = s.blocks.set b { cb with use_count := n })
    (hs : s'.singletons_ = s.singletons_)
    (hc : ∀ N info, Map.find N s'.classes_ = some info → NonNullCreate info.obj.pfnCreate) :
    s'.CacheInv := by
  refine ⟨?_, ?_, ?_, hc⟩
  · intro N b' hf
    rw [hs] at hf
    rw [hb]
    obtain ⟨cb', info, obj, h1, h2, h3⟩ := hI.entry_live N b' hf
    by_cases e : b' = b
    · subst e
      rw [hb0] at h1
      have ecb : cb = cb' := Option.some.inj h1
      subst ecb
      exact ⟨_, info, obj, getElem?_set_self_of_some _ _ _ _ hb0, h2, hn⟩
    · exact ⟨cb', info, obj, by rw [getElem?_set_of_ne _ _ e]; exact h1, h2, h3⟩
  · intro N b' cb' info obj h1 h2 h3
    rw [hb] at h1
    rw [hs]
    rcases getElem?_set_cases h1 with ⟨eb, e⟩ | ⟨-, h⟩
    · subst eb; subst e
      exact hI.live_entry N b' cb info obj hb0 h2 hpos
    · exact hI.live_entry N b' cb' info obj h h2 h3
  · intro N b' cb' info obj h1 h2
    rw [hb] at h1
    rcases getElem?_set_cases h1 with ⟨eb, e⟩ | ⟨-, h⟩
    · subst eb; subst e
      exact hI.nonnull N b' cb info obj hb0 h2
    · exact hI.nonnull N b' cb' info obj h h2

/-- The last holder of a block that is not a singleton instance lets go. -/
theorem ObjBase.CacheInv.kill_other {W : Type} {s s' : ObjBase W} (hI : s.CacheInv)
    {b : Nat} {cb : CtrlBlock W} (hb0 : s.blocks[b]? = some cb)
    (hx : ∀ info N obj, cb.deleter ≠ Deleter.singleton info N obj)
    (hb : s'.blocks = s.blocks.set b { cb with use_count := 0 })
    (hs : s'.singletons_ = s.singletons_)
    (hc : ∀ N info, Map.find N s'.classes_ = some info → NonNullCreate info.obj.pfnCreate) :
    s'.CacheInv := by
  refine ⟨?_, ?_, ?_, hc⟩
  · intro N b' hf
    rw [hs] at hf
    rw [hb]
    obtain ⟨cb', info, obj, h1, h2, h3⟩ := hI.entry_live N b' hf
    have e : b' ≠ b := by
      intro e
      subst e
      rw [hb0] at h1
      have ecb : cb = cb' := Option.some.inj h1
      subst ecb
      exact hx info N obj h2
    exact ⟨cb', info, obj, by rw [getElem?_set_of_ne _ _ e]; exact h1, h2, h3⟩
  · intro N b' cb' info obj h1 h2 h3
    rw [hb] at h1
    rw [hs]
    rcases getElem?_set_cases h1 with ⟨-, e⟩ | ⟨-, h⟩
    · subst e
      exact absurd h2 (hx info N obj)
    · exact hI.live_entry N b' cb' info obj h h2 h3
  · intro N b' cb' info obj h1 h2
    rw [hb] at h1
    rcases getElem?_set_cases h1 with ⟨-, e⟩ | ⟨-, h⟩
    · subst e
      exact absurd h2 (hx info N obj)
    · exact hI.nonnull N b' cb' info obj h h2

/-- The last holder of a singleton instance lets go: the deleter erases the
entry of the instance's name. -/
theorem ObjBase.CacheInv.kill_singleton {W : Type} {s s' : ObjBase W} (hI : s.CacheInv)
    {b : Nat} {cb : CtrlBlock W} {info : InfoPtr W} {M : wstring} {obj : VoidPtr}
    (hb0 : s.blocks[b]? = some cb) (hdel : cb.deleter = Deleter.singleton info M obj)
    (hpos : 0 < cb.use_count)
    (hb : s'.blocks = s.blocks.set b { cb with use_count := 0 })
    (hs : s'.singletons_ = Map.erase M s.singletons_)
    (hc : ∀ N i, Map.find N s'.classes_ = some i → NonNullCreate i.obj.pfnCreate) :
    s'.CacheInv := by
  have hMb := hI.live_entry M b cb info obj hb0 hdel hpos
  refine ⟨?_, ?_, ?_, hc⟩
  · intro N b' hf
    rw [hs] at hf
    rw [hb]
    obtain ⟨hne, hf'⟩ := Map.find_of_find_erase hf
    obtain ⟨cb', i, o, h1, h2, h3⟩ := hI.entry_live N b' hf'
    have e : b' ≠ b := by
      intro e
      subst e
      rw [hb0] at h1
      have ecb : cb = cb' := Option.some.inj h1
      subst ecb
      rw [hdel] at h2
      simp only [Deleter.singleton.injEq] at h2
      exact hne h2.2.1.symm
    exact ⟨cb', i, o, by rw [getElem?_set_of_ne _ _ e]; exact h1, h2, h3⟩
  · intro N b' cb' i o h1 h2 h3
    rw [hb] at h1
    rw [hs]
    rcases getElem?_set_cases h1 with ⟨-, e⟩ | ⟨hbne, h⟩
    · subst e
      exact absurd h3 (by simp)
    · have hold := hI.live_entry N b' cb' i o h h2 h3
      have hne : N ≠ M := by
        intro e
        subst e
        rw [hMb] at hold
        exact hbne (Option.some.inj hold).symm
      rw [Map.find_erase_ne hne]
      exact hold
  · intro N b' cb' i o h1 h2
    rw [hb] at h1
    rcases getElem?_set_cases h1 with ⟨eb, e⟩ | ⟨-, h⟩
    · subst eb; subst e
      exact hI.nonnull N b' cb i o hb0 h2
    · exact hI.nonnull N b' cb' i o h h2

theorem ObjBase.CacheInv.inv_empty {W : Type} (w : W) : (ObjBase.empty w).CacheInv := by
  refine ⟨?_, ?_, ?_, ?_⟩
  · intro N b hf
    exact absurd hf (by simp [ObjBase.empty, Map.find])
  · intro N b cb info obj h1
    exact absurd h1 (by simp [ObjBase.empty])
  · intro N b cb info obj h1
    exact absurd h1 (by simp [ObjBase.empty])
  · intro N info hf
    exact absurd hf (by simp [ObjBase.empty, Map.find])

theorem ObjBase.CacheInv.inv_RegisterCls {W : Type} {s : ObjBase W} (hI : s.CacheInv)
    (N : wstring) (c : W → VoidPtr → VoidPtr × VoidPtr × W) (d : VoidPtr → W → W)
    (hc : NonNullCreate c) : (s.RegisterCls N c d).2.CacheInv := by
  refine hI.append_other { ptr := 1, use_count := 1, deleter := Deleter.token N }
    (by intro _ _ _ h; cases h) ?_ ?_ ?_
  · rfl
  · rfl
  intro M i hf
  have hf' : Map.find M (Map.assign N
      { addr := s.nextInfo, obj := { pfnCreate := c, pfnDestroy := d } } s.classes_) = some i := hf
  by_cases e : M = N
  · subst e
    rw [Map.find_assign_self] at hf'
    have ei := Option.some.inj hf'
    subst ei
    exact hc
  · rw [Map.find_assign_ne e] at hf'
    exact hI.creates M i hf'

theorem ObjBase.CacheInv.inv_moduleInit {W : Type} (regs : List (wstring × ClassInfo W))
    {s : ObjBase W} (hI : s.CacheInv) (hregs : ∀ r ∈ regs, NonNullCreate r.2.pfnCreate) :
    (ObjBase.moduleInit regs s).CacheInv := by
  induction regs generalizing s with
  | nil => exact hI
  | cons r regs ih =>
    rw [ObjBase.moduleInit_cons]
    exact ih (hI.inv_RegisterCls r.1 r.2.pfnCreate r.2.pfnDestroy (hregs r (List.mem_cons_self _ _)))
      (fun r' hr' => hregs r' (List.mem_cons_of_mem _ hr'))

/-- Resolution keeps the invariant, does not touch the cache, and a `ClassInfo`
it returns has a construct function that never returns null. -/
theorem ObjBase.CacheInv.inv_GetClsInfo {W : Type} {s : ObjBase W} (hI : s.CacheInv)
    (env : Env W) (henv : env.nonNull) (N : wstring) :
    (s.GetClsInfo env N).state.CacheInv ∧
      (s.GetClsInfo env N).state.singletons_ = s.singletons_ ∧
      (∀ info s1, s.GetClsInfo env N = .ok (some info) s1 →
        NonNullCreate info.obj.pfnCreate) := by
  cases hf : Map.find N s.classes_ with
  | some info =>
    rw [ObjBase.GetClsInfo_registered env hf]
    refine ⟨hI, rfl, ?_⟩
    intro info' s1 h
    simp only [Result.ok.injEq, Option.some.injEq] at h
    rw [← h.1]
    exact hI.creates N info hf
  | none =>
    cases hw : wcsstr (c_str N) DLL_SEPARATOR with
    | none =>
      have e : s.GetClsInfo env N = .ok none s := by simp [ObjBase.GetClsInfo, hf, hw]
      rw [e]
      exact ⟨hI, rfl, fun info' s1 h => by simp at h⟩
    | some p =>
      cases hl : env.LoadLibraryW (c_str ((c_str N).take p)) s.world with
      | none =>
        have hI1 : ({ s with trace := s.trace ++
            [Event.load (c_str ((c_str N).take p)) false] } : ObjBase W).CacheInv :=
          hI.frame rfl rfl hI.creates
        cases hdbg : env.NDEBUG with
        | true =>
          have e : s.GetClsInfo env N = .ok none { s with trace := s.trace ++
              [Event.load (c_str ((c_str N).take p)) false] } := by
            simp [ObjBase.GetClsInfo, hf, hw, hl, hdbg]
          rw [e]
          exact ⟨hI1, rfl, fun info' s1 h => by simp at h⟩
        | false =>
          have e : s.GetClsInfo env N = .assertFailed { s with trace := s.trace ++
              [Event.load (c_str ((c_str N).take p)) false] } := by
            simp [ObjBase.GetClsInfo, hf, hw, hl, hdbg]
          rw [e]
          exact ⟨hI1, rfl, fun info' s1 h => by simp at h⟩
      | some r =>
        obtain ⟨w, regs⟩ := r
        have hI0 : ({ s with world := w, trace := s.trace ++
            [Event.load (c_str ((c_str N).take p)) true] } : ObjBase W).CacheInv :=
          hI.frame rfl rfl hI.creates
        have hI1 := hI0.inv_moduleInit regs (henv _ _ _ _ hl)
        have e : s.GetClsInfo env N =
            .ok (Map.find N (ObjBase.moduleInit regs { s with world := w, trace := s.trace ++
                [Event.load (c_str ((c_str N).take p)) true] }).classes_)
              (ObjBase.moduleInit regs { s with world := w, trace := s.trace ++
                [Event.load (c_str ((c_str N).take p)) true] }) := by
          simp [ObjBase.GetClsInfo, hf, hw, hl]
        rw [e]
        refine ⟨hI1, (ObjBase.moduleInit_frame regs _).2.2, ?_⟩
        intro info' s1 h
        simp only [Result.ok.injEq] at h
        exact hI1.creates N info' h.1

theorem ObjBase.CacheInv.inv_CreateObj {W : Type} {s : ObjBase W} (hI : s.CacheInv)
    (env : Env W) (henv : env.nonNull) (N : wstring) : (s.CreateObj env N).state.CacheInv := by
  obtain ⟨h1, -, -⟩ := hI.inv_GetClsInfo env henv N
  cases hres : s.GetClsInfo env N with
  | assertFailed s1 =>
    rw [hres] at h1
    simp only [ObjBase.CreateObj, hres]
    exact h1
  | ok v s1 =>
    rw [hres] at h1
    cases v with
    | none =>
      simp only [ObjBase.CreateObj, hres]
      exact h1
    | some info =>
      simp only [ObjBase.CreateObj, hres]
      have hI1 : s1.CacheInv := h1
      refine hI1.append_other
        { ptr := (info.obj.pfnCreate s1.world nullptr).1, use_count := 1
          deleter := Deleter.transient info
            (capturedObj env.order (info.obj.pfnCreate s1.world nullptr).2.1) }
        ?_ ?_ ?_ hI1.creates
      · intro _ _ _ h; cases h
      · rfl
      · rfl

theorem ObjBase.CacheInv.inv_CreateSingletonObj {W : Type} {s : ObjBase W} (hI : s.CacheInv)
    (env : Env W) (henv : env.nonNull) (N : wstring) :
    (s.CreateSingletonObj env N).state.CacheInv := by
  cases hl : s.singletonLookup N with
  | some r =>
    obtain ⟨b, s'⟩ := r
    obtain ⟨cb, -, hb, h0, -, hs'⟩ := ObjBase.singletonLookup_some hl
    simp only [ObjBase.CreateSingletonObj, hl, Result.state]
    rw [hs']
    refine hI.set_count (cb.use_count + 1) hb (by omega) (by omega) ?_ ?_ hI.creates
    · rfl
    · rfl
  | none =>
    have hnone := hI.lookup_miss hl
    obtain ⟨h1, h2, h3⟩ := hI.inv_GetClsInfo env henv N
    simp only [ObjBase.CreateSingletonObj, hl, ObjBase.singletonConstructStore]
    cases hres : s.GetClsInfo env N with
    | assertFailed s1 =>
      rw [hres] at h1
      exact h1
    | ok v s1 =>
      rw [hres] at h1 h2
      cases v with
      | none => exact h1
      | some info =>
        have hI1 : s1.CacheInv := h1
        have hs1 : s1.singletons_ = s.singletons_ := h2
        refine hI1.append_singleton info N
          (capturedObj env.order (info.obj.pfnCreate s1.world nullptr).2.1)
          (info.obj.pfnCreate s1.world nullptr).1 (by rw [hs1]; exact hnone)
          (h3 info s1 hres s1.world nullptr) ?_ ?_ hI1.creates
        · rfl
        · rfl

theorem ObjBase.CacheInv.inv_release {W : Type} {s : ObjBase W} (hI : s.CacheInv) (b : Nat) :
    (s.release (some b)).CacheInv := by
  cases hb : s.blocks[b]? with
  | none =>
    have e : s.release (some b) = s := by simp [ObjBase.release, hb]
    rw [e]
    exact hI
  | some cb =>
    obtain ⟨ptr, cnt, del⟩ := cb
    by_cases h0 : cnt = 0
    · have e : s.release (some b) = s := by simp [ObjBase.release, hb, h0]
      rw [e]
      exact hI
    · by_cases h1 : cnt = 1
      · rw [ObjBase.release_last s b _ hb h1]
        cases del with
        | transient info obj =>
          refine hI.kill_other hb (by intro _ _ _ h; cases h) ?_ ?_ hI.creates
          · rfl
          · rfl
        | token M =>
          refine hI.kill_other hb (by intro _ _ _ h; cases h) ?_ ?_ ?_
          · rfl
          · rfl
          · intro N i hf
            exact hI.creates N i (Map.find_of_find_erase hf).2
        | singleton info M obj =>
          refine hI.kill_singleton hb rfl (Nat.pos_of_ne_zero h0) ?_ ?_ hI.creates
          · rfl
          · rfl
      · rw [ObjBase.release_shared s b _ hb (show 2 ≤ cnt by omega)]
        refine hI.set_count (cnt - 1) hb (Nat.pos_of_ne_zero h0) (by omega) ?_ ?_ hI.creates
        · rfl
        · rfl

theorem ObjBase.CacheInv.inv_copy {W : Type} {s : ObjBase W} (hI : s.CacheInv) (b : Nat) :
    (s.copy (some b)).CacheInv := by
  cases hb : s.blocks[b]? with
  | none =>
    have e : s.copy (some b) = s := by simp [ObjBase.copy, hb]
    rw [e]
    exact hI
  | some cb =>
    by_cases h0 : cb.use_count = 0
    · have e : s.copy (some b) = s := by simp [ObjBase.copy, hb, h0]
      rw [e]
      exact hI
    · have e : s.copy (some b) =
          { s with blocks := s.blocks.set b { cb with use_count := cb.use_count + 1 } } := by
        simp [ObjBase.copy, hb, h0]
      rw [e]
      refine hI.set_count (cb.use_count + 1) hb (by omega) (by omega) ?_ ?_ hI.creates
      · rfl
      · rfl

theorem ObjBase.CacheInv.inv_step {W : Type} {s : ObjBase W} (hI : s.CacheInv) (env : Env W)
    (henv : env.nonNull) (op : Op W) (hop : op.nonNull) : (s.step env op).CacheInv := by
  cases op with
  | RegisterCls N c d => exact hI.inv_RegisterCls N c d hop
  | CreateObj N => exact hI.inv_CreateObj env henv N
  | CreateSingletonObj N => exact hI.inv_CreateSingletonObj env henv N
  | release b => exact hI.inv_release b
  | copy b => exact hI.inv_copy b

theorem ObjBase.CacheInv.inv_run {W : Type} (env : Env W) (henv : env.nonNull) (ops : List (Op W))
    {s : ObjBase W} (hI : s.CacheInv) (hops : ∀ op ∈ ops, op.nonNull) :
    (s.run env ops).CacheInv := by
  induction ops generalizing s with
  | nil => exact hI
  | cons op ops ih =>
    exact ih (hI.inv_step env henv op (hops op (List.mem_cons_self _ _)))
      (fun op' h => hops op' (List.mem_cons_of_mem _ h))

/-- C14 as stated fails. `L"Foo"` is registered with a construct function that
does not call back into the registry and fails on its first call, returning a
null interface pointer. The first `CreateSingletonObj(L"Foo")` caches that
result (block `1`, held by the caller, who sees an empty-looking handle); the
second request treats the cached null pointer as a miss and constructs block
`2`, a usable instance. Now two singleton instances of `L"Foo"` have a holder.
When the caller drops the failed handle, the deleter of block `1` erases the
entry of `L"Foo"`: the cache has no entry although the usable instance, block
`2`, is still held through a non-empty handle. -/
theorem C14_counterexample_null_interface_pointer :
    ((ObjBase.empty 0).run envPointerFirst retryOps).isLiveSingleton fooName 1 = true ∧
      ((ObjBase.empty 0).run envPointerFirst retryOps).isLiveSingleton fooName 2 = true ∧
      ((ObjBase.empty 0).run envPointerFirst retryOps).isNonEmpty (some 1) = false ∧
      Map.find fooName ((ObjBase.empty 0).run envPointerFirst retryOps).singletons_ = some 2 ∧
      Map.find fooName
        ((ObjBase.empty 0).run envPointerFirst (retryOps ++ [Op.release 1])).singletons_
        = none ∧
      ((ObjBase.empty 0).run envPointerFirst (retryOps ++ [Op.release 1])).isLiveSingleton
        fooName 2 = true ∧
      ((ObjBase.empty 0).run envPointerFirst (retryOps ++ [Op.release 1])).isNonEmpty
        (some 2) = true := by
  refine ⟨by decide, by decide, by decide, by decide, by decide, by decide, by decide⟩

/-- C14, amended. In every state reached from the empty registry by atomically
executed operations (`RegisterCls`, `CreateObj`, `CreateSingletonObj`, release
or copy of any handle), when no construct function that is registered, by a
client or by a loaded module, ever returns a null interface pointer: the cache
has an entry for `N` exactly when some singleton instance created for `N` has a
holder; there is at most one such instance; and the entry refers to it. -/
theorem C14_cache_matches_live_singletons {W : Type} (env : Env W) (ops : List (Op W))
    (w : W) (N : wstring) (henv : env.nonNull) (hops : ∀ op ∈ ops, op.nonNull) :
    ((∃ b, Map.find N ((ObjBase.empty w).run env ops).singletons_ = some b) ↔
        (∃ b, ((ObjBase.empty w).run env ops).isLiveSingleton N b = true)) ∧
      (∀ b1 b2, ((ObjBase.empty w).run env ops).isLiveSingleton N b1 = true →
        ((ObjBase.empty w).run env ops).isLiveSingleton N b2 = true → b1 = b2) ∧
      (∀ b, Map.find N ((ObjBase.empty w).run env ops).singletons_ = some b →
        ((ObjBase.empty w).run env ops).isLiveSingleton N b = true) := by
  have hI := ObjBase.CacheInv.inv_run env henv ops (ObjBase.CacheInv.inv_empty w) hops
  have hentry : ∀ b, Map.find N ((ObjBase.empty w).run env ops).singletons_ = some b →
      ((ObjBase.empty w).run env ops).isLiveSingleton N b = true := by
    intro b hf
    exact (ObjBase.isLiveSingleton_iff _ N b).mpr (hI.entry_live N b hf)
  have hlive : ∀ b, ((ObjBase.empty w).run env ops).isLiveSingleton N b = true →
      Map.find N ((ObjBase.empty w).run env ops).singletons_ = some b := by
    intro b hl
    obtain ⟨cb, info, obj, h1, h2, h3⟩ := (ObjBase.isLiveSingleton_iff _ N b).mp hl
    exact hI.live_entry N b cb info obj h1 h2 h3
  refine ⟨⟨fun ⟨b, hf⟩ => ⟨b, hentry b hf⟩, fun ⟨b, hl⟩ => ⟨b, hlive b hl⟩⟩, ?_, hentry⟩
  intro b1 b2 h1 h2
  have e1 := hlive b1 h1
  have e2 := hlive b2 h2
  rw [e1] at e2
  exact Option.some.inj e2

theorem noModules_nonNull : envPointerFirst.nonNull := by
  intro dll w w' regs h
  exact absurd h (by simp [envPointerFirst, noModules])

theorem fooCreate_nonNull : NonNullCreate fooCreate := by
  intro w p
  simp [fooCreate, nullptr]

theorem fooOps_nonNull : ∀ op ∈ fooOps, op.nonNull := by
  intro op hop
  simp only [fooOps, List.mem_cons, List.mem_singleton, List.not_mem_nil, or_false] at hop
  rcases hop with e | e | e | e | e <;> subst e
  · exact fooCreate_nonNull
  · trivial
  · trivial
  · trivial
  · trivial

/-- C14 (amended) at a concrete run: `L"Foo"` registered, its singleton requested
twice, one handle released, one transient instance created; the entry of
`L"Foo"` is the singleton, block `1`. -/
theorem C14_cache_matches_live_singletons_witness :
    (((∃ b, Map.find fooName ((ObjBase.empty 0).run envPointerFirst fooOps).singletons_ =
          some b) ↔
        (∃ b, ((ObjBase.empty 0).run envPointerFirst fooOps).isLiveSingleton fooName b
          = true)) ∧
      (∀ b1 b2,
        ((ObjBase.empty 0).run envPointerFirst fooOps).isLiveSingleton fooName b1 = true →
        ((ObjBase.empty 0).run envPointerFirst fooOps).isLiveSingleton fooName b2 = true →
        b1 = b2) ∧
      (∀ b, Map.find fooName ((ObjBase.empty 0).run envPointerFirst fooOps).singletons_ =
          some b →
        ((ObjBase.empty 0).run envPointerFirst fooOps).isLiveSingleton fooName b = true)) ∧
      Map.find fooName ((ObjBase.empty 0).run envPointerFirst fooOps).singletons_ = some 1 :=
  ⟨C14_cache_matches_live_singletons envPointerFirst fooOps 0 fooName noModules_nonNull
      fooOps_nonNull,
    by decide⟩

/-! ## Two interleaved first-time requests -/

theorem ObjBase.singletonConstructStore_registered {W : Type} (env : Env W) {N : wstring}
    {s : ObjBase W} {info : InfoPtr W} (hreg : Map.find N s.classes_ = some info) :
    s.singletonConstructStore env N =
      .ok (some s.blocks.length) (s.singletonBorn env N info) := by
  simp only [ObjBase.singletonConstructStore, ObjBase.GetClsInfo_registered env hreg,
    ObjBase.singletonBorn]

/-- A request for a discoverable singleton returns it, calls nothing, and leaves
it discoverable. -/
theorem ObjBase.Discoverable.disc_CreateSingletonObj {W : Type} {N : wstring} {b : Nat}
    {s : ObjBase W} (h : ObjBase.Discoverable N b s) (env : Env W) :
    ∃ s2, s.CreateSingletonObj env N = .ok (some b) s2 ∧ s2.trace = s.trace ∧
      s2.world = s.world ∧ s2.classes_ = s.classes_ ∧ ObjBase.Discoverable N b s2 := by
  obtain ⟨hf, cb, info, obj, hb, hdel, hpos, hptr⟩ := h
  simp only [ObjBase.CreateSingletonObj,
    ObjBase.singletonLookup_hit hf hb (Nat.pos_iff_ne_zero.mp hpos) hptr]
  refine ⟨_, rfl, rfl, rfl, rfl, hf, ?_⟩
  exact ⟨{ cb with use_count := cb.use_count + 1 }, info, obj,
    getElem?_set_self_of_some _ _ _ _ hb, hdel, by simp, hptr⟩

/-- A release that is not the last release of a singleton instance of `N` leaves
the discoverable singleton of `N` discoverable. -/
theorem ObjBase.Discoverable.disc_release {W : Type} {N : wstring} {b : Nat} {s : ObjBase W}
    (h : ObjBase.Discoverable N b s) (t : Nat)
    (ht : ∀ cb info obj, s.blocks[t]? = some cb →
      cb.deleter = Deleter.singleton info N obj → cb.use_count ≠ 1) :
    ObjBase.Discoverable N b (s.release (some t)) := by
  obtain ⟨hf, cb, info, obj, hb, hdel, hpos, hptr⟩ := h
  cases htb : s.blocks[t]? with
  | none =>
    have e : s.release (some t) = s := by simp [ObjBase.release, htb]
    rw [e]
    exact ⟨hf, cb, info, obj, hb, hdel, hpos, hptr⟩
  | some tb =>
    obtain ⟨tptr, tcnt, tdel⟩ := tb
    by_cases h0 : tcnt = 0
    · have e : s.release (some t) = s := by simp [ObjBase.release, htb, h0]
      rw [e]
      exact ⟨hf, cb, info, obj, hb, hdel, hpos, hptr⟩
    · by_cases h1 : tcnt = 1
      · have hne : t ≠ b := by
          intro e
          subst e
          rw [hb] at htb
          have ecb := Option.some.inj htb
          subst ecb
          exact ht _ info obj hb hdel h1
        have hb' : (s.release (some t)).blocks[b]? = some cb := by
          rw [ObjBase.release_blocks_ne s hne, hb]
        refine ⟨?_, cb, info, obj, hb', hdel, hpos, hptr⟩
        rw [ObjBase.release_last s t _ htb h1]
        cases tdel with
        | transient i o => exact hf
        | token M => exact hf
        | singleton i M o =>
          have hMN : N ≠ M := by
            intro e
            subst e
            exact ht _ i o htb rfl h1
          show Map.find N (Map.erase M s.singletons_) = some b
          rw [Map.find_erase_ne hMN]
          exact hf
      · rw [ObjBase.release_shared s t _ htb (show 2 ≤ tcnt by omega)]
        refine ⟨hf, ?_⟩
        by_cases e : t = b
        · subst e
          rw [hb] at htb
          have ecb := Option.some.inj htb
          subst ecb
          exact ⟨_, info, obj, getElem?_set_self_of_some _ _ _ _ hb, hdel,
            by show 0 < tcnt - 1; omega, hptr⟩
        · refine ⟨cb, info, obj, ?_, hdel, hpos, hptr⟩
          show (s.blocks.set t _)[b]? = some cb
          rw [getElem?_set_of_ne _ _ (fun e' => e e'.symm)]
          exact hb

/-- A copy of any handle leaves the discoverable singleton discoverable. -/
theorem ObjBase.Discoverable.disc_copy {W : Type} {N : wstring} {b : Nat} {s : ObjBase W}
    (h : ObjBase.Discoverable N b s) (t : Nat) :
    ObjBase.Discoverable N b (s.copy (some t)) := by
  obtain ⟨hf, cb, info, obj, hb, hdel, hpos, hptr⟩ := h
  cases htb : s.blocks[t]? with
  | none =>
    have e : s.copy (some t) = s := by simp [ObjBase.copy, htb]
    rw [e]
    exact ⟨hf, cb, info, obj, hb, hdel, hpos, hptr⟩
  | some tb =>
    by_cases h0 : tb.use_count = 0
    · have e : s.copy (some t) = s := by simp [ObjBase.copy, htb, h0]
      rw [e]
      exact ⟨hf, cb, info, obj, hb, hdel, hpos, hptr⟩
    · have e : s.copy (some t) =
          { s with blocks := s.blocks.set t { tb with use_count := tb.use_count + 1 } } := by
        simp [ObjBase.copy, htb, h0]
      rw [e]
      refine ⟨hf, ?_⟩
      by_cases e' : t = b
      · subst e'
        rw [hb] at htb
        have ecb := Option.some.inj htb
        subst ecb
        exact ⟨_, info, obj, getElem?_set_self_of_some _ _ _ _ hb, hdel, by simp, hptr⟩
      · refine ⟨cb, info, obj, ?_, hdel, hpos, hptr⟩
        show (s.blocks.set t _)[b]? = some cb
        rw [getElem?_set_of_ne _ _ (fun e'' => e' e''.symm)]
        exact hb

/-- C15 as stated fails. Two first-time requests for the singleton of `L"Foo"`
both miss the cache and both construct; instance `1` is stored first, instance
`2` last, and a later request returns instance `2`. When the last handle of
instance `1` is released, its deleter erases the entry of `L"Foo"`, which refers
to instance `2`. Instance `2` is still held, yet the next request does not
return it: it constructs a third instance, block `3`. (And when the construct
function returns a null interface pointer, the instance stored last is not
returned by a later request even while both instances are held: the last four
facts.) -/
theorem C15_counterexample_loser_release_hides_winner :
    fooRegistry.singletonLookup fooName = none ∧
      Map.find fooName raceState.singletons_ = some 2 ∧
      raceState.useCount (some 1) = 1 ∧ raceState.useCount (some 2) = 1 ∧
      (raceState.CreateSingletonObj envPointerFirst fooName).state.trace = raceState.trace ∧
      Map.find fooName (raceState.release (some 1)).singletons_ = none ∧
      (raceState.release (some 1)).useCount (some 2) = 1 ∧
      Map.find fooName
        ((raceState.release (some 1)).CreateSingletonObj envPointerFirst
          fooName).state.singletons_ = some 3 ∧
      createCount ((raceState.release (some 1)).CreateSingletonObj envPointerFirst
          fooName).state.trace = createCount raceState.trace + 1 ∧
      (raceState.release (some 1)).CreateSingletonObj envPointerFirst fooName =
        .ok (some 3)
          ((raceState.release (some 1)).CreateSingletonObj envPointerFirst fooName).state ∧
      Map.find fooName nullRaceState.singletons_ = some 2 ∧
      nullRaceState.useCount (some 1) = 1 ∧ nullRaceState.useCount (some 2) = 1 ∧
      nullRaceState.CreateSingletonObj envPointerFirst fooName =
        .ok (some 3) (nullRaceState.CreateSingletonObj envPointerFirst fooName).state := by
  refine ⟨rfl, by decide, by decide, by decide, by decide, by decide, by decide, by decide,
    by decide, rfl, by decide, by decide, by decide, rfl⟩

/-- C15, amended. Two first-time requests for a registered name `N` both miss
the cache and both run construct-then-store, the second returning a non-null
interface pointer. Both instances exist with one holder each, and the one
stored last (block `s.blocks.length + 1`) is the discoverable one: every
`CreateSingletonObj(N)` returns it, without constructing, and it stays
discoverable under requests, copies, and every release that is not the last
release of a singleton instance of `N`. The last release of the other instance
is the exception: its deleter erases the entry of `N` although the entry refers
to the instance stored last, which keeps its holder, and the next request
constructs a third instance. -/
theorem C15_last_stored_wins_until_other_instance_dies {W : Type} (env : Env W)
    (N : wstring) (s : ObjBase W) (info : InfoPtr W)
    (hreg : Map.find N s.classes_ = some info) (_hmiss : s.singletonLookup N = none)
    (hptr : (info.obj.pfnCreate (s.singletonBorn env N info).world nullptr).1 ≠ nullptr) :
    s.singletonConstructStore env N =
        .ok (some s.blocks.length) (s.singletonBorn env N info) ∧
      (s.singletonBorn env N info).singletonConstructStore env N =
        .ok (some (s.blocks.length + 1))
          ((s.singletonBorn env N info).singletonBorn env N info) ∧
      ((s.singletonBorn env N info).singletonBorn env N info).useCount
        (some s.blocks.length) = 1 ∧
      ((s.singletonBorn env N info).singletonBorn env N info).useCount
        (some (s.blocks.length + 1)) = 1 ∧
      ObjBase.Discoverable N (s.blocks.length + 1)
        ((s.singletonBorn env N info).singletonBorn env N info) ∧
      (∀ s' : ObjBase W, ObjBase.Discoverable N (s.blocks.length + 1) s' →
        ∃ s2, s'.CreateSingletonObj env N = .ok (some (s.blocks.length + 1)) s2 ∧
          s2.trace = s'.trace ∧ ObjBase.Discoverable N (s.blocks.length + 1) s2) ∧
      (∀ (s' : ObjBase W) (t : Nat), ObjBase.Discoverable N (s.blocks.length + 1) s' →
        (∀ cb i o, s'.blocks[t]? = some cb → cb.deleter = Deleter.singleton i N o →
          cb.use_count ≠ 1) →
        ObjBase.Discoverable N (s.blocks.length + 1) (s'.release (some t))) ∧
      (∀ (s' : ObjBase W) (t : Nat), ObjBase.Discoverable N (s.blocks.length + 1) s' →
        ObjBase.Discoverable N (s.blocks.length + 1) (s'.copy (some t))) ∧
      Map.find N (((s.singletonBorn env N info).singletonBorn env N info).release
        (some s.blocks.length)).singletons_ = none ∧
      (((s.singletonBorn env N info).singletonBorn env N info).release
        (some s.blocks.length)).useCount (some (s.blocks.length + 1)) = 1 ∧
      ∃ s3, (((s.singletonBorn env N info).singletonBorn env N info).release
          (some s.blocks.length)).CreateSingletonObj env N =
        .ok (some (s.blocks.length + 2)) s3 := by
  have hregA : Map.find N (s.singletonBorn env N info).classes_ = some info := hreg
  have hlenA : (s.singletonBorn env N info).blocks.length = s.blocks.length + 1 := by
    simp [ObjBase.singletonBorn]
  have h2 := ObjBase.singletonConstructStore_registered env hregA
  rw [hlenA] at h2
  have hA0 : (s.singletonBorn env N info).blocks[s.blocks.length]? = some
      { ptr := (info.obj.pfnCreate s.world nullptr).1, use_count := 1
        deleter := Deleter.singleton info N
          (capturedObj env.order (info.obj.pfnCreate s.world nullptr).2.1) } :=
    List.getElem?_concat_length _ _
  have hA : ((s.singletonBorn env N info).singletonBorn env N info).blocks[s.blocks.length]?
      = some
      { ptr := (info.obj.pfnCreate s.world nullptr).1, use_count := 1
        deleter := Deleter.singleton info N
          (capturedObj env.order (info.obj.pfnCreate s.world nullptr).2.1) } :=
    getElem?_concat_of_some _ hA0
  have hB : ((s.singletonBorn env N info).singletonBorn env N info).blocks[
      s.blocks.length + 1]? = some
      { ptr := (info.obj.pfnCreate (s.singletonBorn env N info).world nullptr).1
        use_count := 1
        deleter := Deleter.singleton info N (capturedObj env.order
          (info.obj.pfnCreate (s.singletonBorn env N info).world nullptr).2.1) } := by
    have := List.getElem?_concat_length (s.singletonBorn env N info).blocks
      { ptr := (info.obj.pfnCreate (s.singletonBorn env N info).world nullptr).1
        use_count := 1
        deleter := Deleter.singleton info N (capturedObj env.order
          (info.obj.pfnCreate (s.singletonBorn env N info).world nullptr).2.1) }
    rw [hlenA] at this
    exact this
  have hfB : Map.find N ((s.singletonBorn env N info).singletonBorn env N info).singletons_ =
      some (s.blocks.length + 1) := by
    show Map.find N (Map.assign N (s.singletonBorn env N info).blocks.length _) = _
    rw [Map.find_assign_self, hlenA]
  have hdisc : ObjBase.Discoverable N (s.blocks.length + 1)
      ((s.singletonBorn env N info).singletonBorn env N info) :=
    ⟨hfB, _, info, _, hB, rfl, by simp, hptr⟩
  have hrel := ObjBase.release_last _ s.blocks.length _ hA rfl
  have hfC : Map.find N (((s.singletonBorn env N info).singletonBorn env N info).release
      (some s.blocks.length)).singletons_ = none := by
    rw [hrel]
    exact Map.find_erase_self N _
  have hBC : (((s.singletonBorn env N info).singletonBorn env N info).release
      (some s.blocks.length)).blocks[s.blocks.length + 1]? = _ :=
    (ObjBase.release_blocks_ne _ (show s.blocks.length ≠ s.blocks.length + 1 by omega)).trans hB
  have hregC : Map.find N (((s.singletonBorn env N info).singletonBorn env N info).release
      (some s.blocks.length)).classes_ = some info := by
    rw [hrel]
    exact hreg
  have hlenC : (((s.singletonBorn env N info).singletonBorn env N info).release
      (some s.blocks.length)).blocks.length = s.blocks.length + 2 := by
    rw [hrel, ObjBase.runDeleter_blocks]
    simp [ObjBase.singletonBorn]
  have h3 := ObjBase.CreateSingletonObj_constructs env N _ info hregC
    (ObjBase.singletonLookup_none_of_find hfC)
  rw [hlenC] at h3
  refine ⟨ObjBase.singletonConstructStore_registered env hreg, h2, ?_, ?_, hdisc, ?_, ?_, ?_,
    hfC, ?_, _, h3⟩
  · simp only [ObjBase.useCount, hA]
  · simp only [ObjBase.useCount, hB]
  · intro s' hs'
    obtain ⟨s2, e1, e2, -, -, e5⟩ := hs'.disc_CreateSingletonObj env
    exact ⟨s2, e1, e2, e5⟩
  · intro s' t hs' ht
    exact hs'.disc_release t ht
  · intro s' t hs'
    exact hs'.disc_copy t
  · simp only [ObjBase.useCount, hBC]

/-- C15 (amended) at a concrete input: the two interleaved requests for
`L"Foo"`. -/
theorem C15_last_stored_wins_until_other_instance_dies_witness :
    ObjBase.Discoverable fooName 2 raceState ∧
      Map.find fooName (raceState.release (some 1)).singletons_ = none ∧
      (raceState.release (some 1)).useCount (some 2) = 1 ∧
      ∃ s3, (raceState.release (some 1)).CreateSingletonObj envPointerFirst fooName =
        .ok (some 3) s3 := by
  obtain ⟨-, -, -, -, h5, -, -, -, h9, h10, h11⟩ :=
    C15_last_stored_wins_until_other_instance_dies envPointerFirst fooName fooRegistry
      { addr := 0, obj := { pfnCreate := fooCreate, pfnDestroy := fooDestroy } } rfl rfl
      (by decide)
  exact ⟨h5, h9, h10, h11⟩

/-! ## The assertion -/

/-- A separator that `wcsstr` finds is in the string. -/
theorem mem_of_wcsstr_some {X : wstring} {p : Nat} (hw : wcsstr X DLL_SEPARATOR = some p) :
    '@' ∈ X := by
  induction X generalizing p with
  | nil => rw [wcsstr_sep_nil] at hw; exact absurd hw (by simp)
  | cons a t ih =>
    rw [wcsstr_sep_cons] at hw
    by_cases ha : a = '@'
    · simp [ha]
    · rw [if_neg ha] at hw
      cases hq : wcsstr t DLL_SEPARATOR with
      | none => rw [hq] at hw; exact absurd hw (by simp)
      | some q => exact List.mem_cons_of_mem _ (ih hq)

/-- C16 as stated fails. In a debug build in which no module loads, the name `a`,
NUL, `@`, `b` is not registered and contains the separator, and loading its
module locator fails; `GetClsInfo` raises no assertion and returns empty,
because the separator lies behind the NUL that ends the C-string view. -/
theorem C16_counterexample_no_assert_for_separator_after_NUL :
    envDebugNoModules.NDEBUG = false ∧ '@' ∈ nulName ∧
      Map.find nulName fooRegistry.classes_ = none ∧
      envDebugNoModules.LoadLibraryW (locator nulName) fooRegistry.world = none ∧
      fooRegistry.GetClsInfo envDebugNoModules nulName = .ok none fooRegistry ∧
      ¬ ∃ s1, fooRegistry.GetClsInfo envDebugNoModules nulName = .assertFailed s1 := by
  refine ⟨rfl, by decide, rfl, rfl, rfl, ?_⟩
  rintro ⟨s1, h⟩
  have e : fooRegistry.GetClsInfo envDebugNoModules nulName = .ok none fooRegistry := rfl
  rw [e] at h
  exact absurd h (by simp)

/-- C16, amended. In the debug configuration: for a name `N` that is not in the
class table and whose C-string view (the characters before the first NUL)
contains `@`, `GetClsInfo(N)` stops at the assertion exactly when loading the
module locator fails; when the load succeeds, when the C-string view of `N` has
no separator, and when `N` is registered, `GetClsInfo(N)` returns. -/
theorem C16_assert_iff_load_fails {W : Type} (env : Env W) (N : wstring) (s : ObjBase W)
    (hdebug : env.NDEBUG = false) :
    (Map.find N s.classes_ = none → '@' ∈ c_str N →
      ((∃ s1, s.GetClsInfo env N = .assertFailed s1) ↔
        env.LoadLibraryW (locator N) s.world = none)) ∧
      (Map.find N s.classes_ = none → '@' ∈ c_str N →
        ∀ w regs, env.LoadLibraryW (locator N) s.world = some (w, regs) →
          ∃ v s1, s.GetClsInfo env N = .ok v s1) ∧
      ('@' ∉ c_str N → ∃ v s1, s.GetClsInfo env N = .ok v s1) ∧
      (∀ info, Map.find N s.classes_ = some info → s.GetClsInfo env N = .ok (some info) s) := by
  have hsucc : Map.find N s.classes_ = none → '@' ∈ c_str N →
      ∀ w regs, env.LoadLibraryW (locator N) s.world = some (w, regs) →
        ∃ v s1, s.GetClsInfo env N = .ok v s1 := by
    intro hunreg hsep w regs hl
    obtain ⟨p, hw⟩ := wcsstr_isSome_of_mem hsep
    have hd := dllname_eq_locator hw
    exact ⟨_, _, by simp [ObjBase.GetClsInfo, hunreg, hw, hd, hl]; exact ⟨rfl, rfl⟩⟩
  refine ⟨?_, hsucc, ?_, fun info h => ObjBase.GetClsInfo_registered env h⟩
  · intro hunreg hsep
    obtain ⟨p, hw⟩ := wcsstr_isSome_of_mem hsep
    have hd := dllname_eq_locator hw
    constructor
    · rintro ⟨s1, h⟩
      cases hl : env.LoadLibraryW (locator N) s.world with
      | none => rfl
      | some r =>
        obtain ⟨w, regs⟩ := r
        obtain ⟨v, s2, h2⟩ := hsucc hunreg hsep w regs hl
        rw [h2] at h
        exact absurd h (by simp)
    · intro hl
      exact ⟨_, by simp [ObjBase.GetClsInfo, hunreg, hw, hd, hl, hdebug]; rfl⟩
  · intro hno
    cases hf : Map.find N s.classes_ with
    | some info => exact ⟨_, _, ObjBase.GetClsInfo_registered env hf⟩
    | none =>
      have hw : wcsstr (c_str N) DLL_SEPARATOR = none := by
        cases hw : wcsstr (c_str N) DLL_SEPARATOR with
        | none => rfl
        | some p => exact absurd (mem_of_wcsstr_some hw) hno
      exact ⟨none, s, by simp [ObjBase.GetClsInfo, hf, hw]⟩

/-- C16 (amended) at a concrete input: in the debug build without modules,
`GetClsInfo(L"missing.mod@IFoo")` stops at the assertion, `GetClsInfo(L"Bar")`
and `GetClsInfo(L"Foo")` return. -/
theorem C16_assert_iff_load_fails_witness :
    (∃ s1, fooRegistry.GetClsInfo envDebugNoModules missingName = .assertFailed s1) ∧
      (∃ v s1, fooRegistry.GetClsInfo envDebugNoModules barName = .ok v s1) ∧
      fooRegistry.GetClsInfo envDebugNoModules fooName =
        .ok (some { addr := 0, obj := { pfnCreate := fooCreate, pfnDestroy := fooDestroy } })
          fooRegistry :=
  ⟨((C16_assert_iff_load_fails envDebugNoModules missingName fooRegistry rfl).1 rfl
      (by decide)).mpr rfl,
    (C16_assert_iff_load_fails envDebugNoModules barName fooRegistry rfl).2.2.1 (by decide),
    (C16_assert_iff_load_fails envDebugNoModules fooName fooRegistry rfl).2.2.2 _ rfl⟩

/-! ## Order of erase and destroy -/

/-- The control block a construct-then-store step creates: one holder, and the
deleter of a singleton of the requested name. -/
theorem ObjBase.singletonConstructStore_block {W : Type} {env : Env W} {N : wstring}
    {s0 s1 : ObjBase W} {b : Nat}
    (h : s0.singletonConstructStore env N = .ok (some b) s1) :
    ∃ info obj ptr, s1.blocks[b]? =
      some { ptr := ptr, use_count := 1, deleter := Deleter.singleton info N obj } := by
  unfold ObjBase.singletonConstructStore at h
  cases hres : s0.GetClsInfo env N with
  | assertFailed s' => rw [hres] at h; exact absurd h (by simp)
  | ok v s' =>
    rw [hres] at h
    cases v with
    | none => exact absurd h (by simp)
    | some info =>
      simp only [Result.ok.injEq, Option.some.injEq] at h
      obtain ⟨hb, hs⟩ := h
      subst hb; subst hs
      exact ⟨info, _, _, List.getElem?_concat_length _ _⟩

/-- C17. An instance is created by a `CreateSingletonObj(N)` call that misses the
cache, as control block `b`. In any later state `s` in which `b` has its single
holder again, releasing that last handle makes exactly one destroy call, and
the cache this call is entered with is the cache of `s` with the entry of `N`
already erased: it has no entry for `N`. Nothing else is erased before or
after, so it is also the cache the release ends with. -/
theorem C17_cache_entry_erased_before_destroy {W : Type} (env : Env W) (N : wstring)
    (s0 s1 s : ObjBase W) (b : Nat) (hmiss : s0.singletonLookup N = none)
    (hcreate : s0.CreateSingletonObj env N = .ok (some b) s1)
    (hlast : s.blocks[b]? = s1.blocks[b]?) :
    ∃ (info : InfoPtr W) (obj : VoidPtr) (cache : List (wstring × Nat)),
      (s.release (some b)).trace = s.trace ++ [Event.destroy info.addr obj] ∧
      (s.release (some b)).seenAtDestroy = s.seenAtDestroy ++ [cache] ∧
      Map.find N cache = none ∧
      cache = Map.erase N s.singletons_ ∧
      (s.release (some b)).singletons_ = cache ∧
      (s.release (some b)).world = info.obj.pfnDestroy obj s.world := by
  have hcs : s0.singletonConstructStore env N = .ok (some b) s1 := by
    simpa only [ObjBase.CreateSingletonObj, hmiss] using hcreate
  obtain ⟨info, obj, ptr, hb1⟩ := ObjBase.singletonConstructStore_block hcs
  rw [hb1] at hlast
  rw [ObjBase.release_last s b _ hlast rfl]
  exact ⟨info, obj, Map.erase N s.singletons_, rfl, rfl, Map.find_erase_self N _, rfl, rfl, rfl⟩

/-- C17 at a concrete input: the singleton of `L"Foo"`, requested twice, one
handle released, then the last one. Before the release the cache holds the
entry of `L"Foo"`; the one destroy call is entered with an empty cache. -/
theorem C17_cache_entry_erased_before_destroy_witness :
    Map.find fooName ((ObjBase.empty 0).run envPointerFirst fooOps).singletons_ = some 1 ∧
      ((ObjBase.empty 0).run envPointerFirst fooOps).seenAtDestroy = [] ∧
      (((ObjBase.empty 0).run envPointerFirst fooOps).release (some 1)).seenAtDestroy
        = [[]] ∧
      ∃ (info : InfoPtr Nat) (obj : VoidPtr) (cache : List (wstring × Nat)),
        (((ObjBase.empty 0).run envPointerFirst fooOps).release (some 1)).trace =
          ((ObjBase.empty 0).run envPointerFirst fooOps).trace ++
            [Event.destroy info.addr obj] ∧
        (((ObjBase.empty 0).run envPointerFirst fooOps).release (some 1)).seenAtDestroy =
          ((ObjBase.empty 0).run envPointerFirst fooOps).seenAtDestroy ++ [cache] ∧
        Map.find fooName cache = none ∧
        cache = Map.erase fooName ((ObjBase.empty 0).run envPointerFirst fooOps).singletons_ ∧
        (((ObjBase.empty 0).run envPointerFirst fooOps).release (some 1)).singletons_ =
          cache ∧
        (((ObjBase.empty 0).run envPointerFirst fooOps).release (some 1)).world =
          info.obj.pfnDestroy obj ((ObjBase.empty 0).run envPointerFirst fooOps).world :=
  ⟨by decide, by decide, by decide,
    C17_cache_entry_erased_before_destroy envPointerFirst fooName fooRegistry
      (fooRegistry.CreateSingletonObj envPointerFirst fooName).state
      ((ObjBase.empty 0).run envPointerFirst fooOps) 1 rfl rfl rfl⟩

/-! ## The cache is consulted before the class table -/

theorem ObjBase.Discoverable.disc_RegisterCls {W : Type} {N : wstring} {b : Nat} {s : ObjBase W}
    (h : ObjBase.Discoverable N b s) (M : wstring)
    (c : W → VoidPtr → VoidPtr × VoidPtr × W) (d : VoidPtr → W → W) :
    ObjBase.Discoverable N b (s.RegisterCls M c d).2 := by
  obtain ⟨hf, cb, info, obj, hb, hdel, hpos, hptr⟩ := h
  exact ⟨hf, cb, info, obj, ObjBase.RegisterCls_blocks M c d s hb, hdel, hpos, hptr⟩

/-- C18, amended. Let the cache entry of `N` refer to a singleton instance `b` of
`N` that is held through a non-empty handle. After the registration token of `N` is
released, so that `N` is absent from the class table, and likewise after `N` is
registered again with other functions, `CreateSingletonObj(N)` returns `b`; the
request records no module load and no construct call, changes neither world nor
class table, and leaves `b` the singleton of `N`. -/
theorem C18_held_singleton_survives_unregistration {W : Type} (env : Env W) (N : wstring)
    (s : ObjBase W) (b : Nat) (hheld : ObjBase.Discoverable N b s) :
    (∀ t, s.blocks[t]? = some { ptr := 1, use_count := 1, deleter := Deleter.token N } →
      Map.find N (s.release (some t)).classes_ = none ∧
      ∃ s2, (s.release (some t)).CreateSingletonObj env N = .ok (some b) s2 ∧
        s2.trace = s.trace ∧ s2.world = s.world ∧
        Map.find N s2.classes_ = none ∧ ObjBase.Discoverable N b s2) ∧
    (∀ c d, ∃ s2, (s.RegisterCls N c d).2.CreateSingletonObj env N = .ok (some b) s2 ∧
      s2.trace = s.trace ∧ s2.world = s.world ∧
      Map.find N s2.classes_ =
        some { addr := s.nextInfo, obj := { pfnCreate := c, pfnDestroy := d } } ∧
      ObjBase.Discoverable N b s2) := by
  constructor
  · intro t ht
    have hrel : s.release (some t) =
        { s with
          blocks := s.blocks.set t { ptr := 1, use_count := 0, deleter := Deleter.token N }
          classes_ := Map.erase N s.classes_ } := by
      rw [ObjBase.release_last s t _ ht rfl]
      rfl
    have hd : ObjBase.Discoverable N b (s.release (some t)) := by
      apply hheld.disc_release t
      intro cb i o hcb hdel
      rw [ht] at hcb
      have e := Option.some.inj hcb
      subst e
      cases hdel
    have hnone : Map.find N (s.release (some t)).classes_ = none := by
      rw [hrel]
      exact Map.find_erase_self N _
    obtain ⟨s2, e1, e2, e3, e4, e5⟩ := hd.disc_CreateSingletonObj env
    refine ⟨hnone, s2, e1, ?_, ?_, ?_, e5⟩
    · rw [e2, hrel]
    · rw [e3, hrel]
    · rw [e4]; exact hnone
  · intro c d
    obtain ⟨s2, e1, e2, e3, e4, e5⟩ := (hheld.disc_RegisterCls N c d).disc_CreateSingletonObj env
    refine ⟨s2, e1, e2, e3, ?_, e5⟩
    rw [e4]
    exact Map.find_assign_self _ _ _

/-- C18 (amended) at a concrete input: the singleton of `L"Foo"` is held (block
`1`) and cached; the
token of `L"Foo"` (block `0`) is released, or `L"Foo"` is registered again. -/
theorem C18_held_singleton_survives_unregistration_witness :
    ObjBase.Discoverable fooName 1
        (fooRegistry.CreateSingletonObj envPointerFirst fooName).state ∧
      (Map.find fooName
          ((fooRegistry.CreateSingletonObj envPointerFirst fooName).state.release
            (some 0)).classes_ = none ∧
        ∃ s2, ((fooRegistry.CreateSingletonObj envPointerFirst fooName).state.release
            (some 0)).CreateSingletonObj envPointerFirst fooName = .ok (some 1) s2 ∧
          s2.trace = (fooRegistry.CreateSingletonObj envPointerFirst fooName).state.trace ∧
          s2.world = (fooRegistry.CreateSingletonObj envPointerFirst fooName).state.world ∧
          Map.find fooName s2.classes_ = none ∧ ObjBase.Discoverable fooName 1 s2) ∧
      ∃ s2, ((fooRegistry.CreateSingletonObj envPointerFirst fooName).state.RegisterCls
          fooName barCreate barDestroy).2.CreateSingletonObj envPointerFirst fooName =
          .ok (some 1) s2 ∧
        s2.trace = (fooRegistry.CreateSingletonObj envPointerFirst fooName).state.trace ∧
        s2.world = (fooRegistry.CreateSingletonObj envPointerFirst fooName).state.world ∧
        Map.find fooName s2.classes_ =
          some { addr := (fooRegistry.CreateSingletonObj envPointerFirst
                  fooName).state.nextInfo,
                 obj := { pfnCreate := barCreate, pfnDestroy := barDestroy } } ∧
        ObjBase.Discoverable fooName 1 s2 :=
  have hd : ObjBase.Discoverable fooName 1
      (fooRegistry.CreateSingletonObj envPointerFirst fooName).state :=
    ⟨by decide, _, _, _, rfl, rfl, by decide, by decide⟩
  ⟨hd,
    (C18_held_singleton_survives_unregistration envPointerFirst fooName
      (fooRegistry.CreateSingletonObj envPointerFirst fooName).state 1 hd).1 0 rfl,
    (C18_held_singleton_survives_unregistration envPointerFirst fooName
      (fooRegistry.CreateSingletonObj envPointerFirst fooName).state 1 hd).2
      barCreate barDestroy⟩

/-! ## Transient instances and the cache -/

theorem ObjBase.moduleInit_blocks_length {W : Type} (regs : List (wstring × ClassInfo W))
    (s : ObjBase W) : (ObjBase.moduleInit regs s).blocks.length = s.blocks.length + regs.length := by
  induction regs generalizing s with
  | nil => rfl
  | cons r regs ih =>
    rw [ObjBase.moduleInit_cons, ih]
    show (s.blocks ++ [_]).length + regs.length = s.blocks.length + (regs.length + 1)
    simp
    omega

/-- Resolution leaves the cache alone and frees no control block. -/
theorem ObjBase.GetClsInfo_frame {W : Type} (env : Env W) (N : wstring) (s : ObjBase W) :
    (s.GetClsInfo env N).state.singletons_ = s.singletons_ ∧
      s.blocks.length ≤ (s.GetClsInfo env N).state.blocks.length := by
  cases hf : Map.find N s.classes_ with
  | some info =>
    rw [ObjBase.GetClsInfo_registered env hf]
    exact ⟨rfl, Nat.le_refl _⟩
  | none =>
    cases hw : wcsstr (c_str N) DLL_SEPARATOR with
    | none =>
      have e : s.GetClsInfo env N = .ok none s := by simp [ObjBase.GetClsInfo, hf, hw]
      rw [e]
      exact ⟨rfl, Nat.le_refl _⟩
    | some p =>
      cases hl : env.LoadLibraryW (c_str ((c_str N).take p)) s.world with
      | none =>
        cases hdbg : env.NDEBUG with
        | true =>
          have e : s.GetClsInfo env N = .ok none { s with trace := s.trace ++
              [Event.load (c_str ((c_str N).take p)) false] } := by
            simp [ObjBase.GetClsInfo, hf, hw, hl, hdbg]
          rw [e]
          exact ⟨rfl, Nat.le_refl _⟩
        | false =>
          have e : s.GetClsInfo env N = .assertFailed { s with trace := s.trace ++
              [Event.load (c_str ((c_str N).take p)) false] } := by
            simp [ObjBase.GetClsInfo, hf, hw, hl, hdbg]
          rw [e]
          exact ⟨rfl, Nat.le_refl _⟩
      | some r =>
        obtain ⟨w, regs⟩ := r
        have e : s.GetClsInfo env N =
            .ok (Map.find N (ObjBase.moduleInit regs { s with world := w, trace := s.trace ++
                [Event.load (c_str ((c_str N).take p)) true] }).classes_)
              (ObjBase.moduleInit regs { s with world := w, trace := s.trace ++
                [Event.load (c_str ((c_str N).take p)) true] }) := by
          simp [ObjBase.GetClsInfo, hf, hw, hl]
        rw [e]
        refine ⟨(ObjBase.moduleInit_frame regs _).2.2, ?_⟩
        show s.blocks.length ≤ (ObjBase.moduleInit regs _).blocks.length
        rw [ObjBase.moduleInit_blocks_length]
        exact Nat.le_add_right _ _

theorem ObjBase.runDeleter_singletons_sub {W : Type} (d : Deleter W) (s : ObjBase W)
    {M : wstring} {b : Nat} (h : Map.find M (ObjBase.runDeleter d s).singletons_ = some b) :
    Map.find M s.singletons_ = some b := by
  cases d with
  | transient info obj => exact h
  | token N => exact h
  | singleton info N obj => exact (Map.find_of_find_erase h).2

/-- Every operation keeps the weak pointers of the cache on allocated blocks. -/
theorem ObjBase.cacheAllocated_step {W : Type} (env : Env W) (op : Op W) (s : ObjBase W)
    (h : s.cacheAllocated) : (s.step env op).cacheAllocated := by
  cases op with
  | RegisterCls N c d =>
    intro M b hf
    have := h M b hf
    show b < (s.blocks ++ [_]).length
    simp
    omega
  | CreateObj N =>
    obtain ⟨f1, f2⟩ := ObjBase.GetClsInfo_frame env N s
    show (s.CreateObj env N).state.cacheAllocated
    cases hres : s.GetClsInfo env N with
    | assertFailed s1 =>
      rw [hres] at f1 f2
      simp only [ObjBase.CreateObj, hres]
      intro M b hf
      have := h M b (by rw [← f1]; exact hf)
      exact Nat.lt_of_lt_of_le this f2
    | ok v s1 =>
      rw [hres] at f1 f2
      have f1' : s1.singletons_ = s.singletons_ := f1
      have f2' : s.blocks.length ≤ s1.blocks.length := f2
      cases v with
      | none =>
        simp only [ObjBase.CreateObj, hres]
        intro M b hf
        have := h M b (by rw [← f1']; exact hf)
        exact Nat.lt_of_lt_of_le this f2'
      | some info =>
        simp only [ObjBase.CreateObj, hres]
        intro M b hf
        have := h M b (by rw [← f1']; exact hf)
        show b < (s1.blocks ++ [_]).length
        simp
        omega
  | CreateSingletonObj N =>
    show (s.CreateSingletonObj env N).state.cacheAllocated
    cases hl : s.singletonLookup N with
    | some r =>
      obtain ⟨b', s'⟩ := r
      obtain ⟨cb, -, -, -, -, hs'⟩ := ObjBase.singletonLookup_some hl
      simp only [ObjBase.CreateSingletonObj, hl, Result.state]
      rw [hs']
      intro M b hf
      have := h M b hf
      show b < (s.blocks.set b' _).length
      simpa using this
    | none =>
      obtain ⟨f1, f2⟩ := ObjBase.GetClsInfo_frame env N s
      simp only [ObjBase.CreateSingletonObj, hl, ObjBase.singletonConstructStore]
      cases hres : s.GetClsInfo env N with
      | assertFailed s1 =>
        rw [hres] at f1 f2
        intro M b hf
        have := h M b (by rw [← f1]; exact hf)
        exact Nat.lt_of_lt_of_le this f2
      | ok v s1 =>
        rw [hres] at f1 f2
        have f1' : s1.singletons_ = s.singletons_ := f1
        have f2' : s.blocks.length ≤ s1.blocks.length := f2
        cases v with
        | none =>
          intro M b hf
          have := h M b (by rw [← f1']; exact hf)
          exact Nat.lt_of_lt_of_le this f2'
        | some info =>
          intro M b hf
          show b < (s1.blocks ++ [_]).length
          have hf' : Map.find M (Map.assign N s1.blocks.length s1.singletons_) = some b := hf
          by_cases e : M = N
          · subst e
            rw [Map.find_assign_self] at hf'
            have := Option.some.inj hf'
            simp
            omega
          · rw [Map.find_assign_ne e, f1'] at hf'
            have := h M b hf'
            simp
            omega
  | release t =>
    show (s.release (some t)).cacheAllocated
    cases hb : s.blocks[t]? with
    | none =>
      have e : s.release (some t) = s := by simp [ObjBase.release, hb]
      rw [e]
      exact h
    | some cb =>
      by_cases h0 : cb.use_count = 0
      · have e : s.release (some t) = s := by simp [ObjBase.release, hb, h0]
        rw [e]
        exact h
      · by_cases h1 : cb.use_count = 1
        · rw [ObjBase.release_last s t cb hb h1]
          intro M b hf
          have hsub : Map.find M s.singletons_ = some b :=
            ObjBase.runDeleter_singletons_sub cb.deleter
              { s with blocks := s.blocks.set t { cb with use_count := 0 } } hf
          have := h M b hsub
          rw [ObjBase.runDeleter_blocks]
          show b < (s.blocks.set t _).length
          simpa using this
        · rw [ObjBase.release_shared s t cb hb (by omega)]
          intro M b hf
          have := h M b hf
          show b < (s.blocks.set t _).length
          simpa using this
  | copy t =>
    show (s.copy (some t)).cacheAllocated
    cases hb : s.blocks[t]? with
    | none =>
      have e : s.copy (some t) = s := by simp [ObjBase.copy, hb]
      rw [e]
      exact h
    | some cb =>
      by_cases h0 : cb.use_count = 0
      · have e : s.copy (some t) = s := by simp [ObjBase.copy, hb, h0]
        rw [e]
        exact h
      · have e : s.copy (some t) =
            { s with blocks := s.blocks.set t { cb with use_count := cb.use_count + 1 } } := by
          simp [ObjBase.copy, hb, h0]
        rw [e]
        intro M b hf
        have := h M b hf
        show b < (s.blocks.set t _).length
        simpa using this

/-- In every state reached from the empty registry by atomic operations, with any
construct and destroy functions and any loader, the weak pointers of the cache
refer to allocated control blocks. -/
theorem ObjBase.cacheAllocated_run {W : Type} (env : Env W) (ops : List (Op W)) (w : W) :
    ((ObjBase.empty w).run env ops).cacheAllocated := by
  have key : ∀ (s : ObjBase W), s.cacheAllocated → (s.run env ops).cacheAllocated := by
    induction ops with
    | nil => exact fun s h => h
    | cons op ops ih => exact fun s h => ih _ (ObjBase.cacheAllocated_step env op s h)
  apply key
  intro M b hf
  exact absurd hf (by simp [ObjBase.empty, Map.find])

/-- C19. For a registered name `N` in a state whose cache refers to allocated
blocks only: `CreateObj(N)` returns a new block and leaves class table and cache
unchanged, and so does the later release of that handle. While the transient
instance is held, `CreateSingletonObj(N)` returns a block different from it (the
cached one, or a newly constructed one), which is then the entry of `N`, and
releasing the transient instance afterwards leaves the cache, and so the entry
of `N`, as it is. -/
theorem C19_transient_instance_never_cached {W : Type} (env : Env W) (N : wstring)
    (s : ObjBase W) (info : InfoPtr W) (hreg : Map.find N s.classes_ = some info)
    (hwf : s.cacheAllocated) :
    ∃ s2, s.CreateObj env N = .ok (some s.blocks.length) s2 ∧
      s2.classes_ = s.classes_ ∧ s2.singletons_ = s.singletons_ ∧
      (s2.release (some s.blocks.length)).classes_ = s.classes_ ∧
      (s2.release (some s.blocks.length)).singletons_ = s.singletons_ ∧
      (∀ M, Map.find M s2.singletons_ ≠ some s.blocks.length) ∧
      ∃ b s3, s2.CreateSingletonObj env N = .ok (some b) s3 ∧ b ≠ s.blocks.length ∧
        Map.find N s3.singletons_ = some b ∧
        s3.useCount (some s.blocks.length) = 1 ∧
        (s3.release (some s.blocks.length)).singletons_ = s3.singletons_ ∧
        Map.find N (s3.release (some s.blocks.length)).singletons_ = some b := by
  have hb2 : (s.transientBorn env info).blocks[s.blocks.length]? = some
      { ptr := (info.obj.pfnCreate s.world nullptr).1, use_count := 1
        deleter := Deleter.transient info
          (capturedObj env.order (info.obj.pfnCreate s.world nullptr).2.1) } :=
    List.getElem?_concat_length _ _
  have hrel2 := ObjBase.release_last _ _ _ hb2 rfl
  have hnot : ∀ M, Map.find M (s.transientBorn env info).singletons_ ≠ some s.blocks.length := by
    intro M hf
    exact absurd (hwf M _ hf) (Nat.lt_irrefl _)
  have hreg2 : Map.find N (s.transientBorn env info).classes_ = some info := hreg
  have hlen2 : (s.transientBorn env info).blocks.length = s.blocks.length + 1 := by
    simp [ObjBase.transientBorn]
  have hfin : ∀ (b : Nat) (s3 : ObjBase W), b ≠ s.blocks.length →
      Map.find N s3.singletons_ = some b →
      s3.blocks[s.blocks.length]? = some
        { ptr := (info.obj.pfnCreate s.world nullptr).1, use_count := 1
          deleter := Deleter.transient info
            (capturedObj env.order (info.obj.pfnCreate s.world nullptr).2.1) } →
      b ≠ s.blocks.length ∧ Map.find N s3.singletons_ = some b ∧
        s3.useCount (some s.blocks.length) = 1 ∧
        (s3.release (some s.blocks.length)).singletons_ = s3.singletons_ ∧
        Map.find N (s3.release (some s.blocks.length)).singletons_ = some b := by
    intro b s3 hne hf hb3
    have hrel3 := ObjBase.release_last s3 _ _ hb3 rfl
    refine ⟨hne, hf, by simp only [ObjBase.useCount, hb3], ?_, ?_⟩
    · rw [hrel3]; rfl
    · rw [hrel3]; exact hf
  refine ⟨s.transientBorn env info, ObjBase.CreateObj_registered env hreg, rfl, rfl, ?_, ?_,
    hnot, ?_⟩
  · rw [hrel2]; rfl
  · rw [hrel2]; rfl
  · cases hl : (s.transientBorn env info).singletonLookup N with
    | some r =>
      obtain ⟨b, s3⟩ := r
      obtain ⟨cb, hf, hcb, h0, hp, hs3⟩ := ObjBase.singletonLookup_some hl
      have hne : b ≠ s.blocks.length := fun e => hnot N (e ▸ hf)
      refine ⟨b, s3, by simp only [ObjBase.CreateSingletonObj, hl], ?_⟩
      apply hfin b s3 hne
      · rw [hs3]; exact hf
      · rw [hs3]
        show ((s.transientBorn env info).blocks.set b _)[s.blocks.length]? = _
        rw [getElem?_set_of_ne _ _ (fun e => hne e.symm)]
        exact hb2
    | none =>
      have hc := ObjBase.CreateSingletonObj_constructs env N _ info hreg2 hl
      rw [hlen2] at hc
      refine ⟨s.blocks.length + 1, _, hc, ?_⟩
      apply hfin _ _ (by omega)
      · show Map.find N (Map.assign N (s.transientBorn env info).blocks.length _) = _
        rw [Map.find_assign_self, hlen2]
      · exact getElem?_concat_of_some _ hb2

/-- C19 at a concrete input: a transient `L"Foo"` is created while the singleton
of `L"Foo"` is held. -/
theorem C19_transient_instance_never_cached_witness :
    ∃ s2, (fooRegistry.CreateSingletonObj envPointerFirst fooName).state.CreateObj
          envPointerFirst fooName = .ok (some 2) s2 ∧
      s2.classes_ = (fooRegistry.CreateSingletonObj envPointerFirst fooName).state.classes_ ∧
      s2.singletons_ = [(fooName, 1)] ∧
      (s2.release (some 2)).singletons_ = [(fooName, 1)] ∧
      ∃ b s3, s2.CreateSingletonObj envPointerFirst fooName = .ok (some b) s3 ∧ b ≠ 2 ∧
        Map.find fooName s3.singletons_ = some b ∧
        Map.find fooName (s3.release (some 2)).singletons_ = some b := by
  obtain ⟨s2, h1, h2, h3, -, h5, -, b, s3, h7, h8, h9, -, -, h12⟩ :=
    C19_transient_instance_never_cached envPointerFirst fooName
      (fooRegistry.CreateSingletonObj envPointerFirst fooName).state
      { addr := 0, obj := { pfnCreate := fooCreate, pfnDestroy := fooDestroy } } rfl
      (by
        intro M b hf
        have hb : b = 1 := by
          by_cases e : fooName = M
          · have : Map.find M (fooRegistry.CreateSingletonObj envPointerFirst
                fooName).state.singletons_ = some 1 := by
              subst e; rfl
            rw [this] at hf
            exact (Option.some.inj hf).symm
          · have : Map.find M (fooRegistry.CreateSingletonObj envPointerFirst
                fooName).state.singletons_ = none := by
              show Map.find M [(fooName, 1)] = none
              simp [Map.find, e]
            rw [this] at hf
            exact absurd hf (by simp)
        subst hb
        decide)
  exact ⟨s2, h1, h2, h3, h5, b, s3, h7, h8, h9, h12⟩

/-- Under the cache invariant, every singleton instance that has a holder is the
one a cache lookup finds. -/
theorem ObjBase.CacheInv.discoverable {W : Type} {s : ObjBase W} (hI : s.CacheInv)
    {N : wstring} {b : Nat} (hl : s.isLiveSingleton N b = true) :
    ObjBase.Discoverable N b s := by
  obtain ⟨cb, info, obj, h1, h2, h3⟩ := (ObjBase.isLiveSingleton_iff s N b).mp hl
  exact ⟨hI.live_entry N b cb info obj h1 h2 h3, cb, info, obj, h1, h2, h3,
    hI.nonnull N b cb info obj h1 h2⟩

/-! ## A held singleton across later operations -/

theorem ObjBase.moduleInit_blocks_keep {W : Type} (regs : List (wstring × ClassInfo W))
    (s : ObjBase W) {b : Nat} {cb : CtrlBlock W} (hb : s.blocks[b]? = some cb) :
    (ObjBase.moduleInit regs s).blocks[b]? = some cb := by
  induction regs generalizing s with
  | nil => exact hb
  | cons r regs ih =>
    rw [ObjBase.moduleInit_cons]
    exact ih _ (ObjBase.RegisterCls_blocks r.1 r.2.pfnCreate r.2.pfnDestroy s hb)

/-- Resolution leaves every allocated control block as it is. -/
theorem ObjBase.GetClsInfo_blocks_keep {W : Type} (env : Env W) (N : wstring) (s : ObjBase W)
    {b : Nat} {cb : CtrlBlock W} (hb : s.blocks[b]? = some cb) :
    (s.GetClsInfo env N).state.blocks[b]? = some cb := by
  cases hf : Map.find N s.classes_ with
  | some info =>
    rw [ObjBase.GetClsInfo_registered env hf]
    exact hb
  | none =>
    cases hw : wcsstr (c_str N) DLL_SEPARATOR with
    | none =>
      have e : s.GetClsInfo env N = .ok none s := by simp [ObjBase.GetClsInfo, hf, hw]
      rw [e]
      exact hb
    | some p =>
      cases hl : env.LoadLibraryW (c_str ((c_str N).take p)) s.world with
      | none =>
        cases hdbg : env.NDEBUG with
        | true =>
          have e : s.GetClsInfo env N = .ok none { s with trace := s.trace ++
              [Event.load (c_str ((c_str N).take p)) false] } := by
            simp [ObjBase.GetClsInfo, hf, hw, hl, hdbg]
          rw [e]
          exact hb
        | false =>
          have e : s.GetClsInfo env N = .assertFailed { s with trace := s.trace ++
              [Event.load (c_str ((c_str N).take p)) false] } := by
            simp [ObjBase.GetClsInfo, hf, hw, hl, hdbg]
          rw [e]
          exact hb
      | some r =>
        obtain ⟨w, regs⟩ := r
        have e : s.GetClsInfo env N =
            .ok (Map.find N (ObjBase.moduleInit regs { s with world := w, trace := s.trace ++
                [Event.load (c_str ((c_str N).take p)) true] }).classes_)
              (ObjBase.moduleInit regs { s with world := w, trace := s.trace ++
                [Event.load (c_str ((c_str N).take p)) true] }) := by
          simp [ObjBase.GetClsInfo, hf, hw, hl]
        rw [e]
        exact ObjBase.moduleInit_blocks_keep regs _ hb

theorem ObjBase.cachedHeld.of_frame {W : Type} {N : wstring} {b : Nat} {s s' : ObjBase W}
    (h : ObjBase.cachedHeld N b s) (hs : s'.singletons_ = s.singletons_)
    (hb : ∀ cb : CtrlBlock W, s.blocks[b]? = some cb → s'.blocks[b]? = some cb) :
    ObjBase.cachedHeld N b s' := by
  obtain ⟨hf, cb, hcb, hpos, hptr⟩ := h
  exact ⟨by rw [hs]; exact hf, cb, hb cb hcb, hpos, hptr⟩

theorem ObjBase.cachedHeld.lookup {W : Type} {N : wstring} {b : Nat} {s : ObjBase W}
    (h : ObjBase.cachedHeld N b s) :
    ∃ cb, s.blocks[b]? = some cb ∧ 0 < cb.use_count ∧ cb.ptr ≠ nullptr ∧
      s.singletonLookup N =
        some (b, { s with blocks := s.blocks.set b { cb with use_count := cb.use_count + 1 } }) := by
  obtain ⟨hf, cb, hcb, hpos, hptr⟩ := h
  exact ⟨cb, hcb, hpos, hptr,
    ObjBase.singletonLookup_hit hf hcb (Nat.pos_iff_ne_zero.mp hpos) hptr⟩

/-- A change of the number of holders of some block to a positive number keeps
the held singleton. -/
theorem ObjBase.cachedHeld.of_set {W : Type} {N : wstring} {b : Nat} {s s' : ObjBase W}
    (h : ObjBase.cachedHeld N b s) {t : Nat} {tb : CtrlBlock W} (n : Nat)
    (htb : s.blocks[t]? = some tb) (hn : 0 < n)
    (hs : s'.singletons_ = s.singletons_)
    (hb : s'.blocks = s.blocks.set t { tb with use_count := n }) :
    ObjBase.cachedHeld N b s' := by
  obtain ⟨hf, cb, hcb, hpos, hptr⟩ := h
  refine ⟨by rw [hs]; exact hf, ?_⟩
  rw [hb]
  by_cases e : t = b
  · subst e
    rw [hcb] at htb
    have ecb := Option.some.inj htb
    subst ecb
    exact ⟨_, getElem?_set_self_of_some _ _ _ _ hcb, hn, hptr⟩
  · exact ⟨cb, by rw [getElem?_set_of_ne _ _ (fun e' => e e'.symm)]; exact hcb, hpos, hptr⟩

/-- Every operation that is not the last release of the held block, nor of a
singleton instance of `N`, keeps the held singleton of `N`. -/
theorem ObjBase.cachedHeld.of_step {W : Type} {N : wstring} {b : Nat} {s : ObjBase W}
    (h : ObjBase.cachedHeld N b s) (env : Env W) (op : Op W) (hop : op.keeps N b s) :
    ObjBase.cachedHeld N b (s.step env op) := by
  cases op with
  | RegisterCls M c d =>
    exact h.of_frame rfl (fun cb hcb => ObjBase.RegisterCls_blocks M c d s hcb)
  | CreateObj M =>
    show ObjBase.cachedHeld N b (s.CreateObj env M).state
    have f1 := (ObjBase.GetClsInfo_frame env M s).1
    have f3 : ∀ cb : CtrlBlock W, s.blocks[b]? = some cb →
        (s.GetClsInfo env M).state.blocks[b]? = some cb :=
      fun cb hcb => ObjBase.GetClsInfo_blocks_keep env M s hcb
    cases hres : s.GetClsInfo env M with
    | assertFailed s1 =>
      rw [hres] at f1 f3
      simp only [ObjBase.CreateObj, hres]
      exact h.of_frame f1 f3
    | ok v s1 =>
      rw [hres] at f1 f3
      cases v with
      | none =>
        simp only [ObjBase.CreateObj, hres]
        exact h.of_frame f1 f3
      | some info =>
        simp only [ObjBase.CreateObj, hres]
        refine h.of_frame f1 ?_
        intro cb hcb
        exact getElem?_concat_of_some _ (f3 cb hcb)
  | CreateSingletonObj M =>
    show ObjBase.cachedHeld N b (s.CreateSingletonObj env M).state
    cases hl : s.singletonLookup M with
    | some r =>
      obtain ⟨b', s'⟩ := r
      obtain ⟨cb', -, hcb', -, -, hs'⟩ := ObjBase.singletonLookup_some hl
      simp only [ObjBase.CreateSingletonObj, hl, Result.state]
      rw [hs']
      refine h.of_set (cb'.use_count + 1) hcb' (by omega) ?_ ?_
      · rfl
      · rfl
    | none =>
      have hMN : N ≠ M := by
        intro e
        subst e
        obtain ⟨cb, -, -, -, hhit⟩ := h.lookup
        rw [hhit] at hl
        exact absurd hl (by simp)
      have f1 := (ObjBase.GetClsInfo_frame env M s).1
      have f3 : ∀ cb : CtrlBlock W, s.blocks[b]? = some cb →
          (s.GetClsInfo env M).state.blocks[b]? = some cb :=
        fun cb hcb => ObjBase.GetClsInfo_blocks_keep env M s hcb
      simp only [ObjBase.CreateSingletonObj, hl, ObjBase.singletonConstructStore]
      cases hres : s.GetClsInfo env M with
      | assertFailed s1 =>
        rw [hres] at f1 f3
        exact h.of_frame f1 f3
      | ok v s1 =>
        rw [hres] at f1 f3
        cases v with
        | none => exact h.of_frame f1 f3
        | some info =>
          have h1 : ObjBase.cachedHeld N b s1 := h.of_frame f1 f3
          obtain ⟨hf, cb, hcb, hpos, hptr⟩ := h1
          refine ⟨?_, cb, getElem?_concat_of_some _ hcb, hpos, hptr⟩
          show Map.find N (Map.assign M s1.blocks.length s1.singletons_) = some b
          rw [Map.find_assign_ne hMN]
          exact hf
  | copy t =>
    show ObjBase.cachedHeld N b (s.copy (some t))
    cases htb : s.blocks[t]? with
    | none =>
      have e : s.copy (some t) = s := by simp [ObjBase.copy, htb]
      rw [e]
      exact h
    | some tb =>
      by_cases h0 : tb.use_count = 0
      · have e : s.copy (some t) = s := by simp [ObjBase.copy, htb, h0]
        rw [e]
        exact h
      · have e : s.copy (some t) =
            { s with blocks := s.blocks.set t { tb with use_count := tb.use_count + 1 } } := by
          simp [ObjBase.copy, htb, h0]
        rw [e]
        refine h.of_set (tb.use_count + 1) htb (by omega) ?_ ?_
        · rfl
        · rfl
  | release t =>
    show ObjBase.cachedHeld N b (s.release (some t))
    cases htb : s.blocks[t]? with
    | none =>
      have e : s.release (some t) = s := by simp [ObjBase.release, htb]
      rw [e]
      exact h
    | some tb =>
      obtain ⟨tptr, tcnt, tdel⟩ := tb
      by_cases h0 : tcnt = 0
      · have e : s.release (some t) = s := by simp [ObjBase.release, htb, h0]
        rw [e]
        exact h
      · by_cases h1 : tcnt = 1
        · obtain ⟨hne, hdel⟩ := hop _ htb h1
          obtain ⟨hf, cb, hcb, hpos, hptr⟩ := h
          have hcb' : (s.release (some t)).blocks[b]? = some cb := by
            rw [ObjBase.release_blocks_ne s hne, hcb]
          refine ⟨?_, cb, hcb', hpos, hptr⟩
          rw [ObjBase.release_last s t _ htb h1]
          cases tdel with
          | transient i o => exact hf
          | token M => exact hf
          | singleton i M o =>
            have hMN : N ≠ M := by
              intro e
              subst e
              exact hdel i o rfl
            show Map.find N (Map.erase M s.singletons_) = some b
            rw [Map.find_erase_ne hMN]
            exact hf
        · rw [ObjBase.release_shared s t _ htb (show 2 ≤ tcnt by omega)]
          refine h.of_set (tcnt - 1) htb (by omega) ?_ ?_
          · rfl
          · rfl

theorem ObjBase.cachedHeld.of_run {W : Type} {N : wstring} {b : Nat} (env : Env W)
    (ops : List (Op W)) {s : ObjBase W} (h : ObjBase.cachedHeld N b s)
    (hops : ObjBase.keepsAlong env N b ops s) : ObjBase.cachedHeld N b (s.run env ops) := by
  induction ops generalizing s with
  | nil => exact h
  | cons op ops ih => exact ih (h.of_step env op hops.1) hops.2

/-- A request for a held cached singleton returns it and constructs nothing;
releasing one of the two handles destroys nothing and keeps the entry. -/
theorem ObjBase.cachedHeld.request {W : Type} {N : wstring} {b : Nat} {s : ObjBase W}
    (h : ObjBase.cachedHeld N b s) (env : Env W) :
    ∃ s2, s.CreateSingletonObj env N = .ok (some b) s2 ∧
      s2.trace = s.trace ∧ s2.world = s.world ∧
      s2.useCount (some b) = s.useCount (some b) + 1 ∧
      Map.find N s2.singletons_ = some b ∧
      (s2.release (some b)).trace = s.trace ∧ (s2.release (some b)).world = s.world ∧
      Map.find N (s2.release (some b)).singletons_ = some b ∧
      (s2.release (some b)).useCount (some b) = s.useCount (some b) ∧
      0 < s.useCount (some b) ∧
      (s2.release (some b)).isNonEmpty (some b) = true := by
  obtain ⟨hf, cb, hb, hpos, hp⟩ := h
  have h0 : cb.use_count ≠ 0 := Nat.pos_iff_ne_zero.mp hpos
  have hb2 := getElem?_set_self_of_some s.blocks b cb
    { cb with use_count := cb.use_count + 1 } hb
  simp only [ObjBase.CreateSingletonObj, ObjBase.singletonLookup_hit hf hb h0 hp]
  refine ⟨_, rfl, rfl, rfl, ?_, hf, ?_⟩
  · simp [ObjBase.useCount, hb, hb2]
  · rw [ObjBase.release_shared _ b _ hb2 (by simp; omega)]
    have hlt : b < s.blocks.length := getElem?_lt_of_some hb
    refine ⟨rfl, rfl, hf, ?_, ?_, ?_⟩
    · simp [ObjBase.useCount, hb, hlt]
    · simp only [ObjBase.useCount, hb]; omega
    · simp [ObjBase.isNonEmpty, hlt, hp]

/-- C2 as stated fails. `L"Foo"` is registered with a construct function that
fails on its first call, and a first singleton request has cached the failed
result (block `1`, an empty-looking handle the caller still holds). In that
state a request for `L"Foo"` constructs and returns the non-empty handle `h1`,
block `2`. The caller then drops the failed handle; `h1` keeps its holder, but
the deleter of block `1` erases the entry of `L"Foo"`. The next request, made
while `h1` is still held, calls the construct function again and returns a
different instance, block `3`. -/
theorem C2_counterexample_later_request_after_other_singleton_died :
    retryFirst.CreateSingletonObj envPointerFirst fooName =
        .ok (some 2) (retryFirst.CreateSingletonObj envPointerFirst fooName).state ∧
      (retryFirst.CreateSingletonObj envPointerFirst fooName).state.isNonEmpty (some 2)
        = true ∧
      ((retryFirst.CreateSingletonObj envPointerFirst fooName).state.release
        (some 1)).useCount (some 2) = 1 ∧
      ((retryFirst.CreateSingletonObj envPointerFirst fooName).state.release
        (some 1)).isNonEmpty (some 2) = true ∧
      ((retryFirst.CreateSingletonObj envPointerFirst fooName).state.release
          (some 1)).CreateSingletonObj envPointerFirst fooName =
        .ok (some 3)
          (((retryFirst.CreateSingletonObj envPointerFirst fooName).state.release
            (some 1)).CreateSingletonObj envPointerFirst fooName).state ∧
      createCount (((retryFirst.CreateSingletonObj envPointerFirst fooName).state.release
          (some 1)).CreateSingletonObj envPointerFirst fooName).state.trace =
        createCount ((retryFirst.CreateSingletonObj envPointerFirst fooName).state.release
          (some 1)).trace + 1 := by
  refine ⟨rfl, by decide, by decide, by decide, rfl, by decide⟩

/-- C2, amended. A first `CreateSingletonObj(N)` returned the non-empty handle of
block `b`. Then any operations follow (registrations, transient and singleton
requests, copies, releases) none of which is the release of the last handle of
`b` or of the last handle of a singleton instance of `N`. A
`CreateSingletonObj(N)` made after them returns the same block `b`, with one
more owner and without any construct call; releasing one of the two handles
calls no destroy function, changes nothing outside the registry, and leaves the
cache entry of `N` on the instance, which keeps the owners it had. -/
theorem C2_later_request_shares_instance_until_a_singleton_dies {W : Type} (env : Env W)
    (N : wstring) (s s1 : ObjBase W) (b : Nat) (ops : List (Op W))
    (hfirst : s.CreateSingletonObj env N = .ok (some b) s1)
    (hne : s1.isNonEmpty (some b) = true)
    (hops : ObjBase.keepsAlong env N b ops s1) :
    ∃ s2, (s1.run env ops).CreateSingletonObj env N = .ok (some b) s2 ∧
      s2.trace = (s1.run env ops).trace ∧ s2.world = (s1.run env ops).world ∧
      s2.useCount (some b) = (s1.run env ops).useCount (some b) + 1 ∧
      Map.find N s2.singletons_ = some b ∧
      (s2.release (some b)).trace = (s1.run env ops).trace ∧
      (s2.release (some b)).world = (s1.run env ops).world ∧
      Map.find N (s2.release (some b)).singletons_ = some b ∧
      (s2.release (some b)).useCount (some b) = (s1.run env ops).useCount (some b) ∧
      0 < (s1.run env ops).useCount (some b) ∧
      (s2.release (some b)).isNonEmpty (some b) = true := by
  obtain ⟨b', cb, hh, hf, hb, h0, hp⟩ := ObjBase.singleton_cached hfirst hne
  have e : b' = b := (Option.some.inj hh).symm
  subst e
  have hheld : ObjBase.cachedHeld N b' s1 := ⟨hf, cb, hb, Nat.pos_of_ne_zero h0, hp⟩
  exact (hheld.of_run env ops hops).request env

theorem betweenOps_keepsAlong :
    ObjBase.keepsAlong envPointerFirst fooName 1 betweenOps
      (fooRegistry.CreateSingletonObj envPointerFirst fooName).state := by
  refine ⟨trivial, trivial, ?_, ?_, ?_, trivial⟩
  · intro cb hcb h1
    have e : ((((fooRegistry.CreateSingletonObj envPointerFirst fooName).state.step
        envPointerFirst (Op.CreateObj fooName)).step envPointerFirst (Op.copy 1)).blocks[1]?)
        = some { ptr := 108, use_count := 2
                 deleter := Deleter.singleton
                   { addr := 0, obj := { pfnCreate := fooCreate, pfnDestroy := fooDestroy } }
                   fooName 100 } := rfl
    rw [e] at hcb
    cases hcb
    exact absurd h1 (by decide)
  · intro cb hcb h1
    have e : (((((fooRegistry.CreateSingletonObj envPointerFirst fooName).state.step
        envPointerFirst (Op.CreateObj fooName)).step envPointerFirst (Op.copy 1)).step
        envPointerFirst (Op.release 1)).blocks[2]?)
        = some { ptr := 108, use_count := 1
                 deleter := Deleter.transient
                   { addr := 0, obj := { pfnCreate := fooCreate, pfnDestroy := fooDestroy } }
                   100 } := rfl
    rw [e] at hcb
    cases hcb
    exact ⟨by decide, fun _ _ h => by cases h⟩
  · intro cb hcb h1
    have e : ((((((fooRegistry.CreateSingletonObj envPointerFirst fooName).state.step
        envPointerFirst (Op.CreateObj fooName)).step envPointerFirst (Op.copy 1)).step
        envPointerFirst (Op.release 1)).step envPointerFirst (Op.release 2)).blocks[0]?)
        = some { ptr := 1, use_count := 1, deleter := Deleter.token fooName } := rfl
    rw [e] at hcb
    cases hcb
    exact ⟨by decide, fun _ _ h => by cases h⟩

/-- C2 (amended) at a concrete input: the singleton of `L"Foo"` is held (block
`1`); a transient instance is created and released, the singleton handle is
copied and the copy released, the token of `L"Foo"` is released; the request
made afterwards returns block `1` again. -/
theorem C2_later_request_shares_instance_until_a_singleton_dies_witness :
    fooRegistry.CreateSingletonObj envPointerFirst fooName =
        .ok (some 1) (fooRegistry.CreateSingletonObj envPointerFirst fooName).state ∧
      (fooRegistry.CreateSingletonObj envPointerFirst fooName).state.isNonEmpty (some 1)
        = true ∧
      Map.find fooName
        ((fooRegistry.CreateSingletonObj envPointerFirst fooName).state.run envPointerFirst
          betweenOps).classes_ = none ∧
      ∃ s2, ((fooRegistry.CreateSingletonObj envPointerFirst fooName).state.run
            envPointerFirst betweenOps).CreateSingletonObj envPointerFirst fooName =
          .ok (some 1) s2 ∧
        s2.trace = ((fooRegistry.CreateSingletonObj envPointerFirst fooName).state.run
          envPointerFirst betweenOps).trace ∧
        Map.find fooName s2.singletons_ = some 1 ∧
        (s2.release (some 1)).trace =
          ((fooRegistry.CreateSingletonObj envPointerFirst fooName).state.run
            envPointerFirst betweenOps).trace ∧
        Map.find fooName (s2.release (some 1)).singletons_ = some 1 := by
  obtain ⟨s2, h1, h2, -, -, h5, h6, -, h8, -, -, -⟩ :=
    C2_later_request_shares_instance_until_a_singleton_dies envPointerFirst fooName fooRegistry
      (fooRegistry.CreateSingletonObj envPointerFirst fooName).state 1 betweenOps rfl rfl
      betweenOps_keepsAlong
  exact ⟨rfl, rfl, rfl, s2, h1, h2, h5, h6, h8⟩

/-- C18 as stated fails. `L"Foo"` is registered with the construct function that
fails once; the failed first result and the usable second one (block `2`) were
both created as singletons, and the caller has dropped the failed handle, whose
deleter erased the entry of `L"Foo"`. So `L"Foo"` has a live singleton instance,
block `2`, held through a non-empty handle, that the cache does not refer to.
When the token of `L"Foo"` (block `0`) is then released, `CreateSingletonObj`
consults the class table and returns empty; when `L"Foo"` is instead registered
again with other functions, it calls the new construct function and returns a
new instance, block `4`. In neither case does it return the held instance. -/
theorem C18_counterexample_held_singleton_outside_cache :
    ((ObjBase.empty 0).run envPointerFirst (retryOps ++ [Op.release 1])).isLiveSingleton
        fooName 2 = true ∧
      ((ObjBase.empty 0).run envPointerFirst (retryOps ++ [Op.release 1])).isNonEmpty
        (some 2) = true ∧
      Map.find fooName
        (((ObjBase.empty 0).run envPointerFirst (retryOps ++ [Op.release 1])).release
          (some 0)).classes_ = none ∧
      (((ObjBase.empty 0).run envPointerFirst (retryOps ++ [Op.release 1])).release
          (some 0)).CreateSingletonObj envPointerFirst fooName =
        .ok none
          (((ObjBase.empty 0).run envPointerFirst (retryOps ++ [Op.release 1])).release
            (some 0)) ∧
      ((((ObjBase.empty 0).run envPointerFirst (retryOps ++ [Op.release 1])).RegisterCls
          fooName barCreate barDestroy).2).CreateSingletonObj envPointerFirst fooName =
        .ok (some 4)
          (((((ObjBase.empty 0).run envPointerFirst (retryOps ++ [Op.release 1])).RegisterCls
            fooName barCreate barDestroy).2).CreateSingletonObj envPointerFirst
              fooName).state ∧
      createCount (((((ObjBase.empty 0).run envPointerFirst
          (retryOps ++ [Op.release 1])).RegisterCls fooName barCreate
            barDestroy).2).CreateSingletonObj envPointerFirst fooName).state.trace =
        createCount ((ObjBase.empty 0).run envPointerFirst
          (retryOps ++ [Op.release 1])).trace + 1 := by
  refine ⟨by decide, by decide, rfl, rfl, rfl, by decide⟩

end ObjBaseModel
